import Mathlib

/-!
# blackbox: beam tracing on the hidden-atom grid

A shallow embedding of `main.c`.  C `int` values are modelled by `Int`; the
arithmetic is exact for every size whose grid `(size+2)^2` fits an `int`,
which is what the program needs to allocate the grid at all.

`g_paiGrid` is modelled by a total function `Int → Int`: the values at the
indices `0 .. iCellNo-1` are the grid, the values at all other indices stand
for whatever memory surrounds the allocation.  The theorems quantify over
that surrounding memory, so a result proved here does not depend on it.
-/

namespace Blackbox

/-! ## Constants (`#define`s) -/

def CELL_EMPTY : Int := 0
def CELL_BORDER : Int := 1
def CELL_ATOM : Int := 2

def DIR_NONE : Int := 0
def DIR_UP : Int := 1
def DIR_LEFT : Int := 2
def DIR_DOWN : Int := 3
def DIR_RIGHT : Int := 4

def ATOM_NONE : Int := 0
def ATOM_CENTER : Int := 1
def ATOM_LEFT : Int := 2
def ATOM_RIGHT : Int := 3

/-! ## Options -/

/-- The struct `s_options`. -/
structure t_options where
  iAtomNo : Int
  iWidth : Int
  iSize : Int
  iCellNo : Int
  bPrtBrd : Int
deriving DecidableEq, Repr

/-- The part of `getOptions` that fills `g_tOpts`: the size and the atom count
    come from the command line, width and cell count are derived from them. -/
def getOptions (iSize iAtomNo : Int) : t_options :=
  { iAtomNo := iAtomNo
    iSize := iSize
    bPrtBrd := 0
    iWidth := iSize + 2
    iCellNo := (iSize + 2) * (iSize + 2) }

/-- The grid `g_paiGrid`, indexed by cell number. -/
abbrev Grid := Int → Int

/-! ## Coordinates -/

/-- `cellToXY`: C `%` and `/` truncate toward zero. -/
def cellToXY (o : t_options) (iCell : Int) : Int × Int :=
  (Int.tmod iCell o.iWidth, Int.tdiv iCell o.iWidth)

/-- `cellFromXY`. -/
def cellFromXY (o : t_options) (iX iY : Int) : Int :=
  iX + o.iWidth * iY

/-! ## Node numbers -/

/-- `getEntryNode`, after the number `iBeam` has been read from the input.
    `piDirection` is the value the caller's direction variable holds before the
    call; the result is the pair (`*piEntryCell`, `*piDirection`) after it. -/
def getEntryNode (o : t_options) (iBeam : Int) (piDirection : Int) : Int × Int :=
  if iBeam < 1 ∨ iBeam > o.iCellNo - 1 then
    (-1, piDirection)
  else
    let st : Int × Int × Int := (0, 0, piDirection)
    let st := if iBeam ≥ 1 ∧ iBeam ≤ o.iSize then
        (0, iBeam, DIR_RIGHT) else st
    let st := if iBeam ≥ o.iSize + 1 ∧ iBeam ≤ 2 * o.iSize then
        (iBeam - o.iSize, o.iWidth - 1, DIR_UP) else st
    let st := if iBeam ≥ 2 * o.iSize + 1 ∧ iBeam ≤ 3 * o.iSize then
        (o.iWidth - 1, (3 * o.iSize + 1) - iBeam, DIR_LEFT) else st
    let st := if iBeam ≥ 3 * o.iSize + 1 ∧ iBeam ≤ 4 * o.iSize then
        ((4 * o.iSize + 1) - iBeam, 0, DIR_DOWN) else st
    (cellFromXY o st.1 st.2.1, st.2.2)

/-- `getExitNode`: four independent `if` statements, each overwriting
    `iBeam`. -/
def getExitNode (o : t_options) (iCell : Int) : Int :=
  let iX := (cellToXY o iCell).1
  let iY := (cellToXY o iCell).2
  let iBeam : Int := 0
  let iBeam := if iX = 0 then iY else iBeam
  let iBeam := if iY = o.iWidth - 1 then iX + o.iSize else iBeam
  let iBeam := if iX = o.iWidth - 1 then (3 * o.iSize + 1) - iY else iBeam
  let iBeam := if iY = 0 then (4 * o.iSize + 1) - iX else iBeam
  iBeam

/-! ## Beam engine -/

/-- `lookAhead`: the three grid reads of the matching direction, then the
    priority test front, front left, front right. -/
def lookAhead (o : t_options) (g : Grid) (iCell iDirection : Int) : Int :=
  let st : Int × Int × Int := (0, 0, 0)
  let st := if iDirection = DIR_UP then
      (g (iCell - o.iWidth), g (iCell - o.iWidth - 1), g (iCell - o.iWidth + 1)) else st
  let st := if iDirection = DIR_LEFT then
      (g (iCell - 1), g (iCell - 1 + o.iWidth), g (iCell - 1 - o.iWidth)) else st
  let st := if iDirection = DIR_DOWN then
      (g (iCell + o.iWidth), g (iCell + o.iWidth + 1), g (iCell + o.iWidth - 1)) else st
  let st := if iDirection = DIR_RIGHT then
      (g (iCell + 1), g (iCell + 1 - o.iWidth), g (iCell + 1 + o.iWidth)) else st
  if st.1 = CELL_ATOM then ATOM_CENTER
  else if st.2.1 = CELL_ATOM then ATOM_LEFT
  else if st.2.2 = CELL_ATOM then ATOM_RIGHT
  else ATOM_NONE

/-- `turnBeam`. -/
def turnBeam (iAtom iDirection : Int) : Int :=
  let iDirection :=
    if iAtom = ATOM_LEFT then
      (if iDirection - 1 = 0 then 4 else iDirection - 1)
    else iDirection
  let iDirection :=
    if iAtom = ATOM_RIGHT then
      (if iDirection + 1 = 5 then 1 else iDirection + 1)
    else iDirection
  iDirection

/-- `goAhead`. -/
def goAhead (o : t_options) (iCell iDirection : Int) : Int :=
  if iDirection = DIR_UP then iCell - o.iWidth
  else if iDirection = DIR_LEFT then iCell - 1
  else if iDirection = DIR_DOWN then iCell + o.iWidth
  else if iDirection = DIR_RIGHT then iCell + 1
  else -1

/-- What the inner `while` loop of `walkGrid` hands back: either the function
    returned from inside the loop, or the loop ended with this direction and
    this look-ahead result. -/
inductive TurnOut where
  | ret (iCell : Int)
  | fin (iDirection iAtom : Int)
deriving DecidableEq, Repr

/-- The inner loop of `walkGrid` (`while (iAtom == ATOM_LEFT || iAtom ==
    ATOM_RIGHT)`), with a bound on the number of iterations; `none` when the
    bound is used up. -/
def turnLoop (o : t_options) (g : Grid) (iCell : Int) : Nat → Int → Int → Option TurnOut
  | fuel, iAtom, iDirection =>
    if iAtom = ATOM_LEFT ∨ iAtom = ATOM_RIGHT then
      match fuel with
      | 0 => none
      | fuel + 1 =>
        let iDirection := turnBeam iAtom iDirection
        let iAtom := lookAhead o g iCell iDirection
        if g iCell = CELL_BORDER then some (TurnOut.ret iCell)
        else turnLoop o g iCell fuel iAtom iDirection
    else some (TurnOut.fin iDirection iAtom)

/-- `walkGrid`: the `while (1)` loop with a bound on the number of iterations;
    `none` when the bound is used up, `some iCell` for `return iCell`. -/
def walkGrid (o : t_options) (g : Grid) : Nat → Int → Int → Option Int
  | 0, _, _ => none
  | fuel + 1, iCell, iDirection =>
    let iAtom := lookAhead o g iCell iDirection
    if iAtom = ATOM_CENTER then some 0
    else
      match turnLoop o g iCell (fuel + 1) iAtom iDirection with
      | none => none
      | some (TurnOut.ret c) => some c
      | some (TurnOut.fin iDirection _) =>
        let iCell := goAhead o iCell iDirection
        if g iCell = CELL_BORDER then some iCell
        else walkGrid o g fuel iCell iDirection

/-- The inner loop of `walkGrid` as in `turnLoop`, recording in addition every
    call of `turnBeam` as (cell, direction before, direction after). -/
def turnLoopLog (o : t_options) (g : Grid) (iCell : Int) :
    Nat → Int → Int → List (Int × Int × Int) → Option (TurnOut × List (Int × Int × Int))
  | fuel, iAtom, iDirection, log =>
    if iAtom = ATOM_LEFT ∨ iAtom = ATOM_RIGHT then
      match fuel with
      | 0 => none
      | fuel + 1 =>
        let log := log ++ [(iCell, iDirection, turnBeam iAtom iDirection)]
        let iDirection := turnBeam iAtom iDirection
        let iAtom := lookAhead o g iCell iDirection
        if g iCell = CELL_BORDER then some (TurnOut.ret iCell, log)
        else turnLoopLog o g iCell fuel iAtom iDirection log
    else some (TurnOut.fin iDirection iAtom, log)

/-- The function `walkGrid` as above, returning in addition the list of turns the
    beam made, in the order they were made. -/
def walkGridLog (o : t_options) (g : Grid) :
    Nat → Int → Int → List (Int × Int × Int) → Option (Int × List (Int × Int × Int))
  | 0, _, _, _ => none
  | fuel + 1, iCell, iDirection, log =>
    let iAtom := lookAhead o g iCell iDirection
    if iAtom = ATOM_CENTER then some (0, log)
    else
      match turnLoopLog o g iCell (fuel + 1) iAtom iDirection log with
      | none => none
      | some (TurnOut.ret c, log) => some (c, log)
      | some (TurnOut.fin iDirection _, log) =>
        let iCell := goAhead o iCell iDirection
        if g iCell = CELL_BORDER then some (iCell, log)
        else walkGridLog o g fuel iCell iDirection log

/-- The three outcomes of a beam trial. -/
inductive Outcome where
  | reflected
  | absorbed
  | exited (iNodeExit : Int)
deriving DecidableEq, Repr

/-- The classification of a trial in `main`: reflected when the exit cell is the
    entry cell, else absorbed when it is 0, else exited at `getExitNode`. -/
def classify (o : t_options) (iCellEntry iCellExit : Int) : Outcome :=
  if iCellExit = iCellEntry then Outcome.reflected
  else if iCellExit = 0 then Outcome.absorbed
  else Outcome.exited (getExitNode o iCellExit)

/-! ## Score -/

def SCORE_ATOM : Int := -5
def SCORE_EXIT : Int := -3
def SCORE_REFLECTED : Int := -2
def SCORE_ABSORBED : Int := -1

/-- The struct `s_score`. -/
structure t_score where
  iMissedAtoms : Int
  iAbsorbed : Int
  iReflected : Int
  iExited : Int
deriving DecidableEq, Repr

/-- The numbers `printScore` prints: the four products of the lines "Missed
    Atoms", "Exited beams", "Reflected beams", "Absorbed beams", and the "Sum
    total". -/
def printScore (sc : t_score) : (Int × Int × Int × Int) × Int :=
  ((SCORE_ATOM * sc.iMissedAtoms,
    SCORE_EXIT * sc.iExited,
    SCORE_REFLECTED * sc.iReflected,
    SCORE_ABSORBED * sc.iAbsorbed),
   SCORE_ATOM * sc.iMissedAtoms +
   SCORE_EXIT * sc.iExited +
   SCORE_REFLECTED * sc.iReflected +
   SCORE_ABSORBED * sc.iAbsorbed)

/-! ## Game loop -/

/-- The variables of `main` that are carried from one pass of its loop to the
    next, together with the global score. -/
structure t_main where
  tScore : t_score
  iDirection : Int
  iCellEntry : Int
  bEndOfLoop : Int
deriving DecidableEq, Repr

/-- How one pass of the loop of `main` ends: the loop goes on with the new
    variables, having printed the given beam report (if any), or the program
    has called `exit(0)`. -/
inductive MainOut where
  | next (st : t_main) (report : Option Outcome)
  | exit0
deriving DecidableEq, Repr

/-- One pass of the `while (!bEndOfLoop)` loop of `main` for the input line
    `csInput`. The number conversion `cstr2ll` comes from the string library;
    `none` stands for a `walkGrid` that did not return within the iteration
    bound. -/
def mainLoopBody (o : t_options) (g : Grid) (cstr2ll : String → Int) (fuel : Nat)
    (st : t_main) (csInput : String) : Option MainOut :=
  let e := getEntryNode o (cstr2ll csInput) st.iDirection
  let st := { st with iCellEntry := e.1, iDirection := e.2 }
  if csInput.length = 0 then some (MainOut.next st none)
  else if csInput.get 0 = 'e' ∨ csInput.get 0 = 'E' ∨
      csInput.get 0 = 'f' ∨ csInput.get 0 = 'F' then
    some (MainOut.next { st with bEndOfLoop := 1 } none)
  else if csInput.get 0 = 'q' ∨ csInput.get 0 = 'Q' then some MainOut.exit0
  else if csInput.get 0 = 'b' ∨ csInput.get 0 = 'B' then some (MainOut.next st none)
  else if st.iCellEntry = -1 then some (MainOut.next st none)
  else
    match walkGrid o g fuel st.iCellEntry st.iDirection with
    | none => none
    | some iCellExit =>
      if iCellExit = st.iCellEntry then
        some (MainOut.next
          { st with tScore := { st.tScore with iReflected := st.tScore.iReflected + 1 } }
          (some Outcome.reflected))
      else if iCellExit = 0 then
        some (MainOut.next
          { st with tScore := { st.tScore with iAbsorbed := st.tScore.iAbsorbed + 1 } }
          (some Outcome.absorbed))
      else
        some (MainOut.next
          { st with tScore := { st.tScore with iExited := st.tScore.iExited + 1 } }
          (some (Outcome.exited (getExitNode o iCellExit))))

/-- The loop `for (i = 0; i < iAtomNo; ++i)` of `getAtomAnswers`, from the
    counter value `i` on. The list holds the pairs `(iY, iX)` that the two
    `scanf` calls of each pass read; `none` when the input ends before the
    loop does. An out-of-range pair runs `--i; continue;`, after which the
    loop's `++i` follows. -/
def getAtomAnswersLoop (o : t_options) (g : Grid) : List (Int × Int) → Int → t_score →
    Option t_score
  | [], i, sc => if i < o.iAtomNo then none else some sc
  | (iY, iX) :: rest, i, sc =>
    if i < o.iAtomNo then
      if iY < 1 ∨ iY > o.iSize ∨ iX < 1 ∨ iX > o.iSize then
        getAtomAnswersLoop o g rest ((i - 1) + 1) sc
      else if g (cellFromXY o iX iY) = CELL_ATOM then
        getAtomAnswersLoop o g rest (i + 1) sc
      else
        getAtomAnswersLoop o g rest (i + 1) { sc with iMissedAtoms := sc.iMissedAtoms + 1 }
    else some sc

/-- `getAtomAnswers`. -/
def getAtomAnswers (o : t_options) (g : Grid) (guesses : List (Int × Int)) (sc : t_score) :
    Option t_score :=
  getAtomAnswersLoop o g guesses 0 sc

/-- A guess `(iY, iX)` passes the range check of `getAtomAnswers`. -/
def guessInRange (o : t_options) (p : Int × Int) : Bool :=
  decide (1 ≤ p.1 ∧ p.1 ≤ o.iSize ∧ 1 ≤ p.2 ∧ p.2 ≤ o.iSize)

/-- The cell of the guess `(iY, iX)` does not hold an atom. -/
def guessMisses (o : t_options) (g : Grid) (p : Int × Int) : Bool :=
  decide (g (cellFromXY o p.2 p.1) ≠ CELL_ATOM)

/-! ## Board creation -/

/-- The inner loop `for (iX = 0; iX < iWidth; ++iX)` of `createBoard` for the
    row `iY`: every cell of the row is set to `CELL_BORDER` or `CELL_EMPTY`. -/
def createBoardRow (o : t_options) (iY : Int) (g : Grid) : Grid :=
  (List.range o.iWidth.toNat).foldl (fun (g : Grid) (iX : Nat) =>
    if (iX : Int) = 0 ∨ (iX : Int) = o.iWidth - 1 ∨ iY = 0 ∨ iY = o.iWidth - 1 then
      Function.update g (cellFromXY o iX iY) CELL_BORDER
    else
      Function.update g (cellFromXY o iX iY) CELL_EMPTY) g

/-- The first part of `createBoard`, "Create default board": the loop
    `for (iY = 0; iY < iWidth; ++iY)` over the rows. -/
def createBoardDefault (o : t_options) (g : Grid) : Grid :=
  (List.range o.iWidth.toNat).foldl (fun (g : Grid) (iY : Nat) => createBoardRow o iY g) g

/-- The loop `while (g_paiGrid[iCell] != CELL_EMPTY) iCell = rand() % iCellNo;`
    of `createBoard`. The list holds the values that the successive calls of
    `rand()` return; the result is the cell found and the values left, `none`
    when the list ends before an empty cell is found. -/
def drawEmptyCell (o : t_options) (g : Grid) : List Int → Int → Option (Int × List Int)
  | [], iCell => if g iCell ≠ CELL_EMPTY then none else some (iCell, [])
  | r :: rest, iCell =>
    if g iCell ≠ CELL_EMPTY then drawEmptyCell o g rest (Int.tmod r o.iCellNo)
    else some (iCell, r :: rest)

/-- The loop `for (int i = 0; i < iAtomNo; ++i)` of `createBoard` with the
    given number of passes left: each pass starts at cell 0, finds an empty
    cell and sets it to `CELL_ATOM`. -/
def placeAtoms (o : t_options) : Nat → Grid → List Int → Option (Grid × List Int)
  | 0, g, draws => some (g, draws)
  | n + 1, g, draws =>
    match drawEmptyCell o g draws 0 with
    | none => none
    | some (iCell, rest) => placeAtoms o n (Function.update g iCell CELL_ATOM) rest

/-- `createBoard`: `g` is the content of the allocated memory before the call,
    `draws` the values that `rand()` returns; `none` when the values run out
    before all atoms are placed. -/
def createBoard (o : t_options) (g : Grid) (draws : List Int) : Option Grid :=
  (placeAtoms o o.iAtomNo.toNat (createBoardDefault o g) draws).map Prod.fst

/-- The number of cells of the grid that hold `CELL_ATOM`. -/
def countAtoms (o : t_options) (g : Grid) : Nat :=
  (List.range o.iCellNo.toNat).countP (fun (i : Nat) => decide (g (i : Int) = CELL_ATOM))

/-! ## Boards and reference definitions used by the statements -/

/-- A valid board for the options `o`: every outer-ring cell of the grid holds
    `CELL_BORDER`, every interior cell holds `CELL_EMPTY` or `CELL_ATOM`.
    Nothing is said about indices outside the grid. -/
def ValidBoard (o : t_options) (g : Grid) : Prop :=
  ∀ x y : Int, 0 ≤ x → x < o.iWidth → 0 ≤ y → y < o.iWidth →
    if x = 0 ∨ x = o.iWidth - 1 ∨ y = 0 ∨ y = o.iWidth - 1 then
      g (cellFromXY o x y) = CELL_BORDER
    else
      g (cellFromXY o x y) = CELL_EMPTY ∨ g (cellFromXY o x y) = CELL_ATOM

/-- The cell `(x, y)` holds an atom. -/
def isAtom (o : t_options) (g : Grid) (x y : Int) : Prop :=
  g (cellFromXY o x y) = CELL_ATOM

instance (o : t_options) (g : Grid) (x y : Int) : Decidable (isAtom o g x y) := by
  unfold isAtom
  infer_instance

/-- A direction value is one of the four directions. -/
def ValidDir (d : Int) : Prop :=
  d = DIR_UP ∨ d = DIR_LEFT ∨ d = DIR_DOWN ∨ d = DIR_RIGHT

instance (d : Int) : Decidable (ValidDir d) := by
  unfold ValidDir
  infer_instance

/-- The x component of the unit step of a direction (x grows to the right). -/
def dirDX (d : Int) : Int :=
  if d = DIR_LEFT then -1 else if d = DIR_RIGHT then 1 else 0

/-- The y component of the unit step of a direction (y grows downward). -/
def dirDY (d : Int) : Int :=
  if d = DIR_UP then -1 else if d = DIR_DOWN then 1 else 0

/-- The look-ahead as the specification words it: with `(dx, dy)` the unit step
    of the direction, Center if the cell directly ahead holds an atom, otherwise
    Left if the ahead cell shifted by `(dy, -dx)` does, otherwise Right if the
    ahead cell shifted by `(-dy, dx)` does, otherwise None. -/
def lookAheadRef (o : t_options) (g : Grid) (x y d : Int) : Int :=
  if isAtom o g (x + dirDX d) (y + dirDY d) then ATOM_CENTER
  else if isAtom o g (x + dirDX d + dirDY d) (y + dirDY d - dirDX d) then ATOM_LEFT
  else if isAtom o g (x + dirDX d - dirDY d) (y + dirDY d + dirDX d) then ATOM_RIGHT
  else ATOM_NONE

/-- The direction with which the turn loop of `walkGrid` ends at an interior
    cell `(x, y)` entered with direction `d`, when no atom is directly ahead:
    a quarter turn away from a single front-side atom, a half turn when both
    front sides hold an atom. -/
def nextDir (o : t_options) (g : Grid) (x y d : Int) : Int :=
  if isAtom o g (x + dirDX d + dirDY d) (y + dirDY d - dirDX d) then
    if isAtom o g (x + dirDX d - dirDY d) (y + dirDY d + dirDX d) then
      turnBeam ATOM_LEFT (turnBeam ATOM_LEFT d)
    else turnBeam ATOM_LEFT d
  else if isAtom o g (x + dirDX d - dirDY d) (y + dirDY d + dirDX d) then
    turnBeam ATOM_RIGHT d
  else d

/-- One pass of the outer loop of `walkGrid` on beam states `(x, y, d)`:
    `none` when the pass returns (absorbed or border reached), otherwise the
    state with which the next pass starts. -/
def nextState (o : t_options) (g : Grid) (st : Int × Int × Int) : Option (Int × Int × Int) :=
  if isAtom o g (st.1 + dirDX st.2.2) (st.2.1 + dirDY st.2.2) then none
  else
    let d := nextDir o g st.1 st.2.1 st.2.2
    if g (cellFromXY o (st.1 + dirDX d) (st.2.1 + dirDY d)) = CELL_BORDER then none
    else some (st.1 + dirDX d, st.2.1 + dirDY d, d)

/-- The beam state `(x, y, d)` is at an interior cell of the size-`s` board,
    and neither that cell, nor the cell behind it, nor the four cells beside
    these two hold an atom. -/
structure Good (s a : Int) (g : Grid) (x y d : Int) : Prop where
  dir : ValidDir d
  x1 : 1 ≤ x
  xs : x ≤ s
  y1 : 1 ≤ y
  ys : y ≤ s
  here : ¬ isAtom (getOptions s a) g x y
  sideL : ¬ isAtom (getOptions s a) g (x + dirDY d) (y - dirDX d)
  sideR : ¬ isAtom (getOptions s a) g (x - dirDY d) (y + dirDX d)
  back : ¬ isAtom (getOptions s a) g (x - dirDX d) (y - dirDY d)
  backL : ¬ isAtom (getOptions s a) g (x - dirDX d + dirDY d) (y - dirDY d - dirDX d)
  backR : ¬ isAtom (getOptions s a) g (x - dirDX d - dirDY d) (y - dirDY d + dirDX d)

/-- The cell `(x, y)` is an outer-ring cell of the size-`s` board that is not a
    corner. -/
def ExitCell (s x y : Int) : Prop :=
  ((x = 0 ∨ x = s + 1) ∧ 1 ≤ y ∧ y ≤ s) ∨ ((y = 0 ∨ y = s + 1) ∧ 1 ≤ x ∧ x ≤ s)

/-- The beam state `(x, y, d)` is an entry state of the size-`s` board: a
    non-corner cell of one of the four edges with the direction pointing into
    the board. -/
def EntryState (s x y d : Int) : Prop :=
  (x = 0 ∧ 1 ≤ y ∧ y ≤ s ∧ d = DIR_RIGHT) ∨ (y = s + 1 ∧ 1 ≤ x ∧ x ≤ s ∧ d = DIR_UP) ∨
  (x = s + 1 ∧ 1 ≤ y ∧ y ≤ s ∧ d = DIR_LEFT) ∨ (y = 0 ∧ 1 ≤ x ∧ x ≤ s ∧ d = DIR_DOWN)

instance (s x y d : Int) : Decidable (EntryState s x y d) := by
  unfold EntryState
  infer_instance

instance (s x y : Int) : Decidable (ExitCell s x y) := by
  unfold ExitCell
  infer_instance

/-- The successor of a direction in the cycle Up → Left → Down → Right → Up
    of the specification. -/
def cycleSucc (d : Int) : Int :=
  if d = DIR_UP then DIR_LEFT
  else if d = DIR_LEFT then DIR_DOWN
  else if d = DIR_DOWN then DIR_RIGHT
  else if d = DIR_RIGHT then DIR_UP
  else d

/-- The predecessor of a direction in the cycle Up → Left → Down → Right → Up
    of the specification. -/
def cyclePred (d : Int) : Int :=
  if d = DIR_LEFT then DIR_UP
  else if d = DIR_DOWN then DIR_LEFT
  else if d = DIR_RIGHT then DIR_DOWN
  else if d = DIR_UP then DIR_RIGHT
  else d

/-- The three grid indices that `lookAhead` reads for a direction, in the
    order front, front left, front right; `none` when the direction is none of
    the four, in which case `lookAhead` reads nothing. -/
def lookAheadCells (o : t_options) (iCell iDirection : Int) : Option (Int × Int × Int) :=
  let st : Option (Int × Int × Int) := none
  let st := if iDirection = DIR_UP then
      some (iCell - o.iWidth, iCell - o.iWidth - 1, iCell - o.iWidth + 1) else st
  let st := if iDirection = DIR_LEFT then
      some (iCell - 1, iCell - 1 + o.iWidth, iCell - 1 - o.iWidth) else st
  let st := if iDirection = DIR_DOWN then
      some (iCell + o.iWidth, iCell + o.iWidth + 1, iCell + o.iWidth - 1) else st
  let st := if iDirection = DIR_RIGHT then
      some (iCell + 1, iCell + 1 - o.iWidth, iCell + 1 + o.iWidth) else st
  st

/-! ## The walk with its trace of grid reads and steps -/

/-- What `walkGrid` does, as far as the grid and the beam position are
    concerned: a call `lookAhead(iCell, iDirection)`, a read of
    `g_paiGrid[iCell]` by one of the two border tests, and an advance
    `iCell = goAhead(iCell, iDirection)`, recorded with the cell before the
    advance and the look-ahead value `iAtom` the turn loop ended with. -/
inductive Ev where
  | look (iCell iDirection : Int)
  | cell (iCell : Int)
  | step (iCell iDirection iAtom : Int)
deriving DecidableEq, Repr

/-- The three `return` statements of `walkGrid`: `return 0` after a look-ahead
    that found an atom directly ahead, `return iCell` inside the turn loop,
    `return iCell` after the advance. -/
inductive Ret where
  | center
  | turn
  | step
deriving DecidableEq, Repr

/-- The inner loop of `walkGrid` as in `turnLoop`, recording in addition the
    look-ahead call and the border test of every iteration. -/
def turnLoopTrace (o : t_options) (g : Grid) (iCell : Int) :
    Nat → Int → Int → List Ev → Option (TurnOut × List Ev)
  | fuel, iAtom, iDirection, log =>
    if iAtom = ATOM_LEFT ∨ iAtom = ATOM_RIGHT then
      match fuel with
      | 0 => none
      | fuel + 1 =>
        let iDirection := turnBeam iAtom iDirection
        let iAtom := lookAhead o g iCell iDirection
        let log := log ++ [Ev.look iCell iDirection, Ev.cell iCell]
        if g iCell = CELL_BORDER then some (TurnOut.ret iCell, log)
        else turnLoopTrace o g iCell fuel iAtom iDirection log
    else some (TurnOut.fin iDirection iAtom, log)

/-- The function `walkGrid` as above, returning in addition which `return`
    statement ended it and the trace of its look-ahead calls, border tests
    and advances, in the order they happen. -/
def walkGridTrace (o : t_options) (g : Grid) :
    Nat → Int → Int → List Ev → Option (Int × Ret × List Ev)
  | 0, _, _, _ => none
  | fuel + 1, iCell, iDirection, log =>
    let iAtom := lookAhead o g iCell iDirection
    let log := log ++ [Ev.look iCell iDirection]
    if iAtom = ATOM_CENTER then some (0, Ret.center, log)
    else
      match turnLoopTrace o g iCell (fuel + 1) iAtom iDirection log with
      | none => none
      | some (TurnOut.ret c, log) => some (c, Ret.turn, log)
      | some (TurnOut.fin iDirection iAtom, log) =>
        let log := log ++ [Ev.step iCell iDirection iAtom]
        let iCell := goAhead o iCell iDirection
        let log := log ++ [Ev.cell iCell]
        if g iCell = CELL_BORDER then some (iCell, Ret.step, log)
        else walkGridTrace o g fuel iCell iDirection log

/-- The grid indices an event of the trace reads: the three cells of the
    look-ahead, the cell of a border test, nothing for an advance. -/
def evReads (o : t_options) : Ev → List Int
  | Ev.look iCell iDirection =>
    match lookAheadCells o iCell iDirection with
    | some (f, l, r) => [f, l, r]
    | none => []
  | Ev.cell iCell => [iCell]
  | Ev.step _ _ _ => []

/-- All grid indices `walkGrid` reads, in order. -/
def walkGridReads (o : t_options) (g : Grid) (fuel : Nat) (iCell iDirection : Int) :
    Option (List Int) :=
  (walkGridTrace o g fuel iCell iDirection []).map (fun r => r.2.2.flatMap (evReads o))

/-! ## The trace of the specification -/

/-- The outcome of the specification's `trace`. -/
inductive TraceOutcome where
  | absorbed
  | exitedAt (cell : Int)
deriving DecidableEq, Repr

/-- Step 2 of the specification's `trace`, with a bound on the number of
    turns: while the look-ahead yields Left or Right, turn and look ahead
    again; after each turn, if the current cell is a Border cell, terminate
    with ExitedAt(current cell). `Sum.inl` is a termination, `Sum.inr` the
    direction and the look-ahead with which the loop ends. -/
def specTurns (o : t_options) (g : Grid) (cell : Int) :
    Nat → Int → Int → Option (TraceOutcome ⊕ (Int × Int))
  | fuel, look, direction =>
    if look = ATOM_LEFT ∨ look = ATOM_RIGHT then
      match fuel with
      | 0 => none
      | fuel + 1 =>
        if g cell = CELL_BORDER then some (Sum.inl (TraceOutcome.exitedAt cell))
        else specTurns o g cell fuel (lookAhead o g cell (turnBeam look direction))
          (turnBeam look direction)
    else some (Sum.inr (direction, look))

/-- The specification's `trace`, steps 1 to 5, with a bound on the number of
    repetitions, read so that a Center look-ahead with which step 2 ends
    terminates as Absorbed instead of advancing. -/
def specTrace (o : t_options) (g : Grid) : Nat → Int → Int → Option TraceOutcome
  | 0, _, _ => none
  | fuel + 1, cell, direction =>
    if lookAhead o g cell direction = ATOM_CENTER then some TraceOutcome.absorbed
    else
      match specTurns o g cell (fuel + 1) (lookAhead o g cell direction) direction with
      | none => none
      | some (Sum.inl out) => some out
      | some (Sum.inr (direction, look)) =>
        if look = ATOM_CENTER then some TraceOutcome.absorbed
        else if g (goAhead o cell direction) = CELL_BORDER then
          some (TraceOutcome.exitedAt (goAhead o cell direction))
        else specTrace o g fuel (goAhead o cell direction) direction

/-- The outcome that a return value of `walkGrid` stands for: cell 0 is the
    sentinel for Absorbed, every other value is the exit cell. -/
def outcomeOfCell (iCell : Int) : TraceOutcome :=
  if iCell = 0 then TraceOutcome.absorbed else TraceOutcome.exitedAt iCell

/-- The result of the turn loop of `walkGrid` in the terms of step 2 of the
    specification. -/
def outcomeOfTurn : TurnOut → TraceOutcome ⊕ (Int × Int)
  | TurnOut.ret c => Sum.inl (TraceOutcome.exitedAt c)
  | TurnOut.fin d t => Sum.inr (d, t)

/-- The opposite direction. -/
def dirOpp (d : Int) : Int :=
  if d = DIR_UP then DIR_DOWN
  else if d = DIR_DOWN then DIR_UP
  else if d = DIR_LEFT then DIR_RIGHT
  else if d = DIR_RIGHT then DIR_LEFT
  else d

/-- The cell `(x, y)` lies in the grid of the size-`s` board. -/
def InGrid (s x y : Int) : Prop :=
  0 ≤ x ∧ x ≤ s + 1 ∧ 0 ≤ y ∧ y ≤ s + 1

instance (s x y : Int) : Decidable (InGrid s x y) := by
  unfold InGrid
  infer_instance

/-- An event of the trace is in order on the board `g` of size `s`, for a
    beam that entered at the cell `e` with the direction `d0`. A look-ahead
    is in order when it is the one repeated at the entry cell after a turn,
    or when it is made at a cell `(x, y)` whose three cells ahead lie in the
    grid; a border test when it reads a cell of the grid; an advance when the
    look-ahead before it showed no atom and the cell advanced to is a cell of
    the grid that holds `CELL_EMPTY` or `CELL_BORDER`. -/
def EvOK (s a : Int) (g : Grid) (e d0 : Int) : Ev → Prop
  | Ev.look c d =>
    ValidDir d ∧ ((c = e ∧ d ≠ d0) ∨
      ∃ x y, c = cellFromXY (getOptions s a) x y ∧ InGrid s (x + dirDX d) (y + dirDY d) ∧
        InGrid s (x + dirDX d + dirDY d) (y + dirDY d - dirDX d) ∧
        InGrid s (x + dirDX d - dirDY d) (y + dirDY d + dirDX d))
  | Ev.cell c => ∃ x y, c = cellFromXY (getOptions s a) x y ∧ InGrid s x y
  | Ev.step c d t =>
    t = ATOM_NONE ∧ ValidDir d ∧
      (g (goAhead (getOptions s a) c d) = CELL_EMPTY ∨
        g (goAhead (getOptions s a) c d) = CELL_BORDER) ∧
      ∃ x y, goAhead (getOptions s a) c d = cellFromXY (getOptions s a) x y ∧ InGrid s x y

/-! ## Test boards -/

/-- A test board of size `s`: border ring, atoms at the listed interior
    coordinates, everything else (also outside the grid) empty. -/
def boardWith (s : Int) (atoms : List (Int × Int)) : Grid := fun i =>
  if 0 ≤ i ∧ i < (s + 2) * (s + 2) then
    if i % (s + 2) = 0 ∨ i % (s + 2) = s + 1 ∨ i / (s + 2) = 0 ∨ i / (s + 2) = s + 1 then
      CELL_BORDER
    else if (i % (s + 2), i / (s + 2)) ∈ atoms then CELL_ATOM
    else CELL_EMPTY
  else CELL_EMPTY

/-! ## Coordinate lemmas -/

@[simp] theorem getOptions_iWidth (s a : Int) : (getOptions s a).iWidth = s + 2 := rfl

@[simp] theorem getOptions_iSize (s a : Int) : (getOptions s a).iSize = s := rfl

@[simp] theorem getOptions_iCellNo (s a : Int) :
    (getOptions s a).iCellNo = (s + 2) * (s + 2) := rfl

theorem cellToXY_cellFromXY (o : t_options) (x y : Int)
    (hx0 : 0 ≤ x) (hxw : x < o.iWidth) (hy : 0 ≤ y) :
    cellToXY o (cellFromXY o x y) = (x, y) := by
  have hw : 0 ≤ o.iWidth := by omega
  have h0 : 0 ≤ x + o.iWidth * y := by positivity
  unfold cellToXY cellFromXY
  rw [Int.tmod_eq_emod h0 hw, Int.add_mul_emod_self_left, Int.emod_eq_of_lt hx0 hxw,
    Int.tdiv_eq_ediv h0 hw, Int.add_mul_ediv_left _ _ (by omega),
    Int.ediv_eq_zero_of_lt hx0 hxw]
  simp

/-- The exit node of the cell `(x, y)`, for coordinates inside the grid. -/
theorem getExitNode_cellFromXY (o : t_options) (x y : Int)
    (hx0 : 0 ≤ x) (hxw : x < o.iWidth) (hy : 0 ≤ y) :
    getExitNode o (cellFromXY o x y) =
      if y = 0 then (4 * o.iSize + 1) - x
      else if x = o.iWidth - 1 then (3 * o.iSize + 1) - y
      else if y = o.iWidth - 1 then x + o.iSize
      else if x = 0 then y
      else 0 := by
  unfold getExitNode
  rw [cellToXY_cellFromXY o x y hx0 hxw hy]

/-- The entry cell and direction of a node number on one of the four edges. -/
theorem getEntryNode_of_node (s a n dir0 : Int) (hs : 1 ≤ s) (h1 : 1 ≤ n) (h2 : n ≤ 4 * s) :
    getEntryNode (getOptions s a) n dir0 =
      if n ≤ s then (cellFromXY (getOptions s a) 0 n, DIR_RIGHT)
      else if n ≤ 2 * s then (cellFromXY (getOptions s a) (n - s) (s + 1), DIR_UP)
      else if n ≤ 3 * s then (cellFromXY (getOptions s a) (s + 1) (3 * s + 1 - n), DIR_LEFT)
      else (cellFromXY (getOptions s a) (4 * s + 1 - n) 0, DIR_DOWN) := by
  have hguard : ¬ (n < 1 ∨ n > (getOptions s a).iCellNo - 1) := by
    simp only [getOptions_iCellNo]
    have hsq : 4 * s ≤ (s + 2) * (s + 2) - 1 := by nlinarith
    omega
  unfold getEntryNode
  rw [if_neg hguard]
  simp only [getOptions_iSize, getOptions_iWidth]
  by_cases c1 : n ≤ s
  · have e1 : n ≥ 1 ∧ n ≤ s := ⟨h1, c1⟩
    have e2 : ¬ (n ≥ s + 1 ∧ n ≤ 2 * s) := by omega
    have e3 : ¬ (n ≥ 2 * s + 1 ∧ n ≤ 3 * s) := by omega
    have e4 : ¬ (n ≥ 3 * s + 1 ∧ n ≤ 4 * s) := by omega
    simp only [if_pos e1, if_neg e2, if_neg e3, if_neg e4, if_pos c1]
  · by_cases c2 : n ≤ 2 * s
    · have e1 : ¬ (n ≥ 1 ∧ n ≤ s) := by omega
      have e2 : n ≥ s + 1 ∧ n ≤ 2 * s := by omega
      have e3 : ¬ (n ≥ 2 * s + 1 ∧ n ≤ 3 * s) := by omega
      have e4 : ¬ (n ≥ 3 * s + 1 ∧ n ≤ 4 * s) := by omega
      simp only [if_neg e1, if_pos e2, if_neg e3, if_neg e4, if_neg c1, if_pos c2]
      congr 2
      omega
    · by_cases c3 : n ≤ 3 * s
      · have e1 : ¬ (n ≥ 1 ∧ n ≤ s) := by omega
        have e2 : ¬ (n ≥ s + 1 ∧ n ≤ 2 * s) := by omega
        have e3 : n ≥ 2 * s + 1 ∧ n ≤ 3 * s := by omega
        have e4 : ¬ (n ≥ 3 * s + 1 ∧ n ≤ 4 * s) := by omega
        simp only [if_neg e1, if_neg e2, if_pos e3, if_neg e4, if_neg c1, if_neg c2, if_pos c3]
        congr 2
        omega
      · have e1 : ¬ (n ≥ 1 ∧ n ≤ s) := by omega
        have e2 : ¬ (n ≥ s + 1 ∧ n ≤ 2 * s) := by omega
        have e3 : ¬ (n ≥ 2 * s + 1 ∧ n ≤ 3 * s) := by omega
        have e4 : n ≥ 3 * s + 1 ∧ n ≤ 4 * s := by omega
        simp only [if_neg e1, if_neg e2, if_neg e3, if_pos e4, if_neg c1, if_neg c2, if_neg c3]

/-! ## C1: node round trip -/

/-- C1: for every size `s ≥ 1` and every node number `n` in `1..4*s`, the entry
    cell that `getEntryNode` gives for `n` is mapped back to `n` by
    `getExitNode`, and that entry cell is not one of the four corner cells. -/
theorem node_round_trip (s a n dir0 : Int) (hs : 1 ≤ s) (h1 : 1 ≤ n) (h2 : n ≤ 4 * s) :
    getExitNode (getOptions s a) (getEntryNode (getOptions s a) n dir0).1 = n ∧
    (getEntryNode (getOptions s a) n dir0).1 ≠ cellFromXY (getOptions s a) 0 0 ∧
    (getEntryNode (getOptions s a) n dir0).1 ≠ cellFromXY (getOptions s a) 0 (s + 1) ∧
    (getEntryNode (getOptions s a) n dir0).1 ≠ cellFromXY (getOptions s a) (s + 1) (s + 1) ∧
    (getEntryNode (getOptions s a) n dir0).1 ≠ cellFromXY (getOptions s a) (s + 1) 0 := by
  rw [getEntryNode_of_node s a n dir0 hs h1 h2]
  have key : ∀ x y x' y' : Int, 0 ≤ x → x < s + 2 → 0 ≤ y → 0 ≤ x' → x' < s + 2 → 0 ≤ y' →
      (x ≠ x' ∨ y ≠ y') →
      cellFromXY (getOptions s a) x y ≠ cellFromXY (getOptions s a) x' y' := by
    intro x y x' y' hx0 hxw hy hx0' hxw' hy' hne heq
    have h := congrArg (cellToXY (getOptions s a)) heq
    rw [cellToXY_cellFromXY _ x y hx0 (by simpa using hxw) hy,
      cellToXY_cellFromXY _ x' y' hx0' (by simpa using hxw') hy'] at h
    simp only [Prod.mk.injEq] at h
    omega
  by_cases c1 : n ≤ s
  · simp only [if_pos c1]
    refine ⟨?_, ?_, ?_, ?_, ?_⟩
    · rw [getExitNode_cellFromXY _ 0 n (by omega) (by simp; omega) (by omega)]
      simp only [getOptions_iSize, getOptions_iWidth]
      split_ifs <;> omega
    all_goals apply key <;> omega
  · by_cases c2 : n ≤ 2 * s
    · simp only [if_neg c1, if_pos c2]
      refine ⟨?_, ?_, ?_, ?_, ?_⟩
      · rw [getExitNode_cellFromXY _ (n - s) (s + 1) (by omega) (by simp; omega) (by omega)]
        simp only [getOptions_iSize, getOptions_iWidth]
        split_ifs <;> omega
      all_goals apply key <;> omega
    · by_cases c3 : n ≤ 3 * s
      · simp only [if_neg c1, if_neg c2, if_pos c3]
        refine ⟨?_, ?_, ?_, ?_, ?_⟩
        · rw [getExitNode_cellFromXY _ (s + 1) (3 * s + 1 - n) (by omega) (by simp)
            (by omega)]
          simp only [getOptions_iSize, getOptions_iWidth]
          split_ifs <;> omega
        all_goals apply key <;> omega
      · simp only [if_neg c1, if_neg c2, if_neg c3]
        refine ⟨?_, ?_, ?_, ?_, ?_⟩
        · rw [getExitNode_cellFromXY _ (4 * s + 1 - n) 0 (by omega) (by simp; omega)
            (by omega)]
          simp only [getOptions_iSize, getOptions_iWidth]
          split_ifs <;> omega
        all_goals apply key <;> omega

theorem node_round_trip_witness :
    getExitNode (getOptions 4 3) (getEntryNode (getOptions 4 3) 7 DIR_NONE).1 = 7 :=
  (node_round_trip 4 3 7 DIR_NONE (by decide) (by decide) (by decide)).1

/-! ## C2: the range check of `getEntryNode` -/

/-- The guard of `getEntryNode` rejects a number exactly when it is below 1 or
    above `iCellNo - 1`, the last cell index. -/
theorem getEntryNode_rejects_iff (s a n dir0 : Int) (hs : 1 ≤ s) :
    (getEntryNode (getOptions s a) n dir0).1 = -1 ↔ (n < 1 ∨ n > (s + 2) * (s + 2) - 1) := by
  constructor
  · intro h
    by_contra hn
    have hguard : ¬ (n < 1 ∨ n > (getOptions s a).iCellNo - 1) := by simpa using hn
    unfold getEntryNode at h
    rw [if_neg hguard] at h
    simp only [getOptions_iSize, getOptions_iWidth, cellFromXY] at h
    have hnn : ∀ y : Int, 0 ≤ y → 0 ≤ (s + 2) * y := fun y hy => by positivity
    split_ifs at h <;> simp only at h
    all_goals first
      | (have hq := hnn n (by omega); omega)
      | (have hq := hnn (s + 2 - 1) (by omega); omega)
      | (have hq := hnn (3 * s + 1 - n) (by omega); omega)
  · intro h
    have hguard : n < 1 ∨ n > (getOptions s a).iCellNo - 1 := by simpa using h
    unfold getEntryNode
    rw [if_pos hguard]

/-- C2: on the size-4 grid the number 17, one beyond the last node 16, is not
    rejected: the entry cell is cell 0 and not -1, and the direction keeps the
    value it had before the call. -/
theorem getEntryNode_accepts_beyond_last_node :
    getEntryNode (getOptions 4 3) 17 DIR_NONE = (0, DIR_NONE) ∧
    (getEntryNode (getOptions 4 3) 17 DIR_NONE).1 ≠ -1 := by
  decide

/-! ## C3: exit node of the corner cells -/

/-- C3, as stated, fails on the size-4 grid: the corner `(0,0)` is not mapped
    to 0, `(0,5)` not to 5, `(5,5)` not to 9 and `(5,0)` not to 13. -/
theorem getExitNode_corner_not_first_match :
    getExitNode (getOptions 4 3) (cellFromXY (getOptions 4 3) 0 0) ≠ 0 ∧
    getExitNode (getOptions 4 3) (cellFromXY (getOptions 4 3) 0 5) ≠ 5 ∧
    getExitNode (getOptions 4 3) (cellFromXY (getOptions 4 3) 5 5) ≠ 9 ∧
    getExitNode (getOptions 4 3) (cellFromXY (getOptions 4 3) 5 0) ≠ 13 := by
  decide

/-- C3, amended: at a corner cell the LAST matching edge formula in the order
    left, bottom, right, top decides: `(0,0)` gives `4*s+1` (top), `(0,w-1)`
    gives `s` (bottom), `(w-1,w-1)` gives `2*s` (right) and `(w-1,0)` gives
    `3*s` (top). -/
theorem getExitNode_corner_last_match (s a : Int) (hs : 1 ≤ s) :
    getExitNode (getOptions s a) (cellFromXY (getOptions s a) 0 0) = 4 * s + 1 ∧
    getExitNode (getOptions s a) (cellFromXY (getOptions s a) 0 (s + 1)) = s ∧
    getExitNode (getOptions s a) (cellFromXY (getOptions s a) (s + 1) (s + 1)) = 2 * s ∧
    getExitNode (getOptions s a) (cellFromXY (getOptions s a) (s + 1) 0) = 3 * s := by
  refine ⟨?_, ?_, ?_, ?_⟩
  · rw [getExitNode_cellFromXY _ 0 0 (by omega) (by simp; omega) (by omega)]
    simp
  · rw [getExitNode_cellFromXY _ 0 (s + 1) (by omega) (by simp; omega) (by omega)]
    simp only [getOptions_iSize, getOptions_iWidth]
    split_ifs <;> omega
  · rw [getExitNode_cellFromXY _ (s + 1) (s + 1) (by omega) (by simp) (by omega)]
    simp only [getOptions_iSize, getOptions_iWidth]
    split_ifs <;> omega
  · rw [getExitNode_cellFromXY _ (s + 1) 0 (by omega) (by simp) (by omega)]
    simp only [getOptions_iSize, getOptions_iWidth]
    split_ifs <;> omega

theorem getExitNode_corner_last_match_witness :
    getExitNode (getOptions 4 3) (cellFromXY (getOptions 4 3) 0 0) = 4 * 4 + 1 ∧
    getExitNode (getOptions 4 3) (cellFromXY (getOptions 4 3) 0 (4 + 1)) = 4 ∧
    getExitNode (getOptions 4 3) (cellFromXY (getOptions 4 3) (4 + 1) (4 + 1)) = 2 * 4 ∧
    getExitNode (getOptions 4 3) (cellFromXY (getOptions 4 3) (4 + 1) 0) = 3 * 4 :=
  getExitNode_corner_last_match 4 3 (by decide)

/-! ## Geometry of the four directions -/

theorem validDir_cases {d : Int} (h : ValidDir d) : d = 1 ∨ d = 2 ∨ d = 3 ∨ d = 4 := h

theorem dir_unit {d : Int} (h : ValidDir d) :
    (dirDX d = 0 ∧ (dirDY d = 1 ∨ dirDY d = -1)) ∨
    (dirDY d = 0 ∧ (dirDX d = 1 ∨ dirDX d = -1)) := by
  rcases validDir_cases h with h | h | h | h <;> subst h <;> decide

theorem dir_ext {d e : Int} (hd : ValidDir d) (he : ValidDir e)
    (hx : dirDX d = dirDX e) (hy : dirDY d = dirDY e) : d = e := by
  rcases validDir_cases hd with h | h | h | h <;> subst h <;>
    rcases validDir_cases he with h | h | h | h <;> subst h <;>
    first | rfl | (exfalso; revert hx hy; decide)

theorem turnBeam_left {d : Int} (h : ValidDir d) :
    ValidDir (turnBeam ATOM_LEFT d) ∧
    dirDX (turnBeam ATOM_LEFT d) = - dirDY d ∧
    dirDY (turnBeam ATOM_LEFT d) = dirDX d := by
  rcases validDir_cases h with h | h | h | h <;> subst h <;> decide

theorem turnBeam_right {d : Int} (h : ValidDir d) :
    ValidDir (turnBeam ATOM_RIGHT d) ∧
    dirDX (turnBeam ATOM_RIGHT d) = dirDY d ∧
    dirDY (turnBeam ATOM_RIGHT d) = - dirDX d := by
  rcases validDir_cases h with h | h | h | h <;> subst h <;> decide

theorem goAhead_cell (o : t_options) (x y : Int) {d : Int} (h : ValidDir d) :
    goAhead o (cellFromXY o x y) d = cellFromXY o (x + dirDX d) (y + dirDY d) := by
  rcases validDir_cases h with h | h | h | h <;> subst h <;>
    simp [goAhead, cellFromXY, dirDX, dirDY, DIR_UP, DIR_LEFT, DIR_DOWN, DIR_RIGHT] <;> ring

theorem lookAhead_cell (o : t_options) (g : Grid) (x y : Int) {d : Int} (h : ValidDir d) :
    lookAhead o g (cellFromXY o x y) d = lookAheadRef o g x y d := by
  rcases validDir_cases h with h | h | h | h <;> subst h <;>
    simp [lookAhead, lookAheadRef, isAtom, dirDX, dirDY, DIR_UP, DIR_LEFT, DIR_DOWN,
      DIR_RIGHT, cellFromXY] <;> ring_nf

/-! ## C10: the look-ahead against its reference definition -/

/-- C10: for every grid, every cell `(x, y)` and each of the four directions,
    with the unit steps Up = (0,-1), Left = (-1,0), Down = (0,1), Right = (1,0),
    `lookAhead` returns what the reference definition says (Center for an atom
    directly ahead, otherwise Left for an atom at the ahead cell shifted by
    `(dy,-dx)`, otherwise Right for an atom at the ahead cell shifted by
    `(-dy,dx)`, otherwise None); the result does not change when the content of
    the cell itself is overwritten; and a Border value in one of the three cells
    never produces the match of that cell. -/
theorem lookAhead_reference (o : t_options) (g : Grid) (x y d : Int)
    (hw : 2 ≤ o.iWidth) (hd : ValidDir d) :
    ((dirDX DIR_UP, dirDY DIR_UP) = (0, -1) ∧ (dirDX DIR_LEFT, dirDY DIR_LEFT) = (-1, 0) ∧
      (dirDX DIR_DOWN, dirDY DIR_DOWN) = (0, 1) ∧ (dirDX DIR_RIGHT, dirDY DIR_RIGHT) = (1, 0)) ∧
    lookAhead o g (cellFromXY o x y) d = lookAheadRef o g x y d ∧
    (∀ v : Int, lookAhead o (Function.update g (cellFromXY o x y) v) (cellFromXY o x y) d =
      lookAhead o g (cellFromXY o x y) d) ∧
    (g (cellFromXY o (x + dirDX d) (y + dirDY d)) = CELL_BORDER →
      lookAhead o g (cellFromXY o x y) d ≠ ATOM_CENTER) ∧
    (g (cellFromXY o (x + dirDX d + dirDY d) (y + dirDY d - dirDX d)) = CELL_BORDER →
      lookAhead o g (cellFromXY o x y) d ≠ ATOM_LEFT) ∧
    (g (cellFromXY o (x + dirDX d - dirDY d) (y + dirDY d + dirDX d)) = CELL_BORDER →
      lookAhead o g (cellFromXY o x y) d ≠ ATOM_RIGHT) := by
  refine ⟨by decide, lookAhead_cell o g x y hd, ?_, ?_, ?_, ?_⟩
  · intro v
    rcases validDir_cases hd with h | h | h | h <;> subst h
    · have a1 : cellFromXY o x y - o.iWidth ≠ cellFromXY o x y := by omega
      have a2 : cellFromXY o x y - o.iWidth - 1 ≠ cellFromXY o x y := by omega
      have a3 : cellFromXY o x y - o.iWidth + 1 ≠ cellFromXY o x y := by omega
      simp [lookAhead, DIR_UP, DIR_LEFT, DIR_DOWN, DIR_RIGHT, Function.update, a1, a2, a3]
    · have a1 : cellFromXY o x y - 1 ≠ cellFromXY o x y := by omega
      have a2 : cellFromXY o x y - 1 + o.iWidth ≠ cellFromXY o x y := by omega
      have a3 : cellFromXY o x y - 1 - o.iWidth ≠ cellFromXY o x y := by omega
      simp [lookAhead, DIR_UP, DIR_LEFT, DIR_DOWN, DIR_RIGHT, Function.update, a1, a2, a3]
    · have a1 : cellFromXY o x y + o.iWidth ≠ cellFromXY o x y := by omega
      have a2 : cellFromXY o x y + o.iWidth + 1 ≠ cellFromXY o x y := by omega
      have a3 : cellFromXY o x y + o.iWidth - 1 ≠ cellFromXY o x y := by omega
      simp [lookAhead, DIR_UP, DIR_LEFT, DIR_DOWN, DIR_RIGHT, Function.update, a1, a2, a3]
    · have a1 : cellFromXY o x y + 1 ≠ cellFromXY o x y := by omega
      have a2 : cellFromXY o x y + 1 - o.iWidth ≠ cellFromXY o x y := by omega
      have a3 : cellFromXY o x y + 1 + o.iWidth ≠ cellFromXY o x y := by omega
      simp [lookAhead, DIR_UP, DIR_LEFT, DIR_DOWN, DIR_RIGHT, Function.update, a1, a2, a3]
  · intro hb
    have hne : ¬ (CELL_BORDER = CELL_ATOM) := by decide
    rw [← hb] at hne
    rw [lookAhead_cell o g x y hd]
    unfold lookAheadRef isAtom
    split_ifs <;> decide
  · intro hb
    have hne : ¬ (CELL_BORDER = CELL_ATOM) := by decide
    rw [← hb] at hne
    rw [lookAhead_cell o g x y hd]
    unfold lookAheadRef isAtom
    split_ifs <;> decide
  · intro hb
    have hne : ¬ (CELL_BORDER = CELL_ATOM) := by decide
    rw [← hb] at hne
    rw [lookAhead_cell o g x y hd]
    unfold lookAheadRef isAtom
    split_ifs <;> decide

theorem lookAhead_reference_witness :
    lookAhead (getOptions 4 3) (boardWith 4 [(3, 2), (2, 4), (3, 4)])
        (cellFromXY (getOptions 4 3) 2 2) DIR_RIGHT =
      lookAheadRef (getOptions 4 3) (boardWith 4 [(3, 2), (2, 4), (3, 4)]) 2 2 DIR_RIGHT :=
  (lookAhead_reference (getOptions 4 3) (boardWith 4 [(3, 2), (2, 4), (3, 4)]) 2 2 DIR_RIGHT
    (by decide) (by decide)).2.1

/-! ## Valid boards -/

theorem isAtom_of_eq {o : t_options} {g : Grid} {x y u v : Int}
    (h : isAtom o g x y) (hx : u = x) (hy : v = y) : isAtom o g u v := by
  subst hx; subst hy; exact h

theorem not_isAtom_of_eq {o : t_options} {g : Grid} {x y u v : Int}
    (h : ¬ isAtom o g x y) (hx : u = x) (hy : v = y) : ¬ isAtom o g u v := by
  subst hx; subst hy; exact h

theorem valid_ring {s a : Int} {g : Grid} (hv : ValidBoard (getOptions s a) g) {x y : Int}
    (hx0 : 0 ≤ x) (hx1 : x ≤ s + 1) (hy0 : 0 ≤ y) (hy1 : y ≤ s + 1)
    (hr : x = 0 ∨ x = s + 1 ∨ y = 0 ∨ y = s + 1) :
    g (cellFromXY (getOptions s a) x y) = CELL_BORDER := by
  have h := hv x y hx0 (by simp; omega) hy0 (by simp; omega)
  have c : x = 0 ∨ x = (getOptions s a).iWidth - 1 ∨ y = 0 ∨ y = (getOptions s a).iWidth - 1 := by
    simp only [getOptions_iWidth]; omega
  rw [if_pos c] at h
  exact h

theorem valid_inner {s a : Int} {g : Grid} (hv : ValidBoard (getOptions s a) g) {x y : Int}
    (hx0 : 1 ≤ x) (hx1 : x ≤ s) (hy0 : 1 ≤ y) (hy1 : y ≤ s) :
    g (cellFromXY (getOptions s a) x y) = CELL_EMPTY ∨
      g (cellFromXY (getOptions s a) x y) = CELL_ATOM := by
  have h := hv x y (by omega) (by simp; omega) (by omega) (by simp; omega)
  have c : ¬ (x = 0 ∨ x = (getOptions s a).iWidth - 1 ∨ y = 0 ∨
      y = (getOptions s a).iWidth - 1) := by
    simp only [getOptions_iWidth]; omega
  rw [if_neg c] at h
  exact h

theorem valid_ring_not_atom {s a : Int} {g : Grid} (hv : ValidBoard (getOptions s a) g)
    {x y : Int} (hx0 : 0 ≤ x) (hx1 : x ≤ s + 1) (hy0 : 0 ≤ y) (hy1 : y ≤ s + 1)
    (hr : x = 0 ∨ x = s + 1 ∨ y = 0 ∨ y = s + 1) : ¬ isAtom (getOptions s a) g x y := by
  unfold isAtom
  rw [valid_ring hv hx0 hx1 hy0 hy1 hr]
  decide

theorem valid_inner_not_border {s a : Int} {g : Grid} (hv : ValidBoard (getOptions s a) g)
    {x y : Int} (hx0 : 1 ≤ x) (hx1 : x ≤ s) (hy0 : 1 ≤ y) (hy1 : y ≤ s) :
    g (cellFromXY (getOptions s a) x y) ≠ CELL_BORDER := by
  rcases valid_inner hv hx0 hx1 hy0 hy1 with h | h <;> rw [h] <;> decide

/-- Inside the grid, a cell that does not hold `CELL_BORDER` is interior. -/
theorem valid_not_border_inner {s a : Int} {g : Grid} (hv : ValidBoard (getOptions s a) g)
    {x y : Int} (hx0 : 0 ≤ x) (hx1 : x ≤ s + 1) (hy0 : 0 ≤ y) (hy1 : y ≤ s + 1)
    (hb : g (cellFromXY (getOptions s a) x y) ≠ CELL_BORDER) :
    1 ≤ x ∧ x ≤ s ∧ 1 ≤ y ∧ y ≤ s := by
  by_contra hn
  exact hb (valid_ring hv hx0 hx1 hy0 hy1 (by omega))

/-! ## The look-ahead in terms of the three cells -/

theorem lookAheadRef_center {o : t_options} {g : Grid} {x y d : Int}
    (hF : isAtom o g (x + dirDX d) (y + dirDY d)) : lookAheadRef o g x y d = ATOM_CENTER := by
  unfold lookAheadRef
  rw [if_pos hF]

theorem lookAheadRef_left {o : t_options} {g : Grid} {x y d : Int}
    (hF : ¬ isAtom o g (x + dirDX d) (y + dirDY d))
    (hL : isAtom o g (x + dirDX d + dirDY d) (y + dirDY d - dirDX d)) :
    lookAheadRef o g x y d = ATOM_LEFT := by
  unfold lookAheadRef
  rw [if_neg hF, if_pos hL]

theorem lookAheadRef_right {o : t_options} {g : Grid} {x y d : Int}
    (hF : ¬ isAtom o g (x + dirDX d) (y + dirDY d))
    (hL : ¬ isAtom o g (x + dirDX d + dirDY d) (y + dirDY d - dirDX d))
    (hR : isAtom o g (x + dirDX d - dirDY d) (y + dirDY d + dirDX d)) :
    lookAheadRef o g x y d = ATOM_RIGHT := by
  unfold lookAheadRef
  rw [if_neg hF, if_neg hL, if_pos hR]

theorem lookAheadRef_none {o : t_options} {g : Grid} {x y d : Int}
    (hF : ¬ isAtom o g (x + dirDX d) (y + dirDY d))
    (hL : ¬ isAtom o g (x + dirDX d + dirDY d) (y + dirDY d - dirDX d))
    (hR : ¬ isAtom o g (x + dirDX d - dirDY d) (y + dirDY d + dirDX d)) :
    lookAheadRef o g x y d = ATOM_NONE := by
  unfold lookAheadRef
  rw [if_neg hF, if_neg hL, if_neg hR]

theorem turnLoop_none (o : t_options) (g : Grid) (c : Int) (fuel : Nat) (d : Int) :
    turnLoop o g c fuel ATOM_NONE d = some (TurnOut.fin d ATOM_NONE) := by
  unfold turnLoop
  rw [if_neg (by decide)]

theorem turnLoop_center (o : t_options) (g : Grid) (c : Int) (fuel : Nat) (d : Int) :
    turnLoop o g c fuel ATOM_CENTER d = some (TurnOut.fin d ATOM_CENTER) := by
  unfold turnLoop
  rw [if_neg (by decide)]

theorem turnLoop_turn (o : t_options) (g : Grid) (c : Int) (fuel : Nat) (at0 d : Int)
    (h : at0 = ATOM_LEFT ∨ at0 = ATOM_RIGHT) :
    turnLoop o g c (fuel + 1) at0 d =
      if g c = CELL_BORDER then some (TurnOut.ret c)
      else turnLoop o g c fuel (lookAhead o g c (turnBeam at0 d)) (turnBeam at0 d) := by
  rw [turnLoop]
  rw [if_pos h]

/-! ## One pass of the outer loop at an interior cell -/

/-- The four ways the turn loop can end, with the unit step of the final
    direction in terms of the unit step of the direction it started with. -/
theorem nextDir_spec (o : t_options) (g : Grid) (x y : Int) {d : Int} (hd : ValidDir d) :
    ValidDir (nextDir o g x y d) ∧
    ((¬ isAtom o g (x + dirDX d + dirDY d) (y + dirDY d - dirDX d) ∧
        ¬ isAtom o g (x + dirDX d - dirDY d) (y + dirDY d + dirDX d) ∧
        nextDir o g x y d = d) ∨
      (isAtom o g (x + dirDX d + dirDY d) (y + dirDY d - dirDX d) ∧
        ¬ isAtom o g (x + dirDX d - dirDY d) (y + dirDY d + dirDX d) ∧
        nextDir o g x y d = turnBeam ATOM_LEFT d ∧
        dirDX (nextDir o g x y d) = - dirDY d ∧ dirDY (nextDir o g x y d) = dirDX d) ∨
      (¬ isAtom o g (x + dirDX d + dirDY d) (y + dirDY d - dirDX d) ∧
        isAtom o g (x + dirDX d - dirDY d) (y + dirDY d + dirDX d) ∧
        nextDir o g x y d = turnBeam ATOM_RIGHT d ∧
        dirDX (nextDir o g x y d) = dirDY d ∧ dirDY (nextDir o g x y d) = - dirDX d) ∨
      (isAtom o g (x + dirDX d + dirDY d) (y + dirDY d - dirDX d) ∧
        isAtom o g (x + dirDX d - dirDY d) (y + dirDY d + dirDX d) ∧
        nextDir o g x y d = turnBeam ATOM_LEFT (turnBeam ATOM_LEFT d) ∧
        dirDX (nextDir o g x y d) = - dirDX d ∧ dirDY (nextDir o g x y d) = - dirDY d)) := by
  obtain ⟨hl, hlx, hly⟩ := turnBeam_left hd
  obtain ⟨hr, hrx, hry⟩ := turnBeam_right hd
  obtain ⟨hll, hllx, hlly⟩ := turnBeam_left hl
  by_cases hL : isAtom o g (x + dirDX d + dirDY d) (y + dirDY d - dirDX d)
  · by_cases hR : isAtom o g (x + dirDX d - dirDY d) (y + dirDY d + dirDX d)
    · have e : nextDir o g x y d = turnBeam ATOM_LEFT (turnBeam ATOM_LEFT d) := by
        unfold nextDir; rw [if_pos hL, if_pos hR]
      rw [e]
      exact ⟨hll, Or.inr (Or.inr (Or.inr ⟨hL, hR, rfl, by omega, by omega⟩))⟩
    · have e : nextDir o g x y d = turnBeam ATOM_LEFT d := by
        unfold nextDir; rw [if_pos hL, if_neg hR]
      rw [e]
      exact ⟨hl, Or.inr (Or.inl ⟨hL, hR, rfl, hlx, hly⟩)⟩
  · by_cases hR : isAtom o g (x + dirDX d - dirDY d) (y + dirDY d + dirDX d)
    · have e : nextDir o g x y d = turnBeam ATOM_RIGHT d := by
        unfold nextDir; rw [if_neg hL, if_pos hR]
      rw [e]
      exact ⟨hr, Or.inr (Or.inr (Or.inl ⟨hL, hR, rfl, hrx, hry⟩))⟩
    · have e : nextDir o g x y d = d := by
        unfold nextDir; rw [if_neg hL, if_neg hR]
      rw [e]
      exact ⟨hd, Or.inl ⟨hL, hR, rfl⟩⟩

/-- At an interior cell reached by the beam, with no atom directly ahead, the
    turn loop ends after at most two turns with the direction `nextDir` and a
    look-ahead that shows no atom. -/
theorem turnLoop_good {s a : Int} {g : Grid} {x y d : Int}
    (hv : ValidBoard (getOptions s a) g) (hg : Good s a g x y d)
    (hF : ¬ isAtom (getOptions s a) g (x + dirDX d) (y + dirDY d)) (fuel : Nat) :
    turnLoop (getOptions s a) g (cellFromXY (getOptions s a) x y) (fuel + 2)
        (lookAhead (getOptions s a) g (cellFromXY (getOptions s a) x y) d) d =
      some (TurnOut.fin (nextDir (getOptions s a) g x y d) ATOM_NONE) := by
  have hd := hg.dir
  have hnb : g (cellFromXY (getOptions s a) x y) ≠ CELL_BORDER :=
    valid_inner_not_border hv hg.x1 hg.xs hg.y1 hg.ys
  obtain ⟨hl, hlx, hly⟩ := turnBeam_left hd
  obtain ⟨hr, hrx, hry⟩ := turnBeam_right hd
  obtain ⟨hll, hllx, hlly⟩ := turnBeam_left hl
  have h0 := hg.here
  have h1 := hg.sideL
  have h2 := hg.sideR
  have h3 := hg.back
  have h4 := hg.backL
  have h5 := hg.backR
  rw [lookAhead_cell _ g x y hd]
  rcases (nextDir_spec (getOptions s a) g x y hd).2 with
    ⟨hL, hR, e⟩ | ⟨hL, hR, e, -, -⟩ | ⟨hL, hR, e, -, -⟩ | ⟨hL, hR, e, -, -⟩
  · rw [e, lookAheadRef_none hF hL hR, turnLoop_none]
  · rw [e, lookAheadRef_left hF hL, turnLoop_turn _ _ _ _ _ _ (Or.inl rfl), if_neg hnb,
      lookAhead_cell _ g x y hl,
      lookAheadRef_none (not_isAtom_of_eq h2 (by omega) (by omega))
        (not_isAtom_of_eq hR (by omega) (by omega))
        (not_isAtom_of_eq h5 (by omega) (by omega)), turnLoop_none]
  · rw [e, lookAheadRef_right hF hL hR, turnLoop_turn _ _ _ _ _ _ (Or.inr rfl), if_neg hnb,
      lookAhead_cell _ g x y hr,
      lookAheadRef_none (not_isAtom_of_eq h1 (by omega) (by omega))
        (not_isAtom_of_eq h4 (by omega) (by omega))
        (not_isAtom_of_eq hL (by omega) (by omega)), turnLoop_none]
  · rw [e, lookAheadRef_left hF hL, turnLoop_turn _ _ _ _ _ _ (Or.inl rfl), if_neg hnb,
      lookAhead_cell _ g x y hl,
      lookAheadRef_left (not_isAtom_of_eq h2 (by omega) (by omega))
        (isAtom_of_eq hR (by omega) (by omega)),
      turnLoop_turn _ _ _ _ _ _ (Or.inl rfl), if_neg hnb,
      lookAhead_cell _ g x y hll,
      lookAheadRef_none (not_isAtom_of_eq h3 (by omega) (by omega))
        (not_isAtom_of_eq h5 (by omega) (by omega))
        (not_isAtom_of_eq h4 (by omega) (by omega)), turnLoop_none]

/-- The cell the beam advances to from a good state is an exit cell when it
    holds `CELL_BORDER`, and otherwise the new state is good again. -/
theorem good_step {s a : Int} {g : Grid} {x y d : Int}
    (hv : ValidBoard (getOptions s a) g) (hg : Good s a g x y d)
    (hF : ¬ isAtom (getOptions s a) g (x + dirDX d) (y + dirDY d)) :
    (g (cellFromXY (getOptions s a) (x + dirDX (nextDir (getOptions s a) g x y d))
        (y + dirDY (nextDir (getOptions s a) g x y d))) = CELL_BORDER →
      ExitCell s (x + dirDX (nextDir (getOptions s a) g x y d))
        (y + dirDY (nextDir (getOptions s a) g x y d))) ∧
    (g (cellFromXY (getOptions s a) (x + dirDX (nextDir (getOptions s a) g x y d))
        (y + dirDY (nextDir (getOptions s a) g x y d))) ≠ CELL_BORDER →
      Good s a g (x + dirDX (nextDir (getOptions s a) g x y d))
        (y + dirDY (nextDir (getOptions s a) g x y d)) (nextDir (getOptions s a) g x y d)) := by
  have hd := hg.dir
  obtain ⟨hd', hc⟩ := nextDir_spec (getOptions s a) g x y hd
  have hu := dir_unit hd'
  have hx1 := hg.x1
  have hxs := hg.xs
  have hy1 := hg.y1
  have hys := hg.ys
  have h0 := hg.here
  have h1 := hg.sideL
  have h2 := hg.sideR
  have h3 := hg.back
  have h4 := hg.backL
  have h5 := hg.backR
  constructor
  · intro hb
    have hni : ¬ (1 ≤ x + dirDX (nextDir (getOptions s a) g x y d) ∧
        x + dirDX (nextDir (getOptions s a) g x y d) ≤ s ∧
        1 ≤ y + dirDY (nextDir (getOptions s a) g x y d) ∧
        y + dirDY (nextDir (getOptions s a) g x y d) ≤ s) := by
      intro hi
      exact valid_inner_not_border hv hi.1 hi.2.1 hi.2.2.1 hi.2.2.2 hb
    unfold ExitCell
    omega
  · intro hb
    have hi := valid_not_border_inner hv (x := x + dirDX (nextDir (getOptions s a) g x y d))
      (y := y + dirDY (nextDir (getOptions s a) g x y d)) (by omega) (by omega) (by omega)
      (by omega) hb
    rcases hc with ⟨hL, hR, e⟩ | ⟨hL, hR, -, ex, ey⟩ | ⟨hL, hR, -, ex, ey⟩ | ⟨hL, hR, -, ex, ey⟩
    · rw [e]
      rw [e] at hi
      refine ⟨hd, hi.1, hi.2.1, hi.2.2.1, hi.2.2.2, ?_, ?_, ?_, ?_, ?_, ?_⟩
      · exact not_isAtom_of_eq hF (by omega) (by omega)
      · exact not_isAtom_of_eq hL (by omega) (by omega)
      · exact not_isAtom_of_eq hR (by omega) (by omega)
      · exact not_isAtom_of_eq h0 (by omega) (by omega)
      · exact not_isAtom_of_eq h1 (by omega) (by omega)
      · exact not_isAtom_of_eq h2 (by omega) (by omega)
    · refine ⟨hd', hi.1, hi.2.1, hi.2.2.1, hi.2.2.2, ?_, ?_, ?_, ?_, ?_, ?_⟩
      · exact not_isAtom_of_eq h2 (by omega) (by omega)
      · exact not_isAtom_of_eq hR (by omega) (by omega)
      · exact not_isAtom_of_eq h5 (by omega) (by omega)
      · exact not_isAtom_of_eq h0 (by omega) (by omega)
      · exact not_isAtom_of_eq hF (by omega) (by omega)
      · exact not_isAtom_of_eq h3 (by omega) (by omega)
    · refine ⟨hd', hi.1, hi.2.1, hi.2.2.1, hi.2.2.2, ?_, ?_, ?_, ?_, ?_, ?_⟩
      · exact not_isAtom_of_eq h1 (by omega) (by omega)
      · exact not_isAtom_of_eq h4 (by omega) (by omega)
      · exact not_isAtom_of_eq hL (by omega) (by omega)
      · exact not_isAtom_of_eq h0 (by omega) (by omega)
      · exact not_isAtom_of_eq h3 (by omega) (by omega)
      · exact not_isAtom_of_eq hF (by omega) (by omega)
    · refine ⟨hd', hi.1, hi.2.1, hi.2.2.1, hi.2.2.2, ?_, ?_, ?_, ?_, ?_, ?_⟩
      · exact not_isAtom_of_eq h3 (by omega) (by omega)
      · exact not_isAtom_of_eq h5 (by omega) (by omega)
      · exact not_isAtom_of_eq h4 (by omega) (by omega)
      · exact not_isAtom_of_eq h0 (by omega) (by omega)
      · exact not_isAtom_of_eq h2 (by omega) (by omega)
      · exact not_isAtom_of_eq h1 (by omega) (by omega)

/-- The direction a good state came with can be read off the two cells behind
    the cell, relative to the direction it leaves with: the step is
    reversible. -/
theorem nextDir_source {s a : Int} {g : Grid} {x y d : Int} (hg : Good s a g x y d) :
    dirDX d =
      (if isAtom (getOptions s a) g
          (x - dirDX (nextDir (getOptions s a) g x y d) + dirDY (nextDir (getOptions s a) g x y d))
          (y - dirDY (nextDir (getOptions s a) g x y d) - dirDX (nextDir (getOptions s a) g x y d))
        then
          (if isAtom (getOptions s a) g
            (x - dirDX (nextDir (getOptions s a) g x y d) -
              dirDY (nextDir (getOptions s a) g x y d))
            (y - dirDY (nextDir (getOptions s a) g x y d) +
              dirDX (nextDir (getOptions s a) g x y d))
          then - dirDX (nextDir (getOptions s a) g x y d)
          else dirDY (nextDir (getOptions s a) g x y d))
        else
          (if isAtom (getOptions s a) g
            (x - dirDX (nextDir (getOptions s a) g x y d) -
              dirDY (nextDir (getOptions s a) g x y d))
            (y - dirDY (nextDir (getOptions s a) g x y d) +
              dirDX (nextDir (getOptions s a) g x y d))
          then - dirDY (nextDir (getOptions s a) g x y d)
          else dirDX (nextDir (getOptions s a) g x y d))) ∧
    dirDY d =
      (if isAtom (getOptions s a) g
          (x - dirDX (nextDir (getOptions s a) g x y d) + dirDY (nextDir (getOptions s a) g x y d))
          (y - dirDY (nextDir (getOptions s a) g x y d) - dirDX (nextDir (getOptions s a) g x y d))
        then
          (if isAtom (getOptions s a) g
            (x - dirDX (nextDir (getOptions s a) g x y d) -
              dirDY (nextDir (getOptions s a) g x y d))
            (y - dirDY (nextDir (getOptions s a) g x y d) +
              dirDX (nextDir (getOptions s a) g x y d))
          then - dirDY (nextDir (getOptions s a) g x y d)
          else - dirDX (nextDir (getOptions s a) g x y d))
        else
          (if isAtom (getOptions s a) g
            (x - dirDX (nextDir (getOptions s a) g x y d) -
              dirDY (nextDir (getOptions s a) g x y d))
            (y - dirDY (nextDir (getOptions s a) g x y d) +
              dirDX (nextDir (getOptions s a) g x y d))
          then dirDX (nextDir (getOptions s a) g x y d)
          else dirDY (nextDir (getOptions s a) g x y d))) := by
  have hd := hg.dir
  obtain ⟨hd', hc⟩ := nextDir_spec (getOptions s a) g x y hd
  have h4 := hg.backL
  have h5 := hg.backR
  rcases hc with ⟨hL, hR, e⟩ | ⟨hL, hR, -, ex, ey⟩ | ⟨hL, hR, -, ex, ey⟩ | ⟨hL, hR, -, ex, ey⟩
  · rw [e]
    rw [if_neg h4, if_neg h5, if_neg h4, if_neg h5]
    exact ⟨rfl, rfl⟩
  · have b1 := isAtom_of_eq hL
      (u := x - dirDX (nextDir (getOptions s a) g x y d) +
        dirDY (nextDir (getOptions s a) g x y d))
      (v := y - dirDY (nextDir (getOptions s a) g x y d) -
        dirDX (nextDir (getOptions s a) g x y d)) (by omega) (by omega)
    have b2 := not_isAtom_of_eq h4
      (u := x - dirDX (nextDir (getOptions s a) g x y d) -
        dirDY (nextDir (getOptions s a) g x y d))
      (v := y - dirDY (nextDir (getOptions s a) g x y d) +
        dirDX (nextDir (getOptions s a) g x y d)) (by omega) (by omega)
    rw [if_pos b1, if_neg b2, if_pos b1, if_neg b2]
    omega
  · have b1 := not_isAtom_of_eq h5
      (u := x - dirDX (nextDir (getOptions s a) g x y d) +
        dirDY (nextDir (getOptions s a) g x y d))
      (v := y - dirDY (nextDir (getOptions s a) g x y d) -
        dirDX (nextDir (getOptions s a) g x y d)) (by omega) (by omega)
    have b2 := isAtom_of_eq hR
      (u := x - dirDX (nextDir (getOptions s a) g x y d) -
        dirDY (nextDir (getOptions s a) g x y d))
      (v := y - dirDY (nextDir (getOptions s a) g x y d) +
        dirDX (nextDir (getOptions s a) g x y d)) (by omega) (by omega)
    rw [if_neg b1, if_pos b2, if_neg b1, if_pos b2]
    omega
  · have b1 := isAtom_of_eq hR
      (u := x - dirDX (nextDir (getOptions s a) g x y d) +
        dirDY (nextDir (getOptions s a) g x y d))
      (v := y - dirDY (nextDir (getOptions s a) g x y d) -
        dirDX (nextDir (getOptions s a) g x y d)) (by omega) (by omega)
    have b2 := isAtom_of_eq hL
      (u := x - dirDX (nextDir (getOptions s a) g x y d) -
        dirDY (nextDir (getOptions s a) g x y d))
      (v := y - dirDY (nextDir (getOptions s a) g x y d) +
        dirDX (nextDir (getOptions s a) g x y d)) (by omega) (by omega)
    rw [if_pos b1, if_pos b2, if_pos b1, if_pos b2]
    omega

/-! ## More iterations never change a result -/

theorem turnLoop_mono (o : t_options) (g : Grid) (c : Int) :
    ∀ (f : Nat) (at0 d : Int) (r : TurnOut), turnLoop o g c f at0 d = some r →
      ∀ f' : Nat, f ≤ f' → turnLoop o g c f' at0 d = some r := by
  intro f
  induction f with
  | zero =>
    intro at0 d r h f' _
    by_cases hc : at0 = ATOM_LEFT ∨ at0 = ATOM_RIGHT
    · unfold turnLoop at h
      rw [if_pos hc] at h
      exact absurd h (by simp)
    · unfold turnLoop at h ⊢
      rw [if_neg hc] at h ⊢
      exact h
  | succ k ih =>
    intro at0 d r h f' hf
    by_cases hc : at0 = ATOM_LEFT ∨ at0 = ATOM_RIGHT
    · obtain ⟨k', rfl⟩ : ∃ k', f' = k' + 1 := ⟨f' - 1, by omega⟩
      rw [turnLoop_turn o g c k at0 d hc] at h
      rw [turnLoop_turn o g c k' at0 d hc]
      by_cases hb : g c = CELL_BORDER
      · rw [if_pos hb] at h
        rw [if_pos hb]
        exact h
      · rw [if_neg hb] at h
        rw [if_neg hb]
        exact ih _ _ _ h k' (by omega)
    · unfold turnLoop at h ⊢
      rw [if_neg hc] at h ⊢
      exact h

theorem walkGrid_succ (o : t_options) (g : Grid) (f : Nat) (c d : Int) :
    walkGrid o g (f + 1) c d =
      if lookAhead o g c d = ATOM_CENTER then some 0
      else
        match turnLoop o g c (f + 1) (lookAhead o g c d) d with
        | none => none
        | some (TurnOut.ret c') => some c'
        | some (TurnOut.fin d' _) =>
          if g (goAhead o c d') = CELL_BORDER then some (goAhead o c d')
          else walkGrid o g f (goAhead o c d') d' := by
  rw [walkGrid]

theorem walkGrid_mono (o : t_options) (g : Grid) :
    ∀ (f : Nat) (c d r : Int), walkGrid o g f c d = some r →
      ∀ f' : Nat, f ≤ f' → walkGrid o g f' c d = some r := by
  intro f
  induction f with
  | zero =>
    intro c d r h
    rw [walkGrid] at h
    exact absurd h (by simp)
  | succ k ih =>
    intro c d r h f' hf
    obtain ⟨k', rfl⟩ : ∃ k', f' = k' + 1 := ⟨f' - 1, by omega⟩
    rw [walkGrid_succ] at h
    rw [walkGrid_succ]
    by_cases hc : lookAhead o g c d = ATOM_CENTER
    · rw [if_pos hc] at h
      rw [if_pos hc]
      exact h
    · rw [if_neg hc] at h
      rw [if_neg hc]
      cases ht : turnLoop o g c (k + 1) (lookAhead o g c d) d with
      | none =>
        rw [ht] at h
        exact absurd h (by simp)
      | some t =>
        rw [ht] at h
        rw [turnLoop_mono o g c _ _ _ _ ht (k' + 1) (by omega)]
        cases t with
        | ret c' => exact h
        | fin d' a' =>
          simp only at h ⊢
          by_cases hb : g (goAhead o c d') = CELL_BORDER
          · rw [if_pos hb] at h
            rw [if_pos hb]
            exact h
          · rw [if_neg hb] at h
            rw [if_neg hb]
            exact ih _ _ _ h k' (by omega)

/-! ## The pass function `nextState` -/

theorem nextState_some {o : t_options} {g : Grid} {x y d X Y D : Int}
    (h : nextState o g (x, y, d) = some (X, Y, D)) :
    ¬ isAtom o g (x + dirDX d) (y + dirDY d) ∧ D = nextDir o g x y d ∧
      X = x + dirDX D ∧ Y = y + dirDY D ∧ g (cellFromXY o X Y) ≠ CELL_BORDER := by
  unfold nextState at h
  simp only at h
  by_cases hF : isAtom o g (x + dirDX d) (y + dirDY d)
  · rw [if_pos hF] at h
    exact absurd h (by simp)
  · rw [if_neg hF] at h
    by_cases hb : g (cellFromXY o (x + dirDX (nextDir o g x y d))
        (y + dirDY (nextDir o g x y d))) = CELL_BORDER
    · rw [if_pos hb] at h
      exact absurd h (by simp)
    · rw [if_neg hb] at h
      simp only [Option.some.injEq, Prod.mk.injEq] at h
      obtain ⟨hX, hY, hD⟩ := h
      subst hD
      subst hX
      subst hY
      exact ⟨hF, rfl, rfl, rfl, hb⟩

/-- Two good states with the same successor are equal. -/
theorem nextState_inj {s a : Int} {g : Grid} {x y d x' y' d' X Y D : Int}
    (hg : Good s a g x y d) (hg' : Good s a g x' y' d')
    (h : nextState (getOptions s a) g (x, y, d) = some (X, Y, D))
    (h' : nextState (getOptions s a) g (x', y', d') = some (X, Y, D)) :
    x = x' ∧ y = y' ∧ d = d' := by
  obtain ⟨-, eD, eX, eY, -⟩ := nextState_some h
  obtain ⟨-, eD', eX', eY', -⟩ := nextState_some h'
  have hx : x = x' := by omega
  have hy : y = y' := by omega
  subst hx
  subst hy
  refine ⟨rfl, rfl, ?_⟩
  have s1 := nextDir_source hg
  have s2 := nextDir_source hg'
  rw [← eD] at s1
  rw [← eD'] at s2
  exact dir_ext hg.dir hg'.dir (s1.1.trans s2.1.symm) (s1.2.trans s2.2.symm)

theorem lookAheadRef_ne_center {o : t_options} {g : Grid} {x y d : Int}
    (hF : ¬ isAtom o g (x + dirDX d) (y + dirDY d)) : lookAheadRef o g x y d ≠ ATOM_CENTER := by
  unfold lookAheadRef
  rw [if_neg hF]
  split_ifs <;> decide

/-- A pass of the outer loop from a good state that does not return continues
    with the successor state. -/
theorem walkGrid_good_some {s a : Int} {g : Grid} {x y d X Y D : Int}
    (hv : ValidBoard (getOptions s a) g) (hg : Good s a g x y d)
    (h : nextState (getOptions s a) g (x, y, d) = some (X, Y, D)) (fuel : Nat) :
    walkGrid (getOptions s a) g (fuel + 2) (cellFromXY (getOptions s a) x y) d =
      walkGrid (getOptions s a) g (fuel + 1) (cellFromXY (getOptions s a) X Y) D := by
  obtain ⟨hF, eD, eX, eY, hb⟩ := nextState_some h
  have hd' := (nextDir_spec (getOptions s a) g x y hg.dir).1
  rw [walkGrid_succ, if_neg (by rw [lookAhead_cell _ g x y hg.dir]; exact lookAheadRef_ne_center hF),
    turnLoop_good hv hg hF fuel]
  simp only
  rw [goAhead_cell _ x y hd', ← eD, ← eX, ← eY, if_neg hb]

/-- A pass of the outer loop from a good state that returns gives 0 or a
    non-corner cell of the outer ring. -/
theorem walkGrid_good_none {s a : Int} {g : Grid} {x y d : Int}
    (hv : ValidBoard (getOptions s a) g) (hg : Good s a g x y d)
    (h : nextState (getOptions s a) g (x, y, d) = none) (fuel : Nat) :
    ∃ r, walkGrid (getOptions s a) g (fuel + 2) (cellFromXY (getOptions s a) x y) d = some r ∧
      (r = 0 ∨ ∃ X Y, ExitCell s X Y ∧ r = cellFromXY (getOptions s a) X Y) := by
  have hd' := (nextDir_spec (getOptions s a) g x y hg.dir).1
  by_cases hF : isAtom (getOptions s a) g (x + dirDX d) (y + dirDY d)
  · refine ⟨0, ?_, Or.inl rfl⟩
    rw [walkGrid_succ, if_pos (by rw [lookAhead_cell _ g x y hg.dir]; exact lookAheadRef_center hF)]
  · unfold nextState at h
    simp only at h
    rw [if_neg hF] at h
    by_cases hb : g (cellFromXY (getOptions s a) (x + dirDX (nextDir (getOptions s a) g x y d))
        (y + dirDY (nextDir (getOptions s a) g x y d))) = CELL_BORDER
    · refine ⟨_, ?_, Or.inr ⟨_, _, (good_step hv hg hF).1 hb, rfl⟩⟩
      rw [walkGrid_succ,
        if_neg (by rw [lookAhead_cell _ g x y hg.dir]; exact lookAheadRef_ne_center hF),
        turnLoop_good hv hg hF fuel]
      simp only
      rw [goAhead_cell _ x y hd', if_pos hb]
    · rw [if_neg hb] at h
      exact absurd h (by simp)

/-! ## Termination of the walk -/

/-- There are at most `4 * s * s` different beam states at interior cells. -/
theorem states_bound (s : Int) (l : List (Int × Int × Int)) (hn : l.Nodup)
    (hm : ∀ t ∈ l, 1 ≤ t.1 ∧ t.1 ≤ s ∧ 1 ≤ t.2.1 ∧ t.2.1 ≤ s ∧ 1 ≤ t.2.2 ∧ t.2.2 ≤ 4) :
    l.length ≤ 4 * s.toNat * s.toNat := by
  have hsub : l.toFinset ⊆ Finset.Icc 1 s ×ˢ (Finset.Icc 1 s ×ˢ Finset.Icc (1 : Int) 4) := by
    intro t ht
    have := hm t (List.mem_toFinset.mp ht)
    simp only [Finset.mem_product, Finset.mem_Icc]
    omega
  have hc := Finset.card_le_card hsub
  rw [List.toFinset_card_of_nodup hn, Finset.card_product, Finset.card_product,
    Int.card_Icc, Int.card_Icc] at hc
  have e1 : (s + 1 - 1).toNat = s.toNat := by congr 1; omega
  have e2 : ((4 : Int) + 1 - 1).toNat = 4 := by decide
  rw [e1, e2] at hc
  calc l.length ≤ s.toNat * (s.toNat * 4) := hc
    _ = 4 * s.toNat * s.toNat := by ring

/-- The walk from a good state returns: the states passed are pairwise
    different, because the pass function is injective on good states and the
    first state has no good predecessor, and there are only finitely many. -/
theorem walk_run {s a : Int} {g : Grid} (hv : ValidBoard (getOptions s a) g)
    (st0 : Int × Int × Int)
    (hnp : ∀ x y d, Good s a g x y d → nextState (getOptions s a) g (x, y, d) ≠ some st0) :
    ∀ (n : Nat) (st : Int × Int × Int) (rest : List (Int × Int × Int)),
      (∀ t ∈ st :: rest, Good s a g t.1 t.2.1 t.2.2) →
      (st :: rest).Nodup →
      (∀ t ∈ st :: rest, t = st0 ∨ ∃ u ∈ rest, nextState (getOptions s a) g u = some t) →
      4 * s.toNat * s.toNat + 1 ≤ (st :: rest).length + n →
      ∃ r, walkGrid (getOptions s a) g (n + 2) (cellFromXY (getOptions s a) st.1 st.2.1) st.2.2
          = some r ∧
        (r = 0 ∨ ∃ X Y, ExitCell s X Y ∧ r = cellFromXY (getOptions s a) X Y) := by
  intro n
  induction n with
  | zero =>
    intro st rest hgood hnd _ hlen
    exfalso
    have hb := states_bound s (st :: rest) hnd (by
      intro t ht
      have hg := hgood t ht
      have hd := validDir_cases hg.dir
      have h1 := hg.x1
      have h2 := hg.xs
      have h3 := hg.y1
      have h4 := hg.ys
      omega)
    omega
  | succ n ih =>
    intro st rest hgood hnd hq hlen
    obtain ⟨x, y, d⟩ := st
    have hg : Good s a g x y d := hgood (x, y, d) (List.mem_cons_self _ _)
    cases hns : nextState (getOptions s a) g (x, y, d) with
    | none => exact walkGrid_good_none hv hg hns (n + 1)
    | some nx =>
      obtain ⟨X, Y, D⟩ := nx
      obtain ⟨hF, eD, eX, eY, hb⟩ := nextState_some hns
      have hgn : Good s a g X Y D := by
        have := (good_step hv hg hF).2
        rw [← eD, ← eX, ← eY] at this
        exact this hb
      have hnotin : (X, Y, D) ∉ (x, y, d) :: rest := by
        intro hin
        rcases hq (X, Y, D) hin with h0 | ⟨u, hu, hnu⟩
        · exact hnp x y d hg (h0 ▸ hns)
        · obtain ⟨ux, uy, ud⟩ := u
          have hgu : Good s a g ux uy ud := hgood (ux, uy, ud) (List.mem_cons_of_mem _ hu)
          obtain ⟨e1, e2, e3⟩ := nextState_inj hg hgu hns hnu
          subst e1
          subst e2
          subst e3
          exact (List.nodup_cons.mp hnd).1 hu
      have hres := ih (X, Y, D) ((x, y, d) :: rest)
        (by
          intro t ht
          rcases List.mem_cons.mp ht with h | h
          · rw [h]; exact hgn
          · exact hgood t h)
        (List.nodup_cons.mpr ⟨hnotin, hnd⟩)
        (by
          intro t ht
          rcases List.mem_cons.mp ht with h | h
          · exact Or.inr ⟨(x, y, d), List.mem_cons_self _ _, h ▸ hns⟩
          · rcases hq t h with h0 | ⟨u, hu, hnu⟩
            · exact Or.inl h0
            · exact Or.inr ⟨u, List.mem_cons_of_mem _ hu, hnu⟩)
        (by simp only [List.length_cons] at hlen ⊢; omega)
      rw [walkGrid_good_some hv hg hns (n + 1)]
      exact hres

theorem entryState_facts {s x y d : Int} (he : EntryState s x y d) :
    ValidDir d ∧ ExitCell s x y ∧
    1 ≤ x + dirDX d ∧ x + dirDX d ≤ s ∧ 1 ≤ y + dirDY d ∧ y + dirDY d ≤ s ∧
    ((dirDX d = 0 ∧ (dirDY d = 1 ∨ dirDY d = -1)) ∨
      (dirDY d = 0 ∧ (dirDX d = 1 ∨ dirDX d = -1))) := by
  unfold ExitCell
  rcases he with ⟨h1, h2, h3, h4⟩ | ⟨h1, h2, h3, h4⟩ | ⟨h1, h2, h3, h4⟩ | ⟨h1, h2, h3, h4⟩ <;>
    subst h4 <;> subst h1
  · have e1 : dirDX DIR_RIGHT = 1 := by decide
    have e2 : dirDY DIR_RIGHT = 0 := by decide
    rw [e1, e2]
    exact ⟨by decide, by omega, by omega, by omega, by omega, by omega, by omega⟩
  · have e1 : dirDX DIR_UP = 0 := by decide
    have e2 : dirDY DIR_UP = -1 := by decide
    rw [e1, e2]
    exact ⟨by decide, by omega, by omega, by omega, by omega, by omega, by omega⟩
  · have e1 : dirDX DIR_LEFT = -1 := by decide
    have e2 : dirDY DIR_LEFT = 0 := by decide
    rw [e1, e2]
    exact ⟨by decide, by omega, by omega, by omega, by omega, by omega, by omega⟩
  · have e1 : dirDX DIR_DOWN = 0 := by decide
    have e2 : dirDY DIR_DOWN = 1 := by decide
    rw [e1, e2]
    exact ⟨by decide, by omega, by omega, by omega, by omega, by omega, by omega⟩

theorem exitCell_ring {s a : Int} {g : Grid} (hv : ValidBoard (getOptions s a) g) {x y : Int}
    (he : ExitCell s x y) : g (cellFromXY (getOptions s a) x y) = CELL_BORDER := by
  unfold ExitCell at he
  exact valid_ring hv (by omega) (by omega) (by omega) (by omega) (by omega)

/-- The first cell inside the board is a good state when the look-ahead at the
    entry cell shows no atom. -/
theorem good_first {s a : Int} {g : Grid} {x y d : Int}
    (hv : ValidBoard (getOptions s a) g) (he : EntryState s x y d)
    (hF : ¬ isAtom (getOptions s a) g (x + dirDX d) (y + dirDY d))
    (hL : ¬ isAtom (getOptions s a) g (x + dirDX d + dirDY d) (y + dirDY d - dirDX d))
    (hR : ¬ isAtom (getOptions s a) g (x + dirDX d - dirDY d) (y + dirDY d + dirDX d)) :
    Good s a g (x + dirDX d) (y + dirDY d) d := by
  obtain ⟨hd, hex, i1, i2, i3, i4, hu⟩ := entryState_facts he
  unfold ExitCell at hex
  refine ⟨hd, i1, i2, i3, i4, hF, ?_, ?_, ?_, ?_, ?_⟩
  · exact not_isAtom_of_eq hL (by omega) (by omega)
  · exact not_isAtom_of_eq hR (by omega) (by omega)
  · exact valid_ring_not_atom hv (by omega) (by omega) (by omega) (by omega) (by omega)
  · exact valid_ring_not_atom hv (by omega) (by omega) (by omega) (by omega) (by omega)
  · exact valid_ring_not_atom hv (by omega) (by omega) (by omega) (by omega) (by omega)

/-- The walk from an entry state returns 0 or a non-corner cell of the outer
    ring, for every iteration bound from `4 * s * s + 3` on. -/
theorem walkGrid_entry {s a : Int} {g : Grid} {x y d : Int}
    (hv : ValidBoard (getOptions s a) g) (he : EntryState s x y d)
    (fuel : Nat) (hf : 4 * s.toNat * s.toNat + 3 ≤ fuel) :
    ∃ r, walkGrid (getOptions s a) g fuel (cellFromXY (getOptions s a) x y) d = some r ∧
      (r = 0 ∨ ∃ X Y, ExitCell s X Y ∧ r = cellFromXY (getOptions s a) X Y) := by
  obtain ⟨hd, hex, i1, i2, i3, i4, hu⟩ := entryState_facts he
  have hbe := exitCell_ring hv hex
  obtain ⟨k, rfl⟩ : ∃ k, fuel = k + 1 := ⟨fuel - 1, by omega⟩
  rw [walkGrid_succ, lookAhead_cell _ g x y hd]
  by_cases hF : isAtom (getOptions s a) g (x + dirDX d) (y + dirDY d)
  · exact ⟨0, by rw [if_pos (lookAheadRef_center hF)], Or.inl rfl⟩
  · by_cases hL : isAtom (getOptions s a) g (x + dirDX d + dirDY d) (y + dirDY d - dirDX d)
    · refine ⟨_, ?_, Or.inr ⟨x, y, hex, rfl⟩⟩
      rw [lookAheadRef_left hF hL, if_neg (by decide),
        turnLoop_turn _ _ _ _ _ _ (Or.inl rfl), if_pos hbe]
    · by_cases hR : isAtom (getOptions s a) g (x + dirDX d - dirDY d) (y + dirDY d + dirDX d)
      · refine ⟨_, ?_, Or.inr ⟨x, y, hex, rfl⟩⟩
        rw [lookAheadRef_right hF hL hR, if_neg (by decide),
          turnLoop_turn _ _ _ _ _ _ (Or.inr rfl), if_pos hbe]
      · have hg := good_first hv he hF hL hR
        rw [lookAheadRef_none hF hL hR, if_neg (by decide), turnLoop_none]
        simp only
        rw [goAhead_cell _ x y hd, if_neg (valid_inner_not_border hv i1 i2 i3 i4)]
        have hrun := walk_run hv (x + dirDX d, y + dirDY d, d)
          (by
            intro x' y' d' hg' hn
            obtain ⟨-, eD, eX, eY, -⟩ := nextState_some hn
            have h1 := hg'.x1
            have h2 := hg'.xs
            have h3 := hg'.y1
            have h4 := hg'.ys
            unfold ExitCell at hex
            omega)
          (4 * s.toNat * s.toNat) (x + dirDX d, y + dirDY d, d) []
          (by
            intro t ht
            rw [List.mem_singleton.mp ht]
            exact hg)
          (List.nodup_singleton _)
          (by
            intro t ht
            exact Or.inl (List.mem_singleton.mp ht))
          (by simp only [List.length_singleton]; omega)
        obtain ⟨r, hr, hfin⟩ := hrun
        exact ⟨r, walkGrid_mono _ g _ _ _ _ hr k (by omega), hfin⟩

/-! ## Test boards and entry states -/

theorem boardWith_cell (s a : Int) (atoms : List (Int × Int)) {x y : Int}
    (hx0 : 0 ≤ x) (hx1 : x ≤ s + 1) (hy0 : 0 ≤ y) (hy1 : y ≤ s + 1) :
    boardWith s atoms (cellFromXY (getOptions s a) x y) =
      if x = 0 ∨ x = s + 1 ∨ y = 0 ∨ y = s + 1 then CELL_BORDER
      else if (x, y) ∈ atoms then CELL_ATOM else CELL_EMPTY := by
  have hw : (0 : Int) < s + 2 := by omega
  have h0 : 0 ≤ x + (s + 2) * y := by positivity
  have h1 : x + (s + 2) * y < (s + 2) * (s + 2) := by nlinarith
  have hm : (x + (s + 2) * y) % (s + 2) = x := by
    rw [Int.add_mul_emod_self_left, Int.emod_eq_of_lt hx0 (by omega)]
  have hq : (x + (s + 2) * y) / (s + 2) = y := by
    rw [Int.add_mul_ediv_left _ _ (by omega), Int.ediv_eq_zero_of_lt hx0 (by omega)]
    simp
  unfold boardWith cellFromXY
  simp only [getOptions_iWidth]
  rw [if_pos ⟨h0, h1⟩]
  simp only [hm, hq]

theorem boardWith_valid (s a : Int) (atoms : List (Int × Int)) :
    ValidBoard (getOptions s a) (boardWith s atoms) := by
  intro x y hx0 hx1 hy0 hy1
  simp only [getOptions_iWidth] at hx1 hy1 ⊢
  rw [boardWith_cell s a atoms hx0 (by omega) hy0 (by omega)]
  have e : s + 2 - 1 = s + 1 := by ring
  simp only [e]
  split_ifs <;> simp

theorem boardWith_isAtom (s a : Int) (atoms : List (Int × Int)) {x y : Int}
    (hx0 : 1 ≤ x) (hx1 : x ≤ s) (hy0 : 1 ≤ y) (hy1 : y ≤ s) :
    isAtom (getOptions s a) (boardWith s atoms) x y ↔ (x, y) ∈ atoms := by
  unfold isAtom
  rw [boardWith_cell s a atoms (by omega) (by omega) (by omega) (by omega),
    if_neg (by omega)]
  split_ifs with h <;> simp [h, CELL_ATOM, CELL_EMPTY]

/-- The entry cell and direction of a node number form an entry state. -/
theorem getEntryNode_entryState (s a n dir0 : Int) (hs : 1 ≤ s) (h1 : 1 ≤ n)
    (h2 : n ≤ 4 * s) :
    ∃ x y d, getEntryNode (getOptions s a) n dir0 = (cellFromXY (getOptions s a) x y, d) ∧
      EntryState s x y d := by
  rw [getEntryNode_of_node s a n dir0 hs h1 h2]
  unfold EntryState
  by_cases c1 : n ≤ s
  · exact ⟨0, n, DIR_RIGHT, by rw [if_pos c1], Or.inl ⟨rfl, h1, c1, rfl⟩⟩
  · by_cases c2 : n ≤ 2 * s
    · exact ⟨n - s, s + 1, DIR_UP, by rw [if_neg c1, if_pos c2],
        Or.inr (Or.inl ⟨rfl, by omega, by omega, rfl⟩)⟩
    · by_cases c3 : n ≤ 3 * s
      · exact ⟨s + 1, 3 * s + 1 - n, DIR_LEFT, by rw [if_neg c1, if_neg c2, if_pos c3],
          Or.inr (Or.inr (Or.inl ⟨rfl, by omega, by omega, rfl⟩))⟩
      · exact ⟨4 * s + 1 - n, 0, DIR_DOWN, by rw [if_neg c1, if_neg c2, if_neg c3],
          Or.inr (Or.inr (Or.inr ⟨rfl, by omega, by omega, rfl⟩))⟩

/-! ## C4: beam termination -/

/-- C4: for every size `s ≥ 1`, every valid board and every entry node `n` in
    `1..4*s` with its entry cell and direction, `walkGrid` returns for every
    iteration bound from `4*s*s + 3` on (the bound limits the outer loop and
    each run of the inner turn loop), and what it returns is 0 (absorbed) or a
    non-corner cell of the outer ring, which holds `CELL_BORDER`. -/
theorem walkGrid_terminates (s a n dir0 : Int) (g : Grid) (hs : 1 ≤ s)
    (hv : ValidBoard (getOptions s a) g) (h1 : 1 ≤ n) (h2 : n ≤ 4 * s)
    (fuel : Nat) (hf : 4 * s.toNat * s.toNat + 3 ≤ fuel) :
    ∃ r, walkGrid (getOptions s a) g fuel (getEntryNode (getOptions s a) n dir0).1
          (getEntryNode (getOptions s a) n dir0).2 = some r ∧
      (r = 0 ∨ ∃ X Y, ExitCell s X Y ∧ r = cellFromXY (getOptions s a) X Y ∧
        g r = CELL_BORDER) := by
  obtain ⟨x, y, d, e, he⟩ := getEntryNode_entryState s a n dir0 hs h1 h2
  rw [e]
  obtain ⟨r, hr, hfin⟩ := walkGrid_entry hv he fuel hf
  refine ⟨r, hr, ?_⟩
  rcases hfin with h0 | ⟨X, Y, hX, hr'⟩
  · exact Or.inl h0
  · exact Or.inr ⟨X, Y, hX, hr', by rw [hr']; exact exitCell_ring hv hX⟩

theorem walkGrid_terminates_witness :
    ∃ r, walkGrid (getOptions 4 3) (boardWith 4 [(3, 2), (2, 4), (3, 4)]) 67
          (getEntryNode (getOptions 4 3) 16 DIR_NONE).1
          (getEntryNode (getOptions 4 3) 16 DIR_NONE).2 = some r ∧
      (r = 0 ∨ ∃ X Y, ExitCell 4 X Y ∧ r = cellFromXY (getOptions 4 3) X Y ∧
        boardWith 4 [(3, 2), (2, 4), (3, 4)] r = CELL_BORDER) :=
  walkGrid_terminates 4 3 16 DIR_NONE (boardWith 4 [(3, 2), (2, 4), (3, 4)]) (by decide)
    (boardWith_valid 4 3 _) (by decide) (by decide) 67 (by decide)

/-! ## The walk with its turn log -/

theorem turnLoopLog_stop (o : t_options) (g : Grid) (c : Int) (fuel : Nat) (at0 d : Int)
    (log : List (Int × Int × Int)) (h : ¬ (at0 = ATOM_LEFT ∨ at0 = ATOM_RIGHT)) :
    turnLoopLog o g c fuel at0 d log = some (TurnOut.fin d at0, log) := by
  unfold turnLoopLog
  rw [if_neg h]

theorem turnLoopLog_turn (o : t_options) (g : Grid) (c : Int) (fuel : Nat) (at0 d : Int)
    (log : List (Int × Int × Int)) (h : at0 = ATOM_LEFT ∨ at0 = ATOM_RIGHT) :
    turnLoopLog o g c (fuel + 1) at0 d log =
      if g c = CELL_BORDER then some (TurnOut.ret c, log ++ [(c, d, turnBeam at0 d)])
      else turnLoopLog o g c fuel (lookAhead o g c (turnBeam at0 d)) (turnBeam at0 d)
        (log ++ [(c, d, turnBeam at0 d)]) := by
  rw [turnLoopLog]
  rw [if_pos h]

theorem walkGridLog_succ (o : t_options) (g : Grid) (f : Nat) (c d : Int)
    (log : List (Int × Int × Int)) :
    walkGridLog o g (f + 1) c d log =
      if lookAhead o g c d = ATOM_CENTER then some (0, log)
      else
        match turnLoopLog o g c (f + 1) (lookAhead o g c d) d log with
        | none => none
        | some (TurnOut.ret c', log') => some (c', log')
        | some (TurnOut.fin d' _, log') =>
          if g (goAhead o c d') = CELL_BORDER then some (goAhead o c d', log')
          else walkGridLog o g f (goAhead o c d') d' log' := by
  rw [walkGridLog]

/-- The logging turn loop and the plain one agree on the loop result. -/
theorem turnLoopLog_fst (o : t_options) (g : Grid) (c : Int) :
    ∀ (f : Nat) (at0 d : Int) (log : List (Int × Int × Int)),
      (turnLoopLog o g c f at0 d log).map Prod.fst = turnLoop o g c f at0 d := by
  intro f
  induction f with
  | zero =>
    intro at0 d log
    unfold turnLoopLog turnLoop
    split_ifs <;> rfl
  | succ k ih =>
    intro at0 d log
    by_cases hc : at0 = ATOM_LEFT ∨ at0 = ATOM_RIGHT
    · rw [turnLoopLog_turn o g c k at0 d log hc, turnLoop_turn o g c k at0 d hc]
      by_cases hb : g c = CELL_BORDER
      · rw [if_pos hb, if_pos hb]; rfl
      · rw [if_neg hb, if_neg hb]; exact ih _ _ _
    · rw [turnLoopLog_stop o g c _ at0 d log hc]
      unfold turnLoop
      rw [if_neg hc]; rfl

/-- The logging walk and `walkGrid` return the same cell. -/
theorem walkGridLog_fst (o : t_options) (g : Grid) :
    ∀ (f : Nat) (c d : Int) (log : List (Int × Int × Int)),
      (walkGridLog o g f c d log).map Prod.fst = walkGrid o g f c d := by
  intro f
  induction f with
  | zero =>
    intro c d log
    rw [walkGridLog, walkGrid]; rfl
  | succ k ih =>
    intro c d log
    rw [walkGridLog_succ, walkGrid_succ]
    by_cases hc : lookAhead o g c d = ATOM_CENTER
    · rw [if_pos hc, if_pos hc]; rfl
    · rw [if_neg hc, if_neg hc]
      have ht := turnLoopLog_fst o g c (k + 1) (lookAhead o g c d) d log
      cases hl : turnLoopLog o g c (k + 1) (lookAhead o g c d) d log with
      | none =>
        rw [hl] at ht
        rw [← ht]; rfl
      | some p =>
        obtain ⟨t, log'⟩ := p
        rw [hl] at ht
        rw [← ht]
        cases t with
        | ret c' => rfl
        | fin d' a' =>
          simp only [Option.map_some']
          by_cases hb : g (goAhead o c d') = CELL_BORDER
          · rw [if_pos hb, if_pos hb]; rfl
          · rw [if_neg hb, if_neg hb]; exact ih _ _ _

theorem walkGrid_of_log {o : t_options} {g : Grid} {f : Nat} {c d r : Int}
    {log log' : List (Int × Int × Int)} (h : walkGridLog o g f c d log = some (r, log')) :
    walkGrid o g f c d = some r := by
  rw [← walkGridLog_fst o g f c d log, h]; rfl

theorem cell_congr (o : t_options) {x y u v : Int} (hx : u = x) (hy : v = y) :
    cellFromXY o u v = cellFromXY o x y := by
  subst hx; subst hy; rfl

/-- A pass of the outer loop with an atom directly ahead returns 0. -/
theorem walkGridLog_pass_center (o : t_options) (g : Grid) {x y d : Int} (hd : ValidDir d)
    (hF : isAtom o g (x + dirDX d) (y + dirDY d)) (f : Nat) (log : List (Int × Int × Int)) :
    walkGridLog o g (f + 1) (cellFromXY o x y) d log = some (0, log) := by
  rw [walkGridLog_succ, lookAhead_cell o g x y hd, if_pos (lookAheadRef_center hF)]

/-- A pass of the outer loop with no atom in the three cells ahead advances one
    cell without a turn. -/
theorem walkGridLog_pass_none (o : t_options) (g : Grid) {x y d : Int} (hd : ValidDir d)
    (hF : ¬ isAtom o g (x + dirDX d) (y + dirDY d))
    (hL : ¬ isAtom o g (x + dirDX d + dirDY d) (y + dirDY d - dirDX d))
    (hR : ¬ isAtom o g (x + dirDX d - dirDY d) (y + dirDY d + dirDX d))
    (f : Nat) (log : List (Int × Int × Int)) :
    walkGridLog o g (f + 1) (cellFromXY o x y) d log =
      if g (cellFromXY o (x + dirDX d) (y + dirDY d)) = CELL_BORDER then
        some (cellFromXY o (x + dirDX d) (y + dirDY d), log)
      else walkGridLog o g f (cellFromXY o (x + dirDX d) (y + dirDY d)) d log := by
  rw [walkGridLog_succ, lookAhead_cell o g x y hd, lookAheadRef_none hF hL hR,
    if_neg (by decide), turnLoopLog_stop _ _ _ _ _ _ _ (by decide)]
  simp only
  rw [goAhead_cell o x y hd]

/-- A pass of the outer loop at a cell that holds `CELL_BORDER`, with no atom
    directly ahead and an atom at a front side, makes one turn and returns the
    cell itself. -/
theorem walkGridLog_pass_reflect (o : t_options) (g : Grid) {x y d : Int} (hd : ValidDir d)
    (hb : g (cellFromXY o x y) = CELL_BORDER)
    (hF : ¬ isAtom o g (x + dirDX d) (y + dirDY d))
    (hLR : isAtom o g (x + dirDX d + dirDY d) (y + dirDY d - dirDX d) ∨
      isAtom o g (x + dirDX d - dirDY d) (y + dirDY d + dirDX d))
    (f : Nat) (log : List (Int × Int × Int)) :
    walkGridLog o g (f + 1) (cellFromXY o x y) d log =
      some (cellFromXY o x y,
        log ++ [(cellFromXY o x y, d, turnBeam (lookAheadRef o g x y d) d)]) := by
  have hlr : lookAheadRef o g x y d = ATOM_LEFT ∨ lookAheadRef o g x y d = ATOM_RIGHT := by
    by_cases hL : isAtom o g (x + dirDX d + dirDY d) (y + dirDY d - dirDX d)
    · exact Or.inl (lookAheadRef_left hF hL)
    · rcases hLR with h | h
      · exact absurd h hL
      · exact Or.inr (lookAheadRef_right hF hL h)
  rw [walkGridLog_succ, lookAhead_cell o g x y hd, if_neg (lookAheadRef_ne_center hF),
    turnLoopLog_turn _ _ _ _ _ _ _ hlr, if_pos hb]

/-- A pass of the outer loop at a cell that does not hold `CELL_BORDER`, where
    the look-ahead shows a front-side atom and, after the turn, no atom: exactly
    one turn, then one cell ahead in the new direction. -/
theorem walkGridLog_pass_turn (o : t_options) (g : Grid) {x y d : Int} (hd : ValidDir d)
    (hb : g (cellFromXY o x y) ≠ CELL_BORDER)
    (hlr : lookAheadRef o g x y d = ATOM_LEFT ∨ lookAheadRef o g x y d = ATOM_RIGHT)
    (hd1 : ValidDir (turnBeam (lookAheadRef o g x y d) d))
    (hn : lookAheadRef o g x y (turnBeam (lookAheadRef o g x y d) d) = ATOM_NONE)
    (f : Nat) (log : List (Int × Int × Int)) :
    walkGridLog o g (f + 1) (cellFromXY o x y) d log =
      if g (cellFromXY o (x + dirDX (turnBeam (lookAheadRef o g x y d) d))
          (y + dirDY (turnBeam (lookAheadRef o g x y d) d))) = CELL_BORDER then
        some (cellFromXY o (x + dirDX (turnBeam (lookAheadRef o g x y d) d))
            (y + dirDY (turnBeam (lookAheadRef o g x y d) d)),
          log ++ [(cellFromXY o x y, d, turnBeam (lookAheadRef o g x y d) d)])
      else walkGridLog o g f
        (cellFromXY o (x + dirDX (turnBeam (lookAheadRef o g x y d) d))
          (y + dirDY (turnBeam (lookAheadRef o g x y d) d)))
        (turnBeam (lookAheadRef o g x y d) d)
        (log ++ [(cellFromXY o x y, d, turnBeam (lookAheadRef o g x y d) d)]) := by
  have hne : lookAheadRef o g x y d ≠ ATOM_CENTER := by
    rcases hlr with h | h <;> rw [h] <;> decide
  rw [walkGridLog_succ, lookAhead_cell o g x y hd, if_neg hne,
    turnLoopLog_turn _ _ _ _ _ _ _ hlr, if_neg hb, lookAhead_cell o g x y hd1, hn,
    turnLoopLog_stop _ _ _ _ _ _ _ (by decide)]
  simp only
  rw [goAhead_cell o x y hd1]

/-- Along a corridor of `k` cells that are not border cells, with no atom in
    the corridor or beside it, the beam advances `k` cells without a turn. -/
theorem walkGridLog_straight (o : t_options) (g : Grid) {d : Int} (hd : ValidDir d) :
    ∀ (k : Nat) (x y : Int) (f : Nat) (log : List (Int × Int × Int)),
      (∀ j : Int, 1 ≤ j → j ≤ k →
        ¬ isAtom o g (x + j * dirDX d) (y + j * dirDY d) ∧
        ¬ isAtom o g (x + j * dirDX d + dirDY d) (y + j * dirDY d - dirDX d) ∧
        ¬ isAtom o g (x + j * dirDX d - dirDY d) (y + j * dirDY d + dirDX d) ∧
        g (cellFromXY o (x + j * dirDX d) (y + j * dirDY d)) ≠ CELL_BORDER) →
      walkGridLog o g (f + k) (cellFromXY o x y) d log =
        walkGridLog o g f (cellFromXY o (x + k * dirDX d) (y + k * dirDY d)) d log := by
  intro k
  induction k with
  | zero =>
    intro x y f log _
    have e : cellFromXY o (x + ((0 : Nat) : Int) * dirDX d) (y + ((0 : Nat) : Int) * dirDY d) =
        cellFromXY o x y := cell_congr o (by simp) (by simp)
    rw [e]
    rfl
  | succ k ih =>
    intro x y f log h
    obtain ⟨a1, a2, a3, a4⟩ := h 1 (by omega) (by push_cast; omega)
    have e : f + (k + 1) = (f + k) + 1 := by omega
    rw [e, walkGridLog_pass_none o g hd (not_isAtom_of_eq a1 (by ring) (by ring))
      (not_isAtom_of_eq a2 (by ring) (by ring)) (not_isAtom_of_eq a3 (by ring) (by ring)),
      if_neg (by rw [cell_congr o (x := x + 1 * dirDX d) (y := y + 1 * dirDY d) (by ring)
        (by ring)]; exact a4)]
    rw [ih (x + dirDX d) (y + dirDY d) f log (by
      intro j hj1 hjk
      obtain ⟨b1, b2, b3, b4⟩ := h (j + 1) (by omega) (by push_cast; omega)
      refine ⟨not_isAtom_of_eq b1 (by ring) (by ring), not_isAtom_of_eq b2 (by ring) (by ring),
        not_isAtom_of_eq b3 (by ring) (by ring), ?_⟩
      rw [cell_congr o (x := x + (j + 1) * dirDX d) (y := y + (j + 1) * dirDY d) (by ring)
        (by ring)]
      exact b4)]
    rw [cell_congr o (x := x + ((k + 1 : Nat) : Int) * dirDX d)
      (y := y + ((k + 1 : Nat) : Int) * dirDY d) (by push_cast; ring) (by push_cast; ring)]

/-! ## C5: the empty board -/

theorem cellFromXY_ne {s a : Int} {x y u v : Int} (hx0 : 0 ≤ x) (hx1 : x ≤ s + 1) (hy0 : 0 ≤ y)
    (hu0 : 0 ≤ u) (hu1 : u ≤ s + 1) (hv0 : 0 ≤ v) (hne : x ≠ u ∨ y ≠ v) :
    cellFromXY (getOptions s a) x y ≠ cellFromXY (getOptions s a) u v := by
  intro heq
  have h := congrArg (cellToXY (getOptions s a)) heq
  rw [cellToXY_cellFromXY _ x y hx0 (by simp; omega) hy0,
    cellToXY_cellFromXY _ u v hu0 (by simp; omega) hv0] at h
  simp only [Prod.mk.injEq] at h
  omega

theorem no_atom_in_grid {s a : Int} {g : Grid} (hv : ValidBoard (getOptions s a) g)
    (hempty : ∀ x y : Int, 1 ≤ x → x ≤ s → 1 ≤ y → y ≤ s → ¬ isAtom (getOptions s a) g x y)
    {x y : Int} (hx0 : 0 ≤ x) (hx1 : x ≤ s + 1) (hy0 : 0 ≤ y) (hy1 : y ≤ s + 1) :
    ¬ isAtom (getOptions s a) g x y := by
  by_cases hi : 1 ≤ x ∧ x ≤ s ∧ 1 ≤ y ∧ y ≤ s
  · exact hempty x y hi.1 hi.2.1 hi.2.2.1 hi.2.2.2
  · exact valid_ring_not_atom hv hx0 hx1 hy0 hy1 (by omega)

/-- On a board without atoms the beam crosses the board from an entry state in
    a straight line, without a turn, and returns the cell on the far edge. -/
theorem walkGridLog_empty {s a : Int} {g : Grid} {x y d : Int}
    (hv : ValidBoard (getOptions s a) g)
    (hempty : ∀ x y : Int, 1 ≤ x → x ≤ s → 1 ≤ y → y ≤ s → ¬ isAtom (getOptions s a) g x y)
    (he : EntryState s x y d) (f : Nat) (log : List (Int × Int × Int)) :
    walkGridLog (getOptions s a) g (f + 1 + s.toNat) (cellFromXY (getOptions s a) x y) d log =
      some (cellFromXY (getOptions s a) (x + (s + 1) * dirDX d) (y + (s + 1) * dirDY d), log) := by
  obtain ⟨hd, hex, i1, i2, i3, i4, hu⟩ := entryState_facts he
  have hcast : ((s.toNat : Nat) : Int) = s := Int.toNat_of_nonneg (by omega)
  unfold ExitCell at hex
  have hcor : ∀ j : Int, 1 ≤ j → j ≤ s.toNat →
      ¬ isAtom (getOptions s a) g (x + j * dirDX d) (y + j * dirDY d) ∧
      ¬ isAtom (getOptions s a) g (x + j * dirDX d + dirDY d) (y + j * dirDY d - dirDX d) ∧
      ¬ isAtom (getOptions s a) g (x + j * dirDX d - dirDY d) (y + j * dirDY d + dirDX d) ∧
      g (cellFromXY (getOptions s a) (x + j * dirDX d) (y + j * dirDY d)) ≠ CELL_BORDER := by
    intro j hj1 hjs
    refine ⟨no_atom_in_grid hv hempty ?_ ?_ ?_ ?_, no_atom_in_grid hv hempty ?_ ?_ ?_ ?_,
      no_atom_in_grid hv hempty ?_ ?_ ?_ ?_, valid_inner_not_border hv ?_ ?_ ?_ ?_⟩ <;>
    rcases hu with ⟨hx, hy | hy⟩ | ⟨hy, hx | hx⟩ <;> simp only [hx, hy] at i1 i2 i3 i4 ⊢ <;> omega
  rw [walkGridLog_straight _ g hd s.toNat x y (f + 1) log hcor, hcast]
  have hlast : g (cellFromXY (getOptions s a) (x + s * dirDX d + dirDX d)
      (y + s * dirDY d + dirDY d)) = CELL_BORDER := by
    refine valid_ring hv ?_ ?_ ?_ ?_ ?_ <;>
    rcases hu with ⟨hx, hy | hy⟩ | ⟨hy, hx | hx⟩ <;> simp only [hx, hy] at i1 i2 i3 i4 ⊢ <;> omega
  rw [walkGridLog_pass_none _ g hd (no_atom_in_grid hv hempty ?_ ?_ ?_ ?_)
    (no_atom_in_grid hv hempty ?_ ?_ ?_ ?_) (no_atom_in_grid hv hempty ?_ ?_ ?_ ?_),
    if_pos hlast, cell_congr _ (x := x + (s + 1) * dirDX d) (y := y + (s + 1) * dirDY d)
      (by ring) (by ring)]
  all_goals
    rcases hu with ⟨hx, hy | hy⟩ | ⟨hy, hx | hx⟩ <;> simp only [hx, hy] at i1 i2 i3 i4 ⊢ <;> omega

/-- On a board without atoms the walk from an entry state returns the cell on
    the far edge; that cell is not 0, not the entry cell, and a border cell. -/
theorem walkGrid_empty_entry {s a : Int} {g : Grid} {x y d : Int}
    (hv : ValidBoard (getOptions s a) g)
    (hempty : ∀ x y : Int, 1 ≤ x → x ≤ s → 1 ≤ y → y ≤ s → ¬ isAtom (getOptions s a) g x y)
    (he : EntryState s x y d) (fuel : Nat) (hf : s.toNat + 1 ≤ fuel) (X Y : Int)
    (hX : X = x + (s + 1) * dirDX d) (hY : Y = y + (s + 1) * dirDY d) :
    walkGrid (getOptions s a) g fuel (cellFromXY (getOptions s a) x y) d =
      some (cellFromXY (getOptions s a) X Y) ∧
    cellFromXY (getOptions s a) X Y ≠ 0 ∧
    cellFromXY (getOptions s a) X Y ≠ cellFromXY (getOptions s a) x y ∧
    g (cellFromXY (getOptions s a) X Y) = CELL_BORDER := by
  obtain ⟨hd, hex, i1, i2, i3, i4, hu⟩ := entryState_facts he
  unfold ExitCell at hex
  have hlog := walkGridLog_empty hv hempty he (fuel - (s.toNat + 1)) []
  have ef : fuel - (s.toNat + 1) + 1 + s.toNat = fuel := by omega
  rw [ef, ← hX, ← hY] at hlog
  have h00 : cellFromXY (getOptions s a) 0 0 = 0 := by simp [cellFromXY]
  have hb : 0 ≤ X ∧ X ≤ s + 1 ∧ 0 ≤ Y ∧ Y ≤ s + 1 ∧ (X ≠ 0 ∨ Y ≠ 0) ∧ (X ≠ x ∨ Y ≠ y) ∧
      (X = 0 ∨ X = s + 1 ∨ Y = 0 ∨ Y = s + 1) := by
    rcases hu with ⟨hx, hy | hy⟩ | ⟨hy, hx | hx⟩ <;>
      simp only [hx, hy] at i1 i2 i3 i4 hX hY <;> omega
  refine ⟨walkGrid_of_log hlog, ?_, ?_, ?_⟩
  · rw [← h00]
    exact cellFromXY_ne hb.1 hb.2.1 hb.2.2.1 (by omega) (by omega) (by omega) hb.2.2.2.2.1
  · exact cellFromXY_ne hb.1 hb.2.1 hb.2.2.1 (by omega) (by omega) (by omega) hb.2.2.2.2.2.1
  · exact valid_ring hv hb.1 hb.2.1 hb.2.2.1 hb.2.2.2.1 hb.2.2.2.2.2.2

/-- C5: for every size `s ≥ 1`, on a valid board without atoms, for every entry
    node `n` in `1..4*s` and every iteration bound from `s + 1` on, `walkGrid`
    returns a border cell that is neither 0 nor the entry cell, whose exit node
    is `3*s+1-n` for `n` on the left or right edge and `5*s+1-n` for `n` on
    the bottom or top edge, so the trial is classified as exited at that
    node. -/
theorem empty_board_straight_through (s a n dir0 : Int) (g : Grid) (hs : 1 ≤ s)
    (hv : ValidBoard (getOptions s a) g)
    (hempty : ∀ x y : Int, 1 ≤ x → x ≤ s → 1 ≤ y → y ≤ s → ¬ isAtom (getOptions s a) g x y)
    (h1 : 1 ≤ n) (h2 : n ≤ 4 * s) (fuel : Nat) (hf : s.toNat + 1 ≤ fuel) :
    ∃ r, walkGrid (getOptions s a) g fuel (getEntryNode (getOptions s a) n dir0).1
          (getEntryNode (getOptions s a) n dir0).2 = some r ∧
      r ≠ 0 ∧ r ≠ (getEntryNode (getOptions s a) n dir0).1 ∧ g r = CELL_BORDER ∧
      getExitNode (getOptions s a) r =
        (if n ≤ s ∨ (2 * s + 1 ≤ n ∧ n ≤ 3 * s) then 3 * s + 1 - n else 5 * s + 1 - n) ∧
      classify (getOptions s a) (getEntryNode (getOptions s a) n dir0).1 r =
        Outcome.exited
          (if n ≤ s ∨ (2 * s + 1 ≤ n ∧ n ≤ 3 * s) then 3 * s + 1 - n else 5 * s + 1 - n) := by
  have hcls : ∀ c r : Int, r ≠ 0 → r ≠ c →
      classify (getOptions s a) c r = Outcome.exited (getExitNode (getOptions s a) r) := by
    intro c r hr0 hrc
    unfold classify
    rw [if_neg hrc, if_neg hr0]
  rw [getEntryNode_of_node s a n dir0 hs h1 h2]
  by_cases c1 : n ≤ s
  · rw [if_pos c1]
    have he : EntryState s 0 n DIR_RIGHT := Or.inl ⟨rfl, h1, c1, rfl⟩
    obtain ⟨w1, w2, w3, w4⟩ := walkGrid_empty_entry hv hempty he fuel hf (s + 1) n
      (by rw [show dirDX DIR_RIGHT = 1 by decide]; ring)
      (by rw [show dirDY DIR_RIGHT = 0 by decide]; ring)
    have hn : getExitNode (getOptions s a) (cellFromXY (getOptions s a) (s + 1) n) =
        (if n ≤ s ∨ (2 * s + 1 ≤ n ∧ n ≤ 3 * s) then 3 * s + 1 - n else 5 * s + 1 - n) := by
      rw [getExitNode_cellFromXY _ (s + 1) n (by omega) (by simp) (by omega)]
      simp only [getOptions_iSize, getOptions_iWidth]
      split_ifs <;> omega
    exact ⟨_, w1, w2, w3, w4, hn, by rw [hcls _ _ w2 w3, hn]⟩
  · by_cases c2 : n ≤ 2 * s
    · rw [if_neg c1, if_pos c2]
      have he : EntryState s (n - s) (s + 1) DIR_UP :=
        Or.inr (Or.inl ⟨rfl, by omega, by omega, rfl⟩)
      obtain ⟨w1, w2, w3, w4⟩ := walkGrid_empty_entry hv hempty he fuel hf (n - s) 0
        (by rw [show dirDX DIR_UP = 0 by decide]; ring)
        (by rw [show dirDY DIR_UP = -1 by decide]; ring)
      have hn : getExitNode (getOptions s a) (cellFromXY (getOptions s a) (n - s) 0) =
          (if n ≤ s ∨ (2 * s + 1 ≤ n ∧ n ≤ 3 * s) then 3 * s + 1 - n else 5 * s + 1 - n) := by
        rw [getExitNode_cellFromXY _ (n - s) 0 (by omega) (by simp; omega) (by omega)]
        simp only [getOptions_iSize, getOptions_iWidth]
        split_ifs <;> omega
      exact ⟨_, w1, w2, w3, w4, hn, by rw [hcls _ _ w2 w3, hn]⟩
    · by_cases c3 : n ≤ 3 * s
      · rw [if_neg c1, if_neg c2, if_pos c3]
        have he : EntryState s (s + 1) (3 * s + 1 - n) DIR_LEFT :=
          Or.inr (Or.inr (Or.inl ⟨rfl, by omega, by omega, rfl⟩))
        obtain ⟨w1, w2, w3, w4⟩ := walkGrid_empty_entry hv hempty he fuel hf 0 (3 * s + 1 - n)
          (by rw [show dirDX DIR_LEFT = -1 by decide]; ring)
          (by rw [show dirDY DIR_LEFT = 0 by decide]; ring)
        have hn : getExitNode (getOptions s a) (cellFromXY (getOptions s a) 0 (3 * s + 1 - n)) =
            (if n ≤ s ∨ (2 * s + 1 ≤ n ∧ n ≤ 3 * s) then 3 * s + 1 - n else 5 * s + 1 - n) := by
          rw [getExitNode_cellFromXY _ 0 (3 * s + 1 - n) (by omega) (by simp; omega) (by omega)]
          simp only [getOptions_iSize, getOptions_iWidth]
          split_ifs <;> omega
        exact ⟨_, w1, w2, w3, w4, hn, by rw [hcls _ _ w2 w3, hn]⟩
      · rw [if_neg c1, if_neg c2, if_neg c3]
        have he : EntryState s (4 * s + 1 - n) 0 DIR_DOWN :=
          Or.inr (Or.inr (Or.inr ⟨rfl, by omega, by omega, rfl⟩))
        obtain ⟨w1, w2, w3, w4⟩ := walkGrid_empty_entry hv hempty he fuel hf (4 * s + 1 - n)
          (s + 1)
          (by rw [show dirDX DIR_DOWN = 0 by decide]; ring)
          (by rw [show dirDY DIR_DOWN = 1 by decide]; ring)
        have hn : getExitNode (getOptions s a)
            (cellFromXY (getOptions s a) (4 * s + 1 - n) (s + 1)) =
            (if n ≤ s ∨ (2 * s + 1 ≤ n ∧ n ≤ 3 * s) then 3 * s + 1 - n else 5 * s + 1 - n) := by
          rw [getExitNode_cellFromXY _ (4 * s + 1 - n) (s + 1) (by omega) (by simp; omega)
            (by omega)]
          simp only [getOptions_iSize, getOptions_iWidth]
          split_ifs <;> omega
        exact ⟨_, w1, w2, w3, w4, hn, by rw [hcls _ _ w2 w3, hn]⟩

theorem empty_board_straight_through_witness :
    ∃ r, walkGrid (getOptions 4 0) (boardWith 4 []) 5 (getEntryNode (getOptions 4 0) 6 DIR_NONE).1
          (getEntryNode (getOptions 4 0) 6 DIR_NONE).2 = some r ∧
      r ≠ 0 ∧ r ≠ (getEntryNode (getOptions 4 0) 6 DIR_NONE).1 ∧
      boardWith 4 [] r = CELL_BORDER ∧
      getExitNode (getOptions 4 0) r =
        (if (6 : Int) ≤ 4 ∨ (2 * 4 + 1 ≤ (6 : Int) ∧ (6 : Int) ≤ 3 * 4) then 3 * 4 + 1 - 6
          else 5 * 4 + 1 - 6) ∧
      classify (getOptions 4 0) (getEntryNode (getOptions 4 0) 6 DIR_NONE).1 r =
        Outcome.exited
          (if (6 : Int) ≤ 4 ∨ (2 * 4 + 1 ≤ (6 : Int) ∧ (6 : Int) ≤ 3 * 4) then 3 * 4 + 1 - 6
            else 5 * 4 + 1 - 6) :=
  empty_board_straight_through 4 0 6 DIR_NONE (boardWith 4 []) (by decide)
    (boardWith_valid 4 0 [])
    (fun x y hx0 hx1 hy0 hy1 h => by
      have := (boardWith_isAtom 4 0 [] hx0 hx1 hy0 hy1).mp h
      simp at this)
    (by decide) (by decide) 5 (by decide)

/-! ## C6: head-on absorption -/

/-- C6: on a valid board of any size `s`, for a row `r` and a column `k` in
    `1..s` such that cell `(k, r)` holds an atom and no cell `(x, r-1)`,
    `(x, r)`, `(x, r+1)` with `1 ≤ x < k` does, the beam entered at the
    left-edge node `r` (cell `(0, r)`, direction Right) is absorbed: `walkGrid`
    returns 0 for every iteration bound from `k` on, whatever the cells
    `(k, r-1)` and `(k, r+1)` hold, and the trial is classified as absorbed. -/
theorem head_on_absorbed (s a r k dir0 : Int) (g : Grid)
    (hv : ValidBoard (getOptions s a) g)
    (hr1 : 1 ≤ r) (hrs : r ≤ s) (hk1 : 1 ≤ k) (hks : k ≤ s)
    (hatom : isAtom (getOptions s a) g k r)
    (hfree : ∀ x : Int, 1 ≤ x → x < k →
      ¬ isAtom (getOptions s a) g x (r - 1) ∧ ¬ isAtom (getOptions s a) g x r ∧
      ¬ isAtom (getOptions s a) g x (r + 1))
    (fuel : Nat) (hf : k.toNat ≤ fuel) :
    getEntryNode (getOptions s a) r dir0 = (cellFromXY (getOptions s a) 0 r, DIR_RIGHT) ∧
    walkGrid (getOptions s a) g fuel (getEntryNode (getOptions s a) r dir0).1
      (getEntryNode (getOptions s a) r dir0).2 = some 0 ∧
    classify (getOptions s a) (getEntryNode (getOptions s a) r dir0).1 0 = Outcome.absorbed := by
  have he : getEntryNode (getOptions s a) r dir0 =
      (cellFromXY (getOptions s a) 0 r, DIR_RIGHT) := by
    rw [getEntryNode_of_node s a r dir0 (by omega) hr1 (by omega), if_pos hrs]
  have hd : ValidDir DIR_RIGHT := by decide
  have ex : dirDX DIR_RIGHT = 1 := by decide
  have ey : dirDY DIR_RIGHT = 0 := by decide
  have hcast : (((k - 1).toNat : Nat) : Int) = k - 1 := Int.toNat_of_nonneg (by omega)
  have hcor : ∀ j : Int, 1 ≤ j → j ≤ (k - 1).toNat →
      ¬ isAtom (getOptions s a) g (0 + j * dirDX DIR_RIGHT) (r + j * dirDY DIR_RIGHT) ∧
      ¬ isAtom (getOptions s a) g (0 + j * dirDX DIR_RIGHT + dirDY DIR_RIGHT)
        (r + j * dirDY DIR_RIGHT - dirDX DIR_RIGHT) ∧
      ¬ isAtom (getOptions s a) g (0 + j * dirDX DIR_RIGHT - dirDY DIR_RIGHT)
        (r + j * dirDY DIR_RIGHT + dirDX DIR_RIGHT) ∧
      g (cellFromXY (getOptions s a) (0 + j * dirDX DIR_RIGHT) (r + j * dirDY DIR_RIGHT)) ≠
        CELL_BORDER := by
    intro j hj1 hjk
    obtain ⟨f1, f2, f3⟩ := hfree j hj1 (by omega)
    rw [ex, ey]
    refine ⟨not_isAtom_of_eq f2 (by omega) (by omega), not_isAtom_of_eq f1 (by omega) (by omega),
      not_isAtom_of_eq f3 (by omega) (by omega), ?_⟩
    exact valid_inner_not_border hv (by omega) (by omega) (by omega) (by omega)
  have hlog : walkGridLog (getOptions s a) g fuel (cellFromXY (getOptions s a) 0 r) DIR_RIGHT [] =
      some (0, []) := by
    have ef : fuel = (fuel - k.toNat) + 1 + (k - 1).toNat := by omega
    rw [ef, walkGridLog_straight _ g hd (k - 1).toNat 0 r _ [] hcor, hcast]
    exact walkGridLog_pass_center _ g hd (isAtom_of_eq hatom (by rw [ex]; omega)
      (by rw [ey]; omega)) _ []
  refine ⟨he, ?_, ?_⟩
  · rw [he]
    exact walkGrid_of_log hlog
  · rw [he]
    have h00 : cellFromXY (getOptions s a) 0 0 = 0 := by simp [cellFromXY]
    have hne : (0 : Int) ≠ cellFromXY (getOptions s a) 0 r := by
      rw [← h00]
      exact cellFromXY_ne (by omega) (by omega) (by omega) (by omega) (by omega) (by omega)
        (by omega)
    unfold classify
    rw [if_neg hne, if_pos rfl]

/-- The scenario of the specification: size 4, atoms at `(2,2)` and `(3,4)`,
    entry node 2 is absorbed. -/
theorem head_on_absorbed_witness :
    walkGrid (getOptions 4 2) (boardWith 4 [(2, 2), (3, 4)]) 2
      (getEntryNode (getOptions 4 2) 2 DIR_NONE).1
      (getEntryNode (getOptions 4 2) 2 DIR_NONE).2 = some 0 :=
  (head_on_absorbed 4 2 2 2 DIR_NONE (boardWith 4 [(2, 2), (3, 4)]) (boardWith_valid 4 2 _)
    (by decide) (by decide) (by decide) (by decide)
    ((boardWith_isAtom 4 2 _ (by decide) (by decide) (by decide) (by decide)).mpr (by decide))
    (fun x hx1 hx2 => by
      have hx : x = 1 := by omega
      subst hx
      refine ⟨?_, ?_, ?_⟩
      · rw [boardWith_isAtom 4 2 _ (by decide) (by decide) (by decide) (by decide)]; decide
      · rw [boardWith_isAtom 4 2 _ (by decide) (by decide) (by decide) (by decide)]; decide
      · rw [boardWith_isAtom 4 2 _ (by decide) (by decide) (by decide) (by decide)]; decide)
    2 (by decide)).2.1

/-! ## C7: reflection at the entry edge -/

/-- C7: on a valid board of size `s ≥ 1`, for an entry node `n` in `1..4*s`
    with entry cell `c = (x, y)` and direction `d`: when the cell directly
    ahead holds no atom and the front-left or the front-right cell (or both)
    holds one, `walkGrid` returns `c` itself, already with the iteration bound
    1, that is in the first pass of the outer loop, from inside the turn loop
    and so before any `goAhead`; the beam makes exactly one turn, at `c`; and
    the trial is classified as reflected. -/
theorem reflected_at_entry (s a n dir0 c d x y : Int) (g : Grid) (hs : 1 ≤ s)
    (hv : ValidBoard (getOptions s a) g) (h1 : 1 ≤ n) (h2 : n ≤ 4 * s)
    (hc : getEntryNode (getOptions s a) n dir0 = (c, d))
    (hxy : cellToXY (getOptions s a) c = (x, y))
    (hF : ¬ isAtom (getOptions s a) g (x + dirDX d) (y + dirDY d))
    (hLR : isAtom (getOptions s a) g (x + dirDX d + dirDY d) (y + dirDY d - dirDX d) ∨
      isAtom (getOptions s a) g (x + dirDX d - dirDY d) (y + dirDY d + dirDX d))
    (fuel : Nat) (hf : 1 ≤ fuel) :
    walkGrid (getOptions s a) g fuel c d = some c ∧
    walkGridLog (getOptions s a) g fuel c d [] =
      some (c, [(c, d, turnBeam (lookAhead (getOptions s a) g c d) d)]) ∧
    classify (getOptions s a) c c = Outcome.reflected := by
  obtain ⟨x', y', d', e, he⟩ := getEntryNode_entryState s a n dir0 hs h1 h2
  rw [hc] at e
  simp only [Prod.mk.injEq] at e
  obtain ⟨e1, e2⟩ := e
  subst e2
  obtain ⟨hd, hex, -, -, -, -, -⟩ := entryState_facts he
  have hin := hex
  unfold ExitCell at hin
  rw [e1, cellToXY_cellFromXY _ x' y' (by omega) (by simp; omega) (by omega)] at hxy
  simp only [Prod.mk.injEq] at hxy
  obtain ⟨e3, e4⟩ := hxy
  subst e3
  subst e4
  obtain ⟨k, rfl⟩ : ∃ k, fuel = k + 1 := ⟨fuel - 1, by omega⟩
  have hlog := walkGridLog_pass_reflect _ g hd (exitCell_ring hv hex) hF hLR k []
  rw [← lookAhead_cell _ g x' y' hd, ← e1] at hlog
  exact ⟨walkGrid_of_log hlog, hlog, by unfold classify; rw [if_pos rfl]⟩

theorem reflected_at_entry_witness :
    walkGrid (getOptions 4 3) (boardWith 4 [(3, 2), (2, 4), (3, 4)]) 1 31 DIR_UP = some 31 :=
  (reflected_at_entry 4 3 5 DIR_NONE 31 DIR_UP 1 5 (boardWith 4 [(3, 2), (2, 4), (3, 4)])
    (by decide) (boardWith_valid 4 3 _) (by decide) (by decide) (by decide) (by decide)
    (by decide) (by decide) 1 (by decide)).1

/-! ## C8: a single deflection -/

/-- C8: for every size `s ≥ 2`, on a valid board whose only atom is at
    `(ax, ay)` with `2 ≤ ax, ay ≤ s`, the beam entered at the left-edge node
    `ay-1` (cell `(0, ay-1)`, direction Right) makes exactly one turn, at cell
    `(ax-1, ay-1)` from Right to Up, and `walkGrid` returns the top-edge cell
    `(ax-1, 0)`, whose exit node is `4*s+2-ax` and not the straight-through
    node `3*s+2-ay`; this holds for every iteration bound from `ax+ay-2` on. -/
theorem single_deflection (s a ax ay dir0 : Int) (g : Grid) (hs : 2 ≤ s)
    (hv : ValidBoard (getOptions s a) g)
    (hax2 : 2 ≤ ax) (haxs : ax ≤ s) (hay2 : 2 ≤ ay) (hays : ay ≤ s)
    (honly : ∀ x y : Int, 1 ≤ x → x ≤ s → 1 ≤ y → y ≤ s →
      (isAtom (getOptions s a) g x y ↔ (x = ax ∧ y = ay)))
    (fuel : Nat) (hf : (ax + ay - 2).toNat ≤ fuel) :
    getEntryNode (getOptions s a) (ay - 1) dir0 =
      (cellFromXY (getOptions s a) 0 (ay - 1), DIR_RIGHT) ∧
    walkGridLog (getOptions s a) g fuel (cellFromXY (getOptions s a) 0 (ay - 1)) DIR_RIGHT [] =
      some (cellFromXY (getOptions s a) (ax - 1) 0,
        [(cellFromXY (getOptions s a) (ax - 1) (ay - 1), DIR_RIGHT, DIR_UP)]) ∧
    walkGrid (getOptions s a) g fuel (getEntryNode (getOptions s a) (ay - 1) dir0).1
      (getEntryNode (getOptions s a) (ay - 1) dir0).2 =
      some (cellFromXY (getOptions s a) (ax - 1) 0) ∧
    getExitNode (getOptions s a) (cellFromXY (getOptions s a) (ax - 1) 0) = 4 * s + 2 - ax ∧
    4 * s + 2 - ax ≠ 3 * s + 2 - ay ∧
    classify (getOptions s a) (getEntryNode (getOptions s a) (ay - 1) dir0).1
      (cellFromXY (getOptions s a) (ax - 1) 0) = Outcome.exited (4 * s + 2 - ax) := by
  have he : getEntryNode (getOptions s a) (ay - 1) dir0 =
      (cellFromXY (getOptions s a) 0 (ay - 1), DIR_RIGHT) := by
    rw [getEntryNode_of_node s a (ay - 1) dir0 (by omega) (by omega) (by omega),
      if_pos (by omega)]
  have hdr : ValidDir DIR_RIGHT := by decide
  have hdu : ValidDir DIR_UP := by decide
  have ex : dirDX DIR_RIGHT = 1 := by decide
  have ey : dirDY DIR_RIGHT = 0 := by decide
  have ux : dirDX DIR_UP = 0 := by decide
  have uy : dirDY DIR_UP = -1 := by decide
  have ht : turnBeam ATOM_RIGHT DIR_RIGHT = DIR_UP := by decide
  have hno : ∀ X Y : Int, 0 ≤ X → X ≤ s + 1 → 0 ≤ Y → Y ≤ s + 1 → (X ≠ ax ∨ Y ≠ ay) →
      ¬ isAtom (getOptions s a) g X Y := by
    intro X Y hX0 hX1 hY0 hY1 hne
    by_cases hi : 1 ≤ X ∧ X ≤ s ∧ 1 ≤ Y ∧ Y ≤ s
    · rw [honly X Y hi.1 hi.2.1 hi.2.2.1 hi.2.2.2]
      omega
    · exact valid_ring_not_atom hv hX0 hX1 hY0 hY1 (by omega)
  have hat : isAtom (getOptions s a) g ax ay :=
    (honly ax ay (by omega) haxs (by omega) hays).mpr ⟨rfl, rfl⟩
  have c1 : (((ax - 1).toNat : Nat) : Int) = ax - 1 := Int.toNat_of_nonneg (by omega)
  have c2 : (((ay - 3).toNat : Nat) : Int) = ay - 3 ∨ ay = 2 := by
    by_cases h : ay = 2
    · exact Or.inr h
    · exact Or.inl (Int.toNat_of_nonneg (by omega))
  -- the row `ay-1` up to the cell before the atom's column
  have hcor : ∀ j : Int, 1 ≤ j → j ≤ (ax - 1).toNat →
      ¬ isAtom (getOptions s a) g (0 + j * dirDX DIR_RIGHT) (ay - 1 + j * dirDY DIR_RIGHT) ∧
      ¬ isAtom (getOptions s a) g (0 + j * dirDX DIR_RIGHT + dirDY DIR_RIGHT)
        (ay - 1 + j * dirDY DIR_RIGHT - dirDX DIR_RIGHT) ∧
      ¬ isAtom (getOptions s a) g (0 + j * dirDX DIR_RIGHT - dirDY DIR_RIGHT)
        (ay - 1 + j * dirDY DIR_RIGHT + dirDX DIR_RIGHT) ∧
      g (cellFromXY (getOptions s a) (0 + j * dirDX DIR_RIGHT)
        (ay - 1 + j * dirDY DIR_RIGHT)) ≠ CELL_BORDER := by
    intro j hj1 hjk
    rw [ex, ey]
    exact ⟨hno _ _ (by omega) (by omega) (by omega) (by omega) (by omega),
      hno _ _ (by omega) (by omega) (by omega) (by omega) (by omega),
      hno _ _ (by omega) (by omega) (by omega) (by omega) (by omega),
      valid_inner_not_border hv (by omega) (by omega) (by omega) (by omega)⟩
  -- the look-ahead at the turning cell, before and after the turn
  have hl : lookAheadRef (getOptions s a) g (ax - 1) (ay - 1) DIR_RIGHT = ATOM_RIGHT := by
    apply lookAheadRef_right
    · rw [ex, ey]; exact hno _ _ (by omega) (by omega) (by omega) (by omega) (by omega)
    · rw [ex, ey]; exact hno _ _ (by omega) (by omega) (by omega) (by omega) (by omega)
    · rw [ex, ey]; exact isAtom_of_eq hat (by omega) (by omega)
  have hn : lookAheadRef (getOptions s a) g (ax - 1) (ay - 1) DIR_UP = ATOM_NONE := by
    apply lookAheadRef_none
    · rw [ux, uy]; exact hno _ _ (by omega) (by omega) (by omega) (by omega) (by omega)
    · rw [ux, uy]; exact hno _ _ (by omega) (by omega) (by omega) (by omega) (by omega)
    · rw [ux, uy]; exact hno _ _ (by omega) (by omega) (by omega) (by omega) (by omega)
  have hturn := walkGridLog_pass_turn (getOptions s a) g (x := ax - 1) (y := ay - 1) hdr
    (valid_inner_not_border hv (by omega) (by omega) (by omega) (by omega))
    (Or.inr hl) (by rw [hl, ht]; exact hdu) (by rw [hl, ht]; exact hn)
  simp only [hl, ht, ux, uy] at hturn
  have hlog : walkGridLog (getOptions s a) g fuel (cellFromXY (getOptions s a) 0 (ay - 1))
      DIR_RIGHT [] =
      some (cellFromXY (getOptions s a) (ax - 1) 0,
        [(cellFromXY (getOptions s a) (ax - 1) (ay - 1), DIR_RIGHT, DIR_UP)]) := by
    rcases c2 with c2 | c2
    · -- the atom is below row 2: the beam walks up the column `ax-1`
      have ef : fuel = (fuel - (ax + ay - 2).toNat + 1 + (ay - 3).toNat) + 1 + (ax - 1).toNat := by
        omega
      have hup : ∀ j : Int, 1 ≤ j → j ≤ (ay - 3).toNat →
          ¬ isAtom (getOptions s a) g (ax - 1 + 0 + j * dirDX DIR_UP)
            (ay - 1 + -1 + j * dirDY DIR_UP) ∧
          ¬ isAtom (getOptions s a) g (ax - 1 + 0 + j * dirDX DIR_UP + dirDY DIR_UP)
            (ay - 1 + -1 + j * dirDY DIR_UP - dirDX DIR_UP) ∧
          ¬ isAtom (getOptions s a) g (ax - 1 + 0 + j * dirDX DIR_UP - dirDY DIR_UP)
            (ay - 1 + -1 + j * dirDY DIR_UP + dirDX DIR_UP) ∧
          g (cellFromXY (getOptions s a) (ax - 1 + 0 + j * dirDX DIR_UP)
            (ay - 1 + -1 + j * dirDY DIR_UP)) ≠ CELL_BORDER := by
        intro j hj1 hjk
        rw [ux, uy]
        exact ⟨hno _ _ (by omega) (by omega) (by omega) (by omega) (by omega),
          hno _ _ (by omega) (by omega) (by omega) (by omega) (by omega),
          hno _ _ (by omega) (by omega) (by omega) (by omega) (by omega),
          valid_inner_not_border hv (by omega) (by omega) (by omega) (by omega)⟩
      rw [ef, walkGridLog_straight _ g hdr (ax - 1).toNat 0 (ay - 1) _ [] hcor, c1,
        cell_congr _ (x := ax - 1) (y := ay - 1) (by rw [ex]; omega) (by rw [ey]; omega),
        hturn, if_neg (valid_inner_not_border hv (by omega) (by omega) (by omega) (by omega)),
        walkGridLog_straight _ g hdu (ay - 3).toNat _ _ _ _ hup, c2,
        walkGridLog_pass_none _ g hdu
          (by rw [ux, uy]; exact hno _ _ (by omega) (by omega) (by omega) (by omega) (by omega))
          (by rw [ux, uy]; exact hno _ _ (by omega) (by omega) (by omega) (by omega) (by omega))
          (by rw [ux, uy]; exact hno _ _ (by omega) (by omega) (by omega) (by omega) (by omega)),
        ux, uy,
        if_pos (valid_ring hv (by omega) (by omega) (by omega) (by omega) (by omega)),
        cell_congr _ (x := ax - 1) (y := 0) (by omega) (by omega)]
      rfl
    · -- the atom is in row 2: the cell above the turning cell is the top edge
      subst c2
      have ef : fuel = (fuel - (ax + 2 - 2).toNat) + 1 + (ax - 1).toNat := by omega
      rw [ef, walkGridLog_straight _ g hdr (ax - 1).toNat 0 (2 - 1) _ [] hcor, c1,
        cell_congr _ (x := ax - 1) (y := 2 - 1) (by rw [ex]; omega) (by rw [ey]; omega),
        hturn, if_pos (valid_ring hv (by omega) (by omega) (by omega) (by omega) (by omega)),
        cell_congr _ (x := ax - 1) (y := 0) (by omega) (by omega)]
      rfl
  have hnode : getExitNode (getOptions s a) (cellFromXY (getOptions s a) (ax - 1) 0) =
      4 * s + 2 - ax := by
    rw [getExitNode_cellFromXY _ (ax - 1) 0 (by omega) (by simp; omega) (by omega),
      if_pos rfl]
    simp only [getOptions_iSize]
    ring
  have h00 : cellFromXY (getOptions s a) 0 0 = 0 := by simp [cellFromXY]
  refine ⟨he, hlog, ?_, hnode, by omega, ?_⟩
  · rw [he]
    exact walkGrid_of_log hlog
  · rw [he]
    unfold classify
    rw [if_neg (cellFromXY_ne (by omega) (by omega) (by omega) (by omega) (by omega) (by omega)
        (by omega)),
      if_neg (by
        rw [← h00]
        exact cellFromXY_ne (by omega) (by omega) (by omega) (by omega) (by omega) (by omega)
          (by omega)), hnode]

/-- The scenario of the specification: size 4, one atom at `(3, 2)`, the beam
    entered at node 1 turns once and exits at node 15. -/
theorem single_deflection_witness :
    walkGridLog (getOptions 4 1) (boardWith 4 [(3, 2)]) 3 (cellFromXY (getOptions 4 1) 0 (2 - 1))
        DIR_RIGHT [] =
      some (cellFromXY (getOptions 4 1) (3 - 1) 0,
        [(cellFromXY (getOptions 4 1) (3 - 1) (2 - 1), DIR_RIGHT, DIR_UP)]) ∧
    getExitNode (getOptions 4 1) (cellFromXY (getOptions 4 1) (3 - 1) 0) = 15 :=
  have h := single_deflection 4 1 3 2 DIR_NONE (boardWith 4 [(3, 2)]) (by decide)
    (boardWith_valid 4 1 _) (by decide) (by decide) (by decide) (by decide)
    (fun x y hx0 hx1 hy0 hy1 => by
      rw [boardWith_isAtom 4 1 _ hx0 hx1 hy0 hy1]
      simp)
    3 (by decide)
  ⟨h.2.1, h.2.2.2.1⟩

/-! ## The walk does not depend on the memory around the grid -/

theorem isAtom_agree {s a : Int} {g g' : Grid}
    (hag : ∀ x y : Int, 0 ≤ x → x ≤ s + 1 → 0 ≤ y → y ≤ s + 1 →
      g' (cellFromXY (getOptions s a) x y) = g (cellFromXY (getOptions s a) x y))
    {x y : Int} (hx0 : 0 ≤ x) (hx1 : x ≤ s + 1) (hy0 : 0 ≤ y) (hy1 : y ≤ s + 1) :
    isAtom (getOptions s a) g' x y ↔ isAtom (getOptions s a) g x y := by
  unfold isAtom
  rw [hag x y hx0 hx1 hy0 hy1]

/-- Two grids that agree inside the grid give the same look-ahead wherever the
    three cells ahead are inside the grid. -/
theorem lookAheadRef_agree {s a : Int} {g g' : Grid}
    (hag : ∀ x y : Int, 0 ≤ x → x ≤ s + 1 → 0 ≤ y → y ≤ s + 1 →
      g' (cellFromXY (getOptions s a) x y) = g (cellFromXY (getOptions s a) x y))
    {x y d : Int}
    (hin : 0 ≤ x + dirDX d + dirDY d ∧ x + dirDX d + dirDY d ≤ s + 1 ∧
      0 ≤ x + dirDX d - dirDY d ∧ x + dirDX d - dirDY d ≤ s + 1 ∧
      0 ≤ y + dirDY d - dirDX d ∧ y + dirDY d - dirDX d ≤ s + 1 ∧
      0 ≤ y + dirDY d + dirDX d ∧ y + dirDY d + dirDX d ≤ s + 1 ∧
      0 ≤ x + dirDX d ∧ x + dirDX d ≤ s + 1 ∧ 0 ≤ y + dirDY d ∧ y + dirDY d ≤ s + 1) :
    lookAheadRef (getOptions s a) g' x y d = lookAheadRef (getOptions s a) g x y d := by
  have a1 := isAtom_agree hag (x := x + dirDX d) (y := y + dirDY d)
    (by omega) (by omega) (by omega) (by omega)
  have a2 := isAtom_agree hag (x := x + dirDX d + dirDY d) (y := y + dirDY d - dirDX d)
    (by omega) (by omega) (by omega) (by omega)
  have a3 := isAtom_agree hag (x := x + dirDX d - dirDY d) (y := y + dirDY d + dirDX d)
    (by omega) (by omega) (by omega) (by omega)
  unfold lookAheadRef
  simp only [a1, a2, a3]

theorem turnLoop_agree {s a : Int} {g g' : Grid}
    (hag : ∀ x y : Int, 0 ≤ x → x ≤ s + 1 → 0 ≤ y → y ≤ s + 1 →
      g' (cellFromXY (getOptions s a) x y) = g (cellFromXY (getOptions s a) x y))
    {x y : Int} (hx1 : 1 ≤ x) (hxs : x ≤ s) (hy1 : 1 ≤ y) (hys : y ≤ s) :
    ∀ (f : Nat) (at0 d : Int), ValidDir d →
      turnLoop (getOptions s a) g' (cellFromXY (getOptions s a) x y) f at0 d =
        turnLoop (getOptions s a) g (cellFromXY (getOptions s a) x y) f at0 d ∧
      ∀ d' a', turnLoop (getOptions s a) g (cellFromXY (getOptions s a) x y) f at0 d =
        some (TurnOut.fin d' a') → ValidDir d' := by
  have hstop : ∀ (h : Grid) (f : Nat) (at0 d : Int), ¬ (at0 = ATOM_LEFT ∨ at0 = ATOM_RIGHT) →
      turnLoop (getOptions s a) h (cellFromXY (getOptions s a) x y) f at0 d =
        some (TurnOut.fin d at0) := by
    intro h f at0 d hc
    unfold turnLoop
    rw [if_neg hc]
  have hzero : ∀ (h : Grid) (at0 d : Int), (at0 = ATOM_LEFT ∨ at0 = ATOM_RIGHT) →
      turnLoop (getOptions s a) h (cellFromXY (getOptions s a) x y) 0 at0 d = none := by
    intro h at0 d hc
    unfold turnLoop
    rw [if_pos hc]
  intro f
  induction f with
  | zero =>
    intro at0 d hd
    by_cases hc : at0 = ATOM_LEFT ∨ at0 = ATOM_RIGHT
    · rw [hzero g' at0 d hc, hzero g at0 d hc]
      exact ⟨rfl, fun d' a' h => absurd h (by simp)⟩
    · rw [hstop g' 0 at0 d hc, hstop g 0 at0 d hc]
      refine ⟨rfl, fun d' a' h => ?_⟩
      simp only [Option.some.injEq, TurnOut.fin.injEq] at h
      rw [← h.1]
      exact hd
  | succ k ih =>
    intro at0 d hd
    by_cases hc : at0 = ATOM_LEFT ∨ at0 = ATOM_RIGHT
    · have hd1 : ValidDir (turnBeam at0 d) := by
        rcases hc with h | h <;> rw [h]
        · exact (turnBeam_left hd).1
        · exact (turnBeam_right hd).1
      have hu := dir_unit hd1
      have hla : lookAhead (getOptions s a) g' (cellFromXY (getOptions s a) x y) (turnBeam at0 d) =
          lookAhead (getOptions s a) g (cellFromXY (getOptions s a) x y) (turnBeam at0 d) := by
        rw [lookAhead_cell _ g' x y hd1, lookAhead_cell _ g x y hd1]
        exact lookAheadRef_agree hag (by omega)
      rw [turnLoop_turn _ g' _ k at0 d hc, turnLoop_turn _ g _ k at0 d hc,
        hag x y (by omega) (by omega) (by omega) (by omega), hla]
      by_cases hb : g (cellFromXY (getOptions s a) x y) = CELL_BORDER
      · simp only [if_pos hb]
        exact ⟨trivial, fun d' a' h => absurd h (by simp)⟩
      · simp only [if_neg hb]
        exact ih _ _ hd1
    · rw [hstop g' (k + 1) at0 d hc, hstop g (k + 1) at0 d hc]
      refine ⟨rfl, fun d' a' h => ?_⟩
      simp only [Option.some.injEq, TurnOut.fin.injEq] at h
      rw [← h.1]
      exact hd

/-- From an interior cell, `walkGrid` returns the same on two grids that agree
    inside the grid. -/
theorem walkGrid_agree_inner {s a : Int} {g g' : Grid} (hv : ValidBoard (getOptions s a) g)
    (hag : ∀ x y : Int, 0 ≤ x → x ≤ s + 1 → 0 ≤ y → y ≤ s + 1 →
      g' (cellFromXY (getOptions s a) x y) = g (cellFromXY (getOptions s a) x y)) :
    ∀ (f : Nat) (x y d : Int), 1 ≤ x → x ≤ s → 1 ≤ y → y ≤ s → ValidDir d →
      walkGrid (getOptions s a) g' f (cellFromXY (getOptions s a) x y) d =
        walkGrid (getOptions s a) g f (cellFromXY (getOptions s a) x y) d := by
  intro f
  induction f with
  | zero =>
    intro x y d _ _ _ _ _
    rw [walkGrid, walkGrid]
  | succ k ih =>
    intro x y d hx1 hxs hy1 hys hd
    have hu := dir_unit hd
    have hla : lookAhead (getOptions s a) g' (cellFromXY (getOptions s a) x y) d =
        lookAhead (getOptions s a) g (cellFromXY (getOptions s a) x y) d := by
      rw [lookAhead_cell _ g' x y hd, lookAhead_cell _ g x y hd]
      exact lookAheadRef_agree hag (by omega)
    obtain ⟨ht, hdv⟩ := turnLoop_agree hag hx1 hxs hy1 hys (k + 1)
      (lookAhead (getOptions s a) g (cellFromXY (getOptions s a) x y) d) d hd
    rw [walkGrid_succ, walkGrid_succ, hla, ht]
    by_cases hc : lookAhead (getOptions s a) g (cellFromXY (getOptions s a) x y) d = ATOM_CENTER
    · rw [if_pos hc, if_pos hc]
    · rw [if_neg hc, if_neg hc]
      cases hl : turnLoop (getOptions s a) g (cellFromXY (getOptions s a) x y) (k + 1)
          (lookAhead (getOptions s a) g (cellFromXY (getOptions s a) x y) d) d with
      | none => rfl
      | some t =>
        cases t with
        | ret c' => rfl
        | fin d' a' =>
          have hd' := hdv d' a' hl
          have hu' := dir_unit hd'
          simp only
          rw [goAhead_cell _ x y hd',
            hag (x + dirDX d') (y + dirDY d') (by omega) (by omega) (by omega) (by omega)]
          by_cases hb : g (cellFromXY (getOptions s a) (x + dirDX d') (y + dirDY d')) =
              CELL_BORDER
          · rw [if_pos hb, if_pos hb]
          · rw [if_neg hb, if_neg hb]
            have hi := valid_not_border_inner hv (x := x + dirDX d') (y := y + dirDY d')
              (by omega) (by omega) (by omega) (by omega) hb
            exact ih _ _ _ hi.1 hi.2.1 hi.2.2.1 hi.2.2.2 hd'

/-- From an entry state, `walkGrid` returns the same on two grids that agree
    inside the grid: the result does not depend on what the look-ahead reads
    outside the grid. -/
theorem walkGrid_agree {s a : Int} {g g' : Grid} (hv : ValidBoard (getOptions s a) g)
    (hag : ∀ x y : Int, 0 ≤ x → x ≤ s + 1 → 0 ≤ y → y ≤ s + 1 →
      g' (cellFromXY (getOptions s a) x y) = g (cellFromXY (getOptions s a) x y))
    {x y d : Int} (he : EntryState s x y d) (f : Nat) :
    walkGrid (getOptions s a) g' f (cellFromXY (getOptions s a) x y) d =
      walkGrid (getOptions s a) g f (cellFromXY (getOptions s a) x y) d := by
  obtain ⟨hd, hex, i1, i2, i3, i4, hu⟩ := entryState_facts he
  have hbe := exitCell_ring hv hex
  unfold ExitCell at hex
  have hbe' : g' (cellFromXY (getOptions s a) x y) = CELL_BORDER := by
    rw [hag x y (by omega) (by omega) (by omega) (by omega)]
    exact hbe
  cases f with
  | zero => rw [walkGrid, walkGrid]
  | succ k =>
    have hla : lookAhead (getOptions s a) g' (cellFromXY (getOptions s a) x y) d =
        lookAhead (getOptions s a) g (cellFromXY (getOptions s a) x y) d := by
      rw [lookAhead_cell _ g' x y hd, lookAhead_cell _ g x y hd]
      exact lookAheadRef_agree hag (by omega)
    rw [walkGrid_succ, walkGrid_succ, hla]
    by_cases hc : lookAhead (getOptions s a) g (cellFromXY (getOptions s a) x y) d = ATOM_CENTER
    · rw [if_pos hc, if_pos hc]
    · rw [if_neg hc, if_neg hc]
      by_cases hlr : lookAhead (getOptions s a) g (cellFromXY (getOptions s a) x y) d = ATOM_LEFT ∨
          lookAhead (getOptions s a) g (cellFromXY (getOptions s a) x y) d = ATOM_RIGHT
      · rw [turnLoop_turn _ g' _ k _ d hlr, turnLoop_turn _ g _ k _ d hlr, if_pos hbe,
          if_pos hbe']
      · have t1 : ∀ h : Grid, turnLoop (getOptions s a) h (cellFromXY (getOptions s a) x y)
            (k + 1) (lookAhead (getOptions s a) g (cellFromXY (getOptions s a) x y) d) d =
            some (TurnOut.fin d
              (lookAhead (getOptions s a) g (cellFromXY (getOptions s a) x y) d)) := by
          intro h
          unfold turnLoop
          rw [if_neg hlr]
        rw [t1 g', t1 g]
        simp only
        rw [goAhead_cell _ x y hd,
          hag (x + dirDX d) (y + dirDY d) (by omega) (by omega) (by omega) (by omega),
          walkGrid_agree_inner hv hag k _ _ d i1 i2 i3 i4 hd]

/-- A valid board with its atoms exactly at the listed interior cells agrees
    with the test board of that list on every cell of the grid. -/
theorem agree_boardWith {s a : Int} {g : Grid} (atoms : List (Int × Int))
    (hv : ValidBoard (getOptions s a) g)
    (hat : ∀ x y : Int, 1 ≤ x → x ≤ s → 1 ≤ y → y ≤ s →
      (isAtom (getOptions s a) g x y ↔ (x, y) ∈ atoms)) :
    ∀ x y : Int, 0 ≤ x → x ≤ s + 1 → 0 ≤ y → y ≤ s + 1 →
      g (cellFromXY (getOptions s a) x y) = boardWith s atoms (cellFromXY (getOptions s a) x y) := by
  intro x y hx0 hx1 hy0 hy1
  rw [boardWith_cell s a atoms hx0 hx1 hy0 hy1]
  by_cases hr : x = 0 ∨ x = s + 1 ∨ y = 0 ∨ y = s + 1
  · rw [if_pos hr]
    exact valid_ring hv hx0 hx1 hy0 hy1 hr
  · rw [if_neg hr]
    have hi := hat x y (by omega) (by omega) (by omega) (by omega)
    by_cases hm : (x, y) ∈ atoms
    · rw [if_pos hm]
      exact hi.mpr hm
    · rw [if_neg hm]
      rcases valid_inner hv (x := x) (y := y) (by omega) (by omega) (by omega) (by omega)
        with h | h
      · exact h
      · exact absurd (hi.mp h) hm

/-! ## C9: the worked example of the intro text -/

/-- C9: on every valid size-4 board whose atoms are exactly at `(3,2)`, `(2,4)`
    and `(3,4)`, for every iteration bound from 6 on: the beams entered at
    nodes 2 and 7 are absorbed (`walkGrid` returns 0), the beams entered at
    nodes 10 and 5 are reflected (`walkGrid` returns the entry cell), the beam
    entered at node 1 exits at node 15 and the beam entered at node 16 exits at
    node 3. -/
theorem worked_example (g : Grid) (dir0 : Int) (hv : ValidBoard (getOptions 4 3) g)
    (hat : ∀ x y : Int, 1 ≤ x → x ≤ 4 → 1 ≤ y → y ≤ 4 →
      (isAtom (getOptions 4 3) g x y ↔ (x, y) ∈ [((3 : Int), (2 : Int)), (2, 4), (3, 4)]))
    (fuel : Nat) (hf : 6 ≤ fuel) :
    (walkGrid (getOptions 4 3) g fuel (getEntryNode (getOptions 4 3) 2 dir0).1
        (getEntryNode (getOptions 4 3) 2 dir0).2 = some 0 ∧
      classify (getOptions 4 3) (getEntryNode (getOptions 4 3) 2 dir0).1 0 = Outcome.absorbed) ∧
    (walkGrid (getOptions 4 3) g fuel (getEntryNode (getOptions 4 3) 7 dir0).1
        (getEntryNode (getOptions 4 3) 7 dir0).2 = some 0 ∧
      classify (getOptions 4 3) (getEntryNode (getOptions 4 3) 7 dir0).1 0 = Outcome.absorbed) ∧
    (walkGrid (getOptions 4 3) g fuel (getEntryNode (getOptions 4 3) 10 dir0).1
        (getEntryNode (getOptions 4 3) 10 dir0).2 =
        some (getEntryNode (getOptions 4 3) 10 dir0).1 ∧
      classify (getOptions 4 3) (getEntryNode (getOptions 4 3) 10 dir0).1
        (getEntryNode (getOptions 4 3) 10 dir0).1 = Outcome.reflected) ∧
    (walkGrid (getOptions 4 3) g fuel (getEntryNode (getOptions 4 3) 5 dir0).1
        (getEntryNode (getOptions 4 3) 5 dir0).2 =
        some (getEntryNode (getOptions 4 3) 5 dir0).1 ∧
      classify (getOptions 4 3) (getEntryNode (getOptions 4 3) 5 dir0).1
        (getEntryNode (getOptions 4 3) 5 dir0).1 = Outcome.reflected) ∧
    (∃ r, walkGrid (getOptions 4 3) g fuel (getEntryNode (getOptions 4 3) 1 dir0).1
        (getEntryNode (getOptions 4 3) 1 dir0).2 = some r ∧
      classify (getOptions 4 3) (getEntryNode (getOptions 4 3) 1 dir0).1 r =
        Outcome.exited 15) ∧
    (∃ r, walkGrid (getOptions 4 3) g fuel (getEntryNode (getOptions 4 3) 16 dir0).1
        (getEntryNode (getOptions 4 3) 16 dir0).2 = some r ∧
      classify (getOptions 4 3) (getEntryNode (getOptions 4 3) 16 dir0).1 r =
        Outcome.exited 3) := by
  have hag := agree_boardWith [((3 : Int), (2 : Int)), (2, 4), (3, 4)] hv hat
  have hvb := boardWith_valid 4 3 [((3 : Int), (2 : Int)), (2, 4), (3, 4)]
  have key : ∀ (x y d r : Int), EntryState 4 x y d →
      walkGrid (getOptions 4 3) (boardWith 4 [(3, 2), (2, 4), (3, 4)]) 6
        (cellFromXY (getOptions 4 3) x y) d = some r →
      walkGrid (getOptions 4 3) g fuel (cellFromXY (getOptions 4 3) x y) d = some r := by
    intro x y d r he hw
    rw [walkGrid_agree hvb hag he fuel]
    exact walkGrid_mono _ _ 6 _ _ _ hw fuel hf
  have e2 : getEntryNode (getOptions 4 3) 2 dir0 = (cellFromXY (getOptions 4 3) 0 2, DIR_RIGHT) := by
    rw [getEntryNode_of_node 4 3 2 dir0 (by decide) (by decide) (by decide)]; decide
  have e7 : getEntryNode (getOptions 4 3) 7 dir0 = (cellFromXY (getOptions 4 3) 3 5, DIR_UP) := by
    rw [getEntryNode_of_node 4 3 7 dir0 (by decide) (by decide) (by decide)]; decide
  have e10 : getEntryNode (getOptions 4 3) 10 dir0 =
      (cellFromXY (getOptions 4 3) 5 3, DIR_LEFT) := by
    rw [getEntryNode_of_node 4 3 10 dir0 (by decide) (by decide) (by decide)]; decide
  have e5 : getEntryNode (getOptions 4 3) 5 dir0 = (cellFromXY (getOptions 4 3) 1 5, DIR_UP) := by
    rw [getEntryNode_of_node 4 3 5 dir0 (by decide) (by decide) (by decide)]; decide
  have e1 : getEntryNode (getOptions 4 3) 1 dir0 = (cellFromXY (getOptions 4 3) 0 1, DIR_RIGHT) := by
    rw [getEntryNode_of_node 4 3 1 dir0 (by decide) (by decide) (by decide)]; decide
  have e16 : getEntryNode (getOptions 4 3) 16 dir0 =
      (cellFromXY (getOptions 4 3) 1 0, DIR_DOWN) := by
    rw [getEntryNode_of_node 4 3 16 dir0 (by decide) (by decide) (by decide)]; decide
  rw [e2, e7, e10, e5, e1, e16]
  refine ⟨⟨key 0 2 DIR_RIGHT 0 (by decide) (by decide), by decide⟩,
    ⟨key 3 5 DIR_UP 0 (by decide) (by decide), by decide⟩,
    ⟨key 5 3 DIR_LEFT _ (by decide) (by decide), by decide⟩,
    ⟨key 1 5 DIR_UP _ (by decide) (by decide), by decide⟩,
    ⟨cellFromXY (getOptions 4 3) 2 0, key 0 1 DIR_RIGHT _ (by decide) (by decide), by decide⟩,
    ⟨cellFromXY (getOptions 4 3) 0 3, key 1 0 DIR_DOWN _ (by decide) (by decide), by decide⟩⟩

theorem worked_example_witness :
    walkGrid (getOptions 4 3) (boardWith 4 [(3, 2), (2, 4), (3, 4)]) 6
        (getEntryNode (getOptions 4 3) 10 DIR_NONE).1
        (getEntryNode (getOptions 4 3) 10 DIR_NONE).2 =
      some (getEntryNode (getOptions 4 3) 10 DIR_NONE).1 :=
  (worked_example (boardWith 4 [(3, 2), (2, 4), (3, 4)]) DIR_NONE (boardWith_valid 4 3 _)
    (fun x y hx0 hx1 hy0 hy1 => boardWith_isAtom 4 3 _ hx0 hx1 hy0 hy1) 6 (by decide)).2.2.1.1

/-! ## C11: the turn against its reference definition -/

/-- C11: for each of the four directions `d`, `turnBeam ATOM_LEFT d` is the
    predecessor of `d` in the cycle Up → Left → Down → Right → Up (Up to Right,
    Right to Down, Down to Left, Left to Up), `turnBeam ATOM_RIGHT d` is the
    successor (Up to Left, Left to Down, Down to Right, Right to Up),
    `turnBeam ATOM_NONE d` and `turnBeam ATOM_CENTER d` are `d`; every result
    is one of the four directions, and the two turns undo each other. -/
theorem turnBeam_reference (d : Int) (hd : ValidDir d) :
    (cyclePred DIR_UP = DIR_RIGHT ∧ cyclePred DIR_RIGHT = DIR_DOWN ∧
      cyclePred DIR_DOWN = DIR_LEFT ∧ cyclePred DIR_LEFT = DIR_UP ∧
      cycleSucc DIR_UP = DIR_LEFT ∧ cycleSucc DIR_LEFT = DIR_DOWN ∧
      cycleSucc DIR_DOWN = DIR_RIGHT ∧ cycleSucc DIR_RIGHT = DIR_UP) ∧
    turnBeam ATOM_LEFT d = cyclePred d ∧
    turnBeam ATOM_RIGHT d = cycleSucc d ∧
    turnBeam ATOM_NONE d = d ∧
    turnBeam ATOM_CENTER d = d ∧
    ValidDir (turnBeam ATOM_LEFT d) ∧ ValidDir (turnBeam ATOM_RIGHT d) ∧
    ValidDir (turnBeam ATOM_NONE d) ∧ ValidDir (turnBeam ATOM_CENTER d) ∧
    turnBeam ATOM_RIGHT (turnBeam ATOM_LEFT d) = d ∧
    turnBeam ATOM_LEFT (turnBeam ATOM_RIGHT d) = d := by
  rcases validDir_cases hd with h | h | h | h <;> subst h <;> decide

theorem turnBeam_reference_witness :
    turnBeam ATOM_LEFT DIR_UP = cyclePred DIR_UP ∧
    turnBeam ATOM_RIGHT DIR_UP = cycleSucc DIR_UP :=
  have h := turnBeam_reference DIR_UP (by decide)
  ⟨h.2.1, h.2.2.1⟩

/-! ## C12: the beam turns away from the atom -/

/-- The result of `lookAhead` is the priority test on the grid values at the
    three indices of `lookAheadCells`. -/
theorem lookAhead_cells (o : t_options) (g : Grid) (c : Int) {d : Int} (hd : ValidDir d) :
    ∃ f l r, lookAheadCells o c d = some (f, l, r) ∧
      lookAhead o g c d =
        (if g f = CELL_ATOM then ATOM_CENTER
          else if g l = CELL_ATOM then ATOM_LEFT
          else if g r = CELL_ATOM then ATOM_RIGHT
          else ATOM_NONE) := by
  rcases validDir_cases hd with h | h | h | h <;> subst h
  · exact ⟨c - o.iWidth, c - o.iWidth - 1, c - o.iWidth + 1, rfl, rfl⟩
  · exact ⟨c - 1, c - 1 + o.iWidth, c - 1 - o.iWidth, rfl, rfl⟩
  · exact ⟨c + o.iWidth, c + o.iWidth + 1, c + o.iWidth - 1, rfl, rfl⟩
  · exact ⟨c + 1, c + 1 - o.iWidth, c + 1 + o.iWidth, rfl, rfl⟩

/-- C12: for every cell `c` and each of the four directions `d`, with `f`,
    `l`, `r` the front, front-left and front-right indices that `lookAhead`
    reads: an atom in the left front turns the beam so that its next step is
    the offset from the front cell to the front-right cell, and an atom in the
    right front so that it is the offset from the front cell to the
    front-left cell. In unit steps: the left-front turn maps `(dx, dy)` to
    `(-dy, dx)`, the beam's own right, and the right-front turn maps it to
    `(dy, -dx)`, the beam's own left. -/
theorem deflection_away_from_atom (o : t_options) (c d : Int) (hd : ValidDir d) :
    ∃ f l r, lookAheadCells o c d = some (f, l, r) ∧
      (∀ g : Grid, lookAhead o g c d =
        (if g f = CELL_ATOM then ATOM_CENTER
          else if g l = CELL_ATOM then ATOM_LEFT
          else if g r = CELL_ATOM then ATOM_RIGHT
          else ATOM_NONE)) ∧
      goAhead o c (turnBeam ATOM_LEFT d) - c = r - f ∧
      goAhead o c (turnBeam ATOM_RIGHT d) - c = l - f ∧
      dirDX (turnBeam ATOM_LEFT d) = - dirDY d ∧ dirDY (turnBeam ATOM_LEFT d) = dirDX d ∧
      dirDX (turnBeam ATOM_RIGHT d) = dirDY d ∧ dirDY (turnBeam ATOM_RIGHT d) = - dirDX d := by
  obtain ⟨-, lx, ly⟩ := turnBeam_left hd
  obtain ⟨-, rx, ry⟩ := turnBeam_right hd
  rcases validDir_cases hd with h | h | h | h <;> subst h
  · refine ⟨c - o.iWidth, c - o.iWidth - 1, c - o.iWidth + 1, rfl, fun _ => rfl, ?_, ?_,
      lx, ly, rx, ry⟩
    · have e : goAhead o c (turnBeam ATOM_LEFT 1) = c + 1 := rfl
      rw [e]; ring
    · have e : goAhead o c (turnBeam ATOM_RIGHT 1) = c - 1 := rfl
      rw [e]; ring
  · refine ⟨c - 1, c - 1 + o.iWidth, c - 1 - o.iWidth, rfl, fun _ => rfl, ?_, ?_,
      lx, ly, rx, ry⟩
    · have e : goAhead o c (turnBeam ATOM_LEFT 2) = c - o.iWidth := rfl
      rw [e]; ring
    · have e : goAhead o c (turnBeam ATOM_RIGHT 2) = c + o.iWidth := rfl
      rw [e]; ring
  · refine ⟨c + o.iWidth, c + o.iWidth + 1, c + o.iWidth - 1, rfl, fun _ => rfl, ?_, ?_,
      lx, ly, rx, ry⟩
    · have e : goAhead o c (turnBeam ATOM_LEFT 3) = c - 1 := rfl
      rw [e]; ring
    · have e : goAhead o c (turnBeam ATOM_RIGHT 3) = c + 1 := rfl
      rw [e]; ring
  · refine ⟨c + 1, c + 1 - o.iWidth, c + 1 + o.iWidth, rfl, fun _ => rfl, ?_, ?_,
      lx, ly, rx, ry⟩
    · have e : goAhead o c (turnBeam ATOM_LEFT 4) = c + o.iWidth := rfl
      rw [e]; ring
    · have e : goAhead o c (turnBeam ATOM_RIGHT 4) = c - o.iWidth := rfl
      rw [e]; ring

theorem deflection_away_from_atom_witness :
    ∃ f l r, lookAheadCells (getOptions 4 3) 14 DIR_RIGHT = some (f, l, r) ∧
      goAhead (getOptions 4 3) 14 (turnBeam ATOM_LEFT DIR_RIGHT) - 14 = r - f ∧
      goAhead (getOptions 4 3) 14 (turnBeam ATOM_RIGHT DIR_RIGHT) - 14 = l - f :=
  have ⟨f, l, r, h1, _, h2, h3, _⟩ := deflection_away_from_atom (getOptions 4 3) 14 DIR_RIGHT
    (by decide)
  ⟨f, l, r, h1, h2, h3⟩

/-! ## C14: the entry mapping table -/

/-- C14: for every size `s ≥ 1` (`w = s+2`) and node `n` in `1..4*s`,
    `getEntryNode` yields the cell index `x + w*y` and the direction with:
    `n` in `1..s`: `(0, n)`, Right; `n` in `s+1..2*s`: `(n-s, w-1)`, Up; `n` in
    `2*s+1..3*s`: `(w-1, 3*s+1-n)`, Left; `n` in `3*s+1..4*s`: `(4*s+1-n, 0)`,
    Down. The entry cell is a non-corner cell of the outer ring and the cell
    one `goAhead` step from it is an interior cell. -/
theorem entry_mapping_table (s a n dir0 : Int) (hs : 1 ≤ s) (h1 : 1 ≤ n) (h2 : n ≤ 4 * s) :
    (n ≤ s → getEntryNode (getOptions s a) n dir0 = (0 + (s + 2) * n, DIR_RIGHT)) ∧
    (s + 1 ≤ n → n ≤ 2 * s →
      getEntryNode (getOptions s a) n dir0 = ((n - s) + (s + 2) * (s + 2 - 1), DIR_UP)) ∧
    (2 * s + 1 ≤ n → n ≤ 3 * s →
      getEntryNode (getOptions s a) n dir0 =
        ((s + 2 - 1) + (s + 2) * (3 * s + 1 - n), DIR_LEFT)) ∧
    (3 * s + 1 ≤ n →
      getEntryNode (getOptions s a) n dir0 = ((4 * s + 1 - n) + (s + 2) * 0, DIR_DOWN)) ∧
    (∃ x y, (getEntryNode (getOptions s a) n dir0).1 = cellFromXY (getOptions s a) x y ∧
      ExitCell s x y ∧
      ∃ u v, goAhead (getOptions s a) (getEntryNode (getOptions s a) n dir0).1
          (getEntryNode (getOptions s a) n dir0).2 = cellFromXY (getOptions s a) u v ∧
        1 ≤ u ∧ u ≤ s ∧ 1 ≤ v ∧ v ≤ s) := by
  have ht := getEntryNode_of_node s a n dir0 hs h1 h2
  refine ⟨?_, ?_, ?_, ?_, ?_⟩
  · intro c1
    rw [ht, if_pos c1]
    rfl
  · intro c1 c2
    rw [ht, if_neg (by omega), if_pos c2]
    unfold cellFromXY
    simp only [getOptions_iWidth, Prod.mk.injEq, and_true]
    ring
  · intro c1 c2
    rw [ht, if_neg (by omega), if_neg (by omega), if_pos c2]
    unfold cellFromXY
    simp only [getOptions_iWidth, Prod.mk.injEq, and_true]
    ring
  · intro c1
    rw [ht, if_neg (by omega), if_neg (by omega), if_neg (by omega)]
    rfl
  · obtain ⟨x, y, d, e, he⟩ := getEntryNode_entryState s a n dir0 hs h1 h2
    obtain ⟨hd, hex, i1, i2, i3, i4, -⟩ := entryState_facts he
    rw [e]
    exact ⟨x, y, rfl, hex, x + dirDX d, y + dirDY d, goAhead_cell _ x y hd, i1, i2, i3, i4⟩

theorem entry_mapping_table_witness :
    getEntryNode (getOptions 4 3) 10 DIR_NONE = ((4 + 2 - 1) + (4 + 2) * (3 * 4 + 1 - 10), DIR_LEFT) :=
  (entry_mapping_table 4 3 10 DIR_NONE (by decide) (by decide) (by decide)).2.2.1
    (by decide) (by decide)

/-! ## C15: position round trip on the perimeter -/

/-- C15: for every size `s ≥ 1` and every non-corner cell `(x, y)` of the
    outer ring, `getExitNode` of the cell is a node number in `1..4*s`, and the
    entry cell that `getEntryNode` assigns to that node is the cell again. -/
theorem perimeter_round_trip (s a x y dir0 : Int) (hs : 1 ≤ s) (hc : ExitCell s x y) :
    1 ≤ getExitNode (getOptions s a) (cellFromXY (getOptions s a) x y) ∧
    getExitNode (getOptions s a) (cellFromXY (getOptions s a) x y) ≤ 4 * s ∧
    (getEntryNode (getOptions s a)
      (getExitNode (getOptions s a) (cellFromXY (getOptions s a) x y)) dir0).1 =
      cellFromXY (getOptions s a) x y := by
  unfold ExitCell at hc
  have hn := getExitNode_cellFromXY (getOptions s a) x y (by omega) (by simp; omega) (by omega)
  simp only [getOptions_iSize, getOptions_iWidth] at hn
  have key : ∀ m : Int,
      getExitNode (getOptions s a) (cellFromXY (getOptions s a) x y) = m →
      1 ≤ m → m ≤ 4 * s →
      (if m ≤ s then (cellFromXY (getOptions s a) 0 m, DIR_RIGHT)
        else if m ≤ 2 * s then (cellFromXY (getOptions s a) (m - s) (s + 1), DIR_UP)
        else if m ≤ 3 * s then (cellFromXY (getOptions s a) (s + 1) (3 * s + 1 - m), DIR_LEFT)
        else (cellFromXY (getOptions s a) (4 * s + 1 - m) 0, DIR_DOWN)).1 =
        cellFromXY (getOptions s a) x y →
      1 ≤ getExitNode (getOptions s a) (cellFromXY (getOptions s a) x y) ∧
      getExitNode (getOptions s a) (cellFromXY (getOptions s a) x y) ≤ 4 * s ∧
      (getEntryNode (getOptions s a)
        (getExitNode (getOptions s a) (cellFromXY (getOptions s a) x y)) dir0).1 =
        cellFromXY (getOptions s a) x y := by
    intro m hm m1 m2 hcell
    rw [hm, getEntryNode_of_node s a m dir0 hs m1 m2]
    exact ⟨m1, m2, hcell⟩
  by_cases hy0 : y = 0
  · rw [if_pos hy0] at hn
    refine key _ hn (by omega) (by omega) ?_
    rw [if_neg (by omega), if_neg (by omega), if_neg (by omega)]
    exact cell_congr _ (by omega) (by omega)
  · rw [if_neg hy0] at hn
    by_cases hx1 : x = s + 2 - 1
    · rw [if_pos hx1] at hn
      refine key _ hn (by omega) (by omega) ?_
      rw [if_neg (by omega), if_neg (by omega), if_pos (by omega)]
      exact cell_congr _ (by omega) (by omega)
    · rw [if_neg hx1] at hn
      by_cases hy1 : y = s + 2 - 1
      · rw [if_pos hy1] at hn
        refine key _ hn (by omega) (by omega) ?_
        rw [if_neg (by omega), if_pos (by omega)]
        exact cell_congr _ (by omega) (by omega)
      · rw [if_neg hy1, if_pos (by omega)] at hn
        refine key _ hn (by omega) (by omega) ?_
        rw [if_pos (by omega)]
        exact cell_congr _ (by omega) (by omega)

theorem perimeter_round_trip_witness :
    (getEntryNode (getOptions 4 3)
      (getExitNode (getOptions 4 3) (cellFromXY (getOptions 4 3) 5 3)) DIR_NONE).1 =
      cellFromXY (getOptions 4 3) 5 3 :=
  (perimeter_round_trip 4 3 5 3 DIR_NONE (by decide) (by decide)).2.2

/-! ## C16: cell index and coordinates -/

/-- C16: with the width `w = size + 2`, `cellToXY (cellFromXY x y) = (x, y)`
    for all `0 ≤ x, y < w`, and for every index `i` with `0 ≤ i < w*w` both
    coordinates of `cellToXY i` are in `0..w-1` and `cellFromXY` maps them back
    to `i`. -/
theorem cell_xy_inverse (s a : Int) (hw : 0 < s + 2) :
    (∀ x y : Int, 0 ≤ x → x < s + 2 → 0 ≤ y → y < s + 2 →
      cellToXY (getOptions s a) (cellFromXY (getOptions s a) x y) = (x, y)) ∧
    (∀ i : Int, 0 ≤ i → i < (s + 2) * (s + 2) →
      cellFromXY (getOptions s a) (cellToXY (getOptions s a) i).1
        (cellToXY (getOptions s a) i).2 = i ∧
      0 ≤ (cellToXY (getOptions s a) i).1 ∧ (cellToXY (getOptions s a) i).1 ≤ s + 2 - 1 ∧
      0 ≤ (cellToXY (getOptions s a) i).2 ∧ (cellToXY (getOptions s a) i).2 ≤ s + 2 - 1) := by
  constructor
  · intro x y hx0 hx1 hy0 _
    exact cellToXY_cellFromXY _ x y hx0 (by simpa using hx1) hy0
  · intro i hi0 hi1
    unfold cellToXY cellFromXY
    simp only [getOptions_iWidth]
    rw [Int.tmod_eq_emod hi0 (by omega), Int.tdiv_eq_ediv hi0 (by omega)]
    have hm0 := Int.emod_nonneg i (show s + 2 ≠ 0 by omega)
    have hm1 := Int.emod_lt_of_pos i hw
    have hd0 : 0 ≤ i / (s + 2) := Int.ediv_nonneg hi0 (by omega)
    have hd1 : i / (s + 2) < s + 2 := Int.ediv_lt_of_lt_mul hw hi1
    exact ⟨Int.emod_add_ediv i (s + 2), hm0, by omega, hd0, by omega⟩

theorem cell_xy_inverse_witness :
    cellToXY (getOptions 4 3) (cellFromXY (getOptions 4 3) 3 5) = (3, 5) :=
  (cell_xy_inverse 4 3 (by decide)).1 3 5 (by decide) (by decide) (by decide) (by decide)

/-! ## C20: the score formula -/

/-- C20: for all counters, the total that `printScore` prints is
    `(-5)*missed + (-3)*exited + (-2)*reflected + (-1)*absorbed`; for missed 2,
    absorbed 1, reflected 3, exited 4 it is -29. -/
theorem score_formula (sc : t_score) :
    (printScore sc).2 =
      (-5) * sc.iMissedAtoms + (-3) * sc.iExited + (-2) * sc.iReflected +
        (-1) * sc.iAbsorbed ∧
    (printScore { iMissedAtoms := 2, iAbsorbed := 1, iReflected := 3, iExited := 4 }).2 = -29 := by
  constructor
  · rfl
  · decide

/-! ## C18: outcome classification and counters -/

theorem cellFromXY_nonneg {s a x y : Int} (hs : 0 ≤ s) (hx : 0 ≤ x) (hy : 0 ≤ y) :
    0 ≤ cellFromXY (getOptions s a) x y := by
  unfold cellFromXY
  simp only [getOptions_iWidth]
  have : 0 ≤ (s + 2) * y := by positivity
  omega

/-- The part of C18 that holds: in one pass of the loop of `main` on a valid
    board of size `s ≥ 1`, with an iteration bound from `4*s*s+3` on: an input
    that is no command and converts to a node in `1..4*s` is traced,
    `walkGrid` returns, and exactly one counter goes up by one while the
    others keep their value: the reflected counter when the returned cell is
    the entry cell, else the absorbed counter when it is 0, else the exited
    counter, the reported node being `getExitNode` of the returned cell. An
    entry that `getEntryNode` rejects (entry cell -1), an empty input and a
    command change no counter. -/
theorem trial_counters (s a : Int) (g : Grid) (cstr2ll : String → Int) (st : t_main)
    (csInput : String) (hs : 1 ≤ s) (hv : ValidBoard (getOptions s a) g)
    (fuel : Nat) (hf : 4 * s.toNat * s.toNat + 3 ≤ fuel) :
    (csInput.length ≠ 0 →
      ¬ (csInput.get 0 = 'e' ∨ csInput.get 0 = 'E' ∨ csInput.get 0 = 'f' ∨
        csInput.get 0 = 'F') →
      ¬ (csInput.get 0 = 'q' ∨ csInput.get 0 = 'Q') →
      ¬ (csInput.get 0 = 'b' ∨ csInput.get 0 = 'B') →
      1 ≤ cstr2ll csInput → cstr2ll csInput ≤ 4 * s →
      ∃ r st',
        walkGrid (getOptions s a) g fuel
          (getEntryNode (getOptions s a) (cstr2ll csInput) st.iDirection).1
          (getEntryNode (getOptions s a) (cstr2ll csInput) st.iDirection).2 = some r ∧
        mainLoopBody (getOptions s a) g cstr2ll fuel st csInput =
          some (MainOut.next st'
            (some (classify (getOptions s a)
              (getEntryNode (getOptions s a) (cstr2ll csInput) st.iDirection).1 r))) ∧
        (r = (getEntryNode (getOptions s a) (cstr2ll csInput) st.iDirection).1 →
          st'.tScore = { st.tScore with iReflected := st.tScore.iReflected + 1 }) ∧
        (r ≠ (getEntryNode (getOptions s a) (cstr2ll csInput) st.iDirection).1 → r = 0 →
          st'.tScore = { st.tScore with iAbsorbed := st.tScore.iAbsorbed + 1 }) ∧
        (r ≠ (getEntryNode (getOptions s a) (cstr2ll csInput) st.iDirection).1 → r ≠ 0 →
          st'.tScore = { st.tScore with iExited := st.tScore.iExited + 1 } ∧
          classify (getOptions s a)
            (getEntryNode (getOptions s a) (cstr2ll csInput) st.iDirection).1 r =
            Outcome.exited (getExitNode (getOptions s a) r))) ∧
    (csInput.length ≠ 0 →
      ¬ (csInput.get 0 = 'e' ∨ csInput.get 0 = 'E' ∨ csInput.get 0 = 'f' ∨
        csInput.get 0 = 'F') →
      ¬ (csInput.get 0 = 'q' ∨ csInput.get 0 = 'Q') →
      ¬ (csInput.get 0 = 'b' ∨ csInput.get 0 = 'B') →
      (getEntryNode (getOptions s a) (cstr2ll csInput) st.iDirection).1 = -1 →
      ∃ st', mainLoopBody (getOptions s a) g cstr2ll fuel st csInput =
          some (MainOut.next st' none) ∧ st'.tScore = st.tScore) ∧
    ((csInput.length = 0 ∨ csInput.get 0 = 'e' ∨ csInput.get 0 = 'E' ∨
        csInput.get 0 = 'f' ∨ csInput.get 0 = 'F' ∨ csInput.get 0 = 'q' ∨
        csInput.get 0 = 'Q' ∨ csInput.get 0 = 'b' ∨ csInput.get 0 = 'B') →
      mainLoopBody (getOptions s a) g cstr2ll fuel st csInput = some MainOut.exit0 ∨
      ∃ st', mainLoopBody (getOptions s a) g cstr2ll fuel st csInput =
          some (MainOut.next st' none) ∧ st'.tScore = st.tScore) := by
  refine ⟨?_, ?_, ?_⟩
  · intro hlen hc1 hc2 hc3 h1 h2
    obtain ⟨x, y, d, e, he⟩ := getEntryNode_entryState s a (cstr2ll csInput) st.iDirection hs h1 h2
    obtain ⟨-, hex, -, -, -, -, -⟩ := entryState_facts he
    unfold ExitCell at hex
    obtain ⟨r, hr, -⟩ := walkGrid_entry hv he fuel hf
    have hne : cellFromXY (getOptions s a) x y ≠ -1 := by
      have := cellFromXY_nonneg (s := s) (a := a) (x := x) (y := y) (by omega) (by omega)
        (by omega)
      omega
    have hbody : mainLoopBody (getOptions s a) g cstr2ll fuel st csInput =
        (if r = cellFromXY (getOptions s a) x y then
          some (MainOut.next
            { tScore := { st.tScore with iReflected := st.tScore.iReflected + 1 },
              iDirection := d, iCellEntry := cellFromXY (getOptions s a) x y,
              bEndOfLoop := st.bEndOfLoop }
            (some Outcome.reflected))
        else if r = 0 then
          some (MainOut.next
            { tScore := { st.tScore with iAbsorbed := st.tScore.iAbsorbed + 1 },
              iDirection := d, iCellEntry := cellFromXY (getOptions s a) x y,
              bEndOfLoop := st.bEndOfLoop }
            (some Outcome.absorbed))
        else
          some (MainOut.next
            { tScore := { st.tScore with iExited := st.tScore.iExited + 1 },
              iDirection := d, iCellEntry := cellFromXY (getOptions s a) x y,
              bEndOfLoop := st.bEndOfLoop }
            (some (Outcome.exited (getExitNode (getOptions s a) r))))) := by
      unfold mainLoopBody
      simp only [e]
      rw [if_neg hlen, if_neg hc1, if_neg hc2, if_neg hc3, if_neg hne, hr]
    rw [e, hbody]
    simp only
    by_cases c1 : r = cellFromXY (getOptions s a) x y
    · have hcl : classify (getOptions s a) (cellFromXY (getOptions s a) x y) r =
          Outcome.reflected := by
        unfold classify; rw [if_pos c1]
      refine ⟨r, t_main.mk (t_score.mk st.tScore.iMissedAtoms st.tScore.iAbsorbed (st.tScore.iReflected + 1) st.tScore.iExited)
          d (cellFromXY (getOptions s a) x y) st.bEndOfLoop, hr, ?_, fun _ => rfl, fun h => absurd c1 h,
        fun h => absurd c1 h⟩
      rw [if_pos c1, hcl]
    · by_cases c2 : r = 0
      · have hcl : classify (getOptions s a) (cellFromXY (getOptions s a) x y) r =
            Outcome.absorbed := by
          unfold classify; rw [if_neg c1, if_pos c2]
        refine ⟨r, t_main.mk (t_score.mk st.tScore.iMissedAtoms (st.tScore.iAbsorbed + 1) st.tScore.iReflected st.tScore.iExited)
          d (cellFromXY (getOptions s a) x y) st.bEndOfLoop, hr, ?_, fun h => absurd h c1, fun _ _ => rfl,
          fun _ h => absurd c2 h⟩
        rw [if_neg c1, if_pos c2, hcl]
      · have hcl : classify (getOptions s a) (cellFromXY (getOptions s a) x y) r =
            Outcome.exited (getExitNode (getOptions s a) r) := by
          unfold classify; rw [if_neg c1, if_neg c2]
        refine ⟨r, t_main.mk (t_score.mk st.tScore.iMissedAtoms st.tScore.iAbsorbed st.tScore.iReflected (st.tScore.iExited + 1))
          d (cellFromXY (getOptions s a) x y) st.bEndOfLoop, hr, ?_, fun h => absurd h c1,
          fun _ h => absurd h c2, fun _ _ => ⟨rfl, hcl⟩⟩
        rw [if_neg c1, if_neg c2, hcl]
  · intro hlen hc1 hc2 hc3 hrej
    unfold mainLoopBody
    simp only
    rw [if_neg hlen, if_neg hc1, if_neg hc2, if_neg hc3, if_pos hrej]
    exact ⟨_, rfl, rfl⟩
  · intro hcmd
    unfold mainLoopBody
    simp only
    by_cases hlen : csInput.length = 0
    · rw [if_pos hlen]
      exact Or.inr ⟨_, rfl, rfl⟩
    · rw [if_neg hlen]
      by_cases hc1 : csInput.get 0 = 'e' ∨ csInput.get 0 = 'E' ∨ csInput.get 0 = 'f' ∨
          csInput.get 0 = 'F'
      · rw [if_pos hc1]
        exact Or.inr ⟨_, rfl, rfl⟩
      · rw [if_neg hc1]
        by_cases hc2 : csInput.get 0 = 'q' ∨ csInput.get 0 = 'Q'
        · rw [if_pos hc2]
          exact Or.inl rfl
        · rw [if_neg hc2]
          have hc3 : csInput.get 0 = 'b' ∨ csInput.get 0 = 'B' := by tauto
          rw [if_pos hc3]
          exact Or.inr ⟨_, rfl, rfl⟩

theorem trial_counters_witness :
    ∃ st', mainLoopBody (getOptions 4 3) (boardWith 4 [(3, 2), (2, 4), (3, 4)]) (fun _ => 0) 67
        (t_main.mk (t_score.mk 0 0 0 0) 0 0 0) "0" =
        some (MainOut.next st' none) ∧ st'.tScore = (t_main.mk (t_score.mk 0 0 0 0) 0 0 0).tScore :=
  (trial_counters 4 3 (boardWith 4 [(3, 2), (2, 4), (3, 4)]) (fun _ => 0)
    (t_main.mk (t_score.mk 0 0 0 0) 0 0 0) "0" (by decide) (boardWith_valid 4 3 _) 67
    (by decide)).2.1 (by decide) (by decide) (by decide) (by decide) (by decide)

/-- C18: on the size-4 board with atoms at (3,2), (2,4), (3,4), from the
    initial variables of `main`: the input 16 is a trial that exits at node 3
    and leaves the direction at `DIR_DOWN`; the next input 17, a number
    outside the node range `1..16`, is not rejected but traced from cell 0,
    reported as exited at node 1, and the exited counter goes from 1 to 2. -/
theorem out_of_range_entry_counted :
    mainLoopBody (getOptions 4 3) (boardWith 4 [(3, 2), (2, 4), (3, 4)])
        (fun str => if str = "16" then 16 else 17) 67
        (t_main.mk (t_score.mk 0 0 0 0) 0 0 0) "16" =
      some (MainOut.next (t_main.mk (t_score.mk 0 0 0 1) DIR_DOWN 1 0)
        (some (Outcome.exited 3))) ∧
    mainLoopBody (getOptions 4 3) (boardWith 4 [(3, 2), (2, 4), (3, 4)])
        (fun str => if str = "16" then 16 else 17) 67
        (t_main.mk (t_score.mk 0 0 0 1) DIR_DOWN 1 0) "17" =
      some (MainOut.next (t_main.mk (t_score.mk 0 0 0 2) DIR_DOWN 0 0)
        (some (Outcome.exited 1))) := by
  decide

/-! ## C19: scoring of the guesses -/

theorem getAtomAnswersLoop_done (o : t_options) (g : Grid) (guesses : List (Int × Int))
    (i : Int) (sc : t_score) (h : ¬ i < o.iAtomNo) :
    getAtomAnswersLoop o g guesses i sc = some sc := by
  cases guesses with
  | nil => rw [getAtomAnswersLoop, if_neg h]
  | cons p rest =>
    obtain ⟨iY, iX⟩ := p
    rw [getAtomAnswersLoop, if_neg h]

theorem getAtomAnswersLoop_out (o : t_options) (g : Grid) (rest : List (Int × Int))
    (i iY iX : Int) (sc : t_score) (h : i < o.iAtomNo)
    (hr : iY < 1 ∨ iY > o.iSize ∨ iX < 1 ∨ iX > o.iSize) :
    getAtomAnswersLoop o g ((iY, iX) :: rest) i sc = getAtomAnswersLoop o g rest i sc := by
  rw [getAtomAnswersLoop, if_pos h, if_pos hr]
  have e : i - 1 + 1 = i := by ring
  rw [e]

theorem getAtomAnswersLoop_in (o : t_options) (g : Grid) (rest : List (Int × Int))
    (i iY iX : Int) (sc : t_score) (h : i < o.iAtomNo)
    (hr : ¬ (iY < 1 ∨ iY > o.iSize ∨ iX < 1 ∨ iX > o.iSize)) :
    getAtomAnswersLoop o g ((iY, iX) :: rest) i sc =
      getAtomAnswersLoop o g rest (i + 1)
        (if g (cellFromXY o iX iY) = CELL_ATOM then sc
          else { sc with iMissedAtoms := sc.iMissedAtoms + 1 }) := by
  rw [getAtomAnswersLoop, if_pos h, if_neg hr]
  split_ifs <;> rfl

/-- The result of the guessing loop from counter value `i` on, when the input
    holds enough in-range guesses. -/
theorem getAtomAnswersLoop_total (o : t_options) (g : Grid) :
    ∀ (guesses : List (Int × Int)) (i : Int) (sc : t_score),
      (o.iAtomNo - i).toNat ≤ (guesses.filter (guessInRange o)).length →
      getAtomAnswersLoop o g guesses i sc =
        some { sc with iMissedAtoms := sc.iMissedAtoms +
          ((((guesses.filter (guessInRange o)).take (o.iAtomNo - i).toNat).countP
            (guessMisses o g) : Nat) : Int) } := by
  intro guesses
  induction guesses with
  | nil =>
    intro i sc h
    have hi : ¬ i < o.iAtomNo := by
      simp only [List.filter_nil, List.length_nil, Nat.le_zero, Int.toNat_eq_zero] at h
      omega
    rw [getAtomAnswersLoop_done o g [] i sc hi]
    simp
  | cons p rest ih =>
    intro i sc h
    obtain ⟨iY, iX⟩ := p
    by_cases hi : i < o.iAtomNo
    · by_cases hr : iY < 1 ∨ iY > o.iSize ∨ iX < 1 ∨ iX > o.iSize
      · have hf : guessInRange o (iY, iX) = false := by
          unfold guessInRange
          simp only [decide_eq_false_iff_not]
          omega
        rw [List.filter_cons_of_neg (by simp [hf])] at h ⊢
        rw [getAtomAnswersLoop_out o g rest i iY iX sc hi hr]
        exact ih i sc h
      · have hf : guessInRange o (iY, iX) = true := by
          unfold guessInRange
          simp only [decide_eq_true_eq]
          omega
        have hn : (o.iAtomNo - i).toNat = (o.iAtomNo - (i + 1)).toNat + 1 := by omega
        rw [List.filter_cons_of_pos hf] at h ⊢
        rw [hn] at h ⊢
        rw [getAtomAnswersLoop_in o g rest i iY iX sc hi hr, List.take_succ_cons,
          List.countP_cons]
        rw [ih (i + 1) _ (by simpa using h)]
        by_cases hat : g (cellFromXY o iX iY) = CELL_ATOM
        · have hm : guessMisses o g (iY, iX) = false := by
            unfold guessMisses
            simp only [decide_eq_false_iff_not, not_not]
            exact hat
          rw [if_pos hat, hm]
          simp
        · have hm : guessMisses o g (iY, iX) = true := by
            unfold guessMisses
            simp only [decide_eq_true_eq]
            exact hat
          rw [if_neg hat, hm]
          simp only [if_true, Nat.cast_add, Nat.cast_one, Option.some.injEq, t_score.mk.injEq,
            and_true, true_and]
          ring
    · have h0 : (o.iAtomNo - i).toNat = 0 := by omega
      rw [getAtomAnswersLoop_done o g _ i sc hi, h0]
      simp

/-- C19: in `getAtomAnswers`, a guess with `y` or `x` outside `1..size` leaves
    the loop counter and all score counters as they are, so it is asked again;
    a guess in range uses up one of the `atomCount` slots and adds 1 to the
    missed-atom counter exactly when its cell `(x, y)` holds no atom. When the
    input holds at least `atomCount` guesses in range, the phase ends with the
    missed-atom counter raised by the number of those among the first
    `atomCount` in-range guesses whose cell holds no atom, and every other
    counter unchanged. -/
theorem guess_scoring (o : t_options) (g : Grid) (sc : t_score) :
    (∀ (rest : List (Int × Int)) (i iY iX : Int), i < o.iAtomNo →
      (iY < 1 ∨ iY > o.iSize ∨ iX < 1 ∨ iX > o.iSize) →
      getAtomAnswersLoop o g ((iY, iX) :: rest) i sc = getAtomAnswersLoop o g rest i sc) ∧
    (∀ (rest : List (Int × Int)) (i iY iX : Int), i < o.iAtomNo →
      ¬ (iY < 1 ∨ iY > o.iSize ∨ iX < 1 ∨ iX > o.iSize) →
      getAtomAnswersLoop o g ((iY, iX) :: rest) i sc =
        getAtomAnswersLoop o g rest (i + 1)
          (if g (cellFromXY o iX iY) = CELL_ATOM then sc
            else { sc with iMissedAtoms := sc.iMissedAtoms + 1 })) ∧
    (∀ guesses : List (Int × Int),
      o.iAtomNo.toNat ≤ (guesses.filter (guessInRange o)).length →
      getAtomAnswers o g guesses sc =
        some { sc with iMissedAtoms := sc.iMissedAtoms +
          ((((guesses.filter (guessInRange o)).take o.iAtomNo.toNat).countP
            (guessMisses o g) : Nat) : Int) }) := by
  refine ⟨fun rest i iY iX h hr => getAtomAnswersLoop_out o g rest i iY iX sc h hr,
    fun rest i iY iX h hr => getAtomAnswersLoop_in o g rest i iY iX sc h hr, ?_⟩
  intro guesses h
  have e : o.iAtomNo - 0 = o.iAtomNo := by ring
  have ht := getAtomAnswersLoop_total o g guesses 0 sc (by rw [e]; exact h)
  rw [e] at ht
  exact ht

/-! ## C13: reflection by two flanking atoms -/

/-- A pass of the outer loop at a cell that does not hold `CELL_BORDER`, where
    the look-ahead shows a front-side atom before and after the first turn and
    no atom after the second: two turns at the cell, then one cell ahead in
    the final direction. -/
theorem walkGridLog_pass_turn2 (o : t_options) (g : Grid) {x y d p q : Int}
    (hd : ValidDir d) (hb : g (cellFromXY o x y) ≠ CELL_BORDER)
    (hp : lookAheadRef o g x y d = p) (hlr1 : p = ATOM_LEFT ∨ p = ATOM_RIGHT)
    (hd1 : ValidDir (turnBeam p d))
    (hq : lookAheadRef o g x y (turnBeam p d) = q) (hlr2 : q = ATOM_LEFT ∨ q = ATOM_RIGHT)
    (hd2 : ValidDir (turnBeam q (turnBeam p d)))
    (hn : lookAheadRef o g x y (turnBeam q (turnBeam p d)) = ATOM_NONE)
    (f : Nat) (hf : 1 ≤ f) (log : List (Int × Int × Int)) :
    walkGridLog o g (f + 1) (cellFromXY o x y) d log =
      if g (cellFromXY o (x + dirDX (turnBeam q (turnBeam p d)))
          (y + dirDY (turnBeam q (turnBeam p d)))) = CELL_BORDER then
        some (cellFromXY o (x + dirDX (turnBeam q (turnBeam p d)))
            (y + dirDY (turnBeam q (turnBeam p d))),
          log ++ [(cellFromXY o x y, d, turnBeam p d)] ++
            [(cellFromXY o x y, turnBeam p d, turnBeam q (turnBeam p d))])
      else walkGridLog o g f
        (cellFromXY o (x + dirDX (turnBeam q (turnBeam p d)))
          (y + dirDY (turnBeam q (turnBeam p d))))
        (turnBeam q (turnBeam p d))
        (log ++ [(cellFromXY o x y, d, turnBeam p d)] ++
          [(cellFromXY o x y, turnBeam p d, turnBeam q (turnBeam p d))]) := by
  obtain ⟨k, rfl⟩ : ∃ k, f = k + 1 := ⟨f - 1, by omega⟩
  have hne : p ≠ ATOM_CENTER := by
    rcases hlr1 with h | h <;> rw [h] <;> decide
  rw [walkGridLog_succ, lookAhead_cell o g x y hd, hp, if_neg hne,
    turnLoopLog_turn _ _ _ _ _ _ _ hlr1, if_neg hb, lookAhead_cell o g x y hd1, hq,
    turnLoopLog_turn _ _ _ _ _ _ _ hlr2, if_neg hb, lookAhead_cell o g x y hd2, hn,
    turnLoopLog_stop _ _ _ _ _ _ _ (by decide)]
  simp only
  rw [goAhead_cell o x y hd2]

/-- C13, as stated, fails for `ax = 1`: on the size-3 board with atoms at
    `(1, 1)` and `(1, 3)` the beam entered at node 2 makes one turn, from Right
    to Down at its entry cell `(0, 2)`, and not two. -/
theorem flanking_atoms_one_turn_at_entry :
    walkGridLog (getOptions 3 2) (boardWith 3 [(1, 1), (1, 3)]) 10
        (cellFromXY (getOptions 3 2) 0 2) DIR_RIGHT [] =
      some (cellFromXY (getOptions 3 2) 0 2,
        [(cellFromXY (getOptions 3 2) 0 2, DIR_RIGHT, DIR_DOWN)]) ∧
    walkGridLog (getOptions 3 2) (boardWith 3 [(1, 1), (1, 3)]) 10
        (cellFromXY (getOptions 3 2) 0 2) DIR_RIGHT [] ≠
      some (cellFromXY (getOptions 3 2) 0 2,
        [(cellFromXY (getOptions 3 2) 0 2, DIR_RIGHT, DIR_DOWN),
          (cellFromXY (getOptions 3 2) 0 2, DIR_DOWN, DIR_LEFT)]) := by
  decide

/-- C13, amended: for every size `s ≥ 3`, row `2 ≤ ay ≤ s-1` and column
    `1 ≤ ax ≤ s`, on a valid board whose only atoms are at `(ax, ay-1)` and
    `(ax, ay+1)`, the beam entered at the left-edge node `ay` is reflected:
    `walkGrid` returns the entry cell `(0, ay)`. For `ax ≥ 2` the beam makes
    exactly two turns, both at cell `(ax-1, ay)` (Right to Down, Down to Left),
    and walks back; for `ax = 1` it makes a single turn (Right to Down) at the
    entry cell and `walkGrid` returns at once. This holds for every iteration
    bound from `2*ax` on. -/
theorem flanking_atoms_reflect (s a ax ay dir0 : Int) (g : Grid) (hs : 3 ≤ s)
    (hv : ValidBoard (getOptions s a) g)
    (hax1 : 1 ≤ ax) (haxs : ax ≤ s) (hay2 : 2 ≤ ay) (hays : ay ≤ s - 1)
    (honly : ∀ x y : Int, 1 ≤ x → x ≤ s → 1 ≤ y → y ≤ s →
      (isAtom (getOptions s a) g x y ↔ (x = ax ∧ (y = ay - 1 ∨ y = ay + 1))))
    (fuel : Nat) (hf : (2 * ax).toNat ≤ fuel) :
    getEntryNode (getOptions s a) ay dir0 = (cellFromXY (getOptions s a) 0 ay, DIR_RIGHT) ∧
    walkGridLog (getOptions s a) g fuel (cellFromXY (getOptions s a) 0 ay) DIR_RIGHT [] =
      some (cellFromXY (getOptions s a) 0 ay,
        if ax = 1 then [(cellFromXY (getOptions s a) 0 ay, DIR_RIGHT, DIR_DOWN)]
        else [(cellFromXY (getOptions s a) (ax - 1) ay, DIR_RIGHT, DIR_DOWN),
          (cellFromXY (getOptions s a) (ax - 1) ay, DIR_DOWN, DIR_LEFT)]) ∧
    walkGrid (getOptions s a) g fuel (getEntryNode (getOptions s a) ay dir0).1
      (getEntryNode (getOptions s a) ay dir0).2 =
      some (getEntryNode (getOptions s a) ay dir0).1 ∧
    classify (getOptions s a) (getEntryNode (getOptions s a) ay dir0).1
      (getEntryNode (getOptions s a) ay dir0).1 = Outcome.reflected := by
  have he : getEntryNode (getOptions s a) ay dir0 =
      (cellFromXY (getOptions s a) 0 ay, DIR_RIGHT) := by
    rw [getEntryNode_of_node s a ay dir0 (by omega) (by omega) (by omega), if_pos (by omega)]
  have hdr : ValidDir DIR_RIGHT := by decide
  have hdd : ValidDir DIR_DOWN := by decide
  have hdl : ValidDir DIR_LEFT := by decide
  have ex : dirDX DIR_RIGHT = 1 := by decide
  have ey : dirDY DIR_RIGHT = 0 := by decide
  have dx : dirDX DIR_DOWN = 0 := by decide
  have dy : dirDY DIR_DOWN = 1 := by decide
  have lx : dirDX DIR_LEFT = -1 := by decide
  have ly : dirDY DIR_LEFT = 0 := by decide
  have t1 : turnBeam ATOM_LEFT DIR_RIGHT = DIR_DOWN := by decide
  have t2 : turnBeam ATOM_LEFT DIR_DOWN = DIR_LEFT := by decide
  have hno : ∀ X Y : Int, 0 ≤ X → X ≤ s + 1 → 0 ≤ Y → Y ≤ s + 1 →
      (X ≠ ax ∨ (Y ≠ ay - 1 ∧ Y ≠ ay + 1)) → ¬ isAtom (getOptions s a) g X Y := by
    intro X Y hX0 hX1 hY0 hY1 hne
    by_cases hi : 1 ≤ X ∧ X ≤ s ∧ 1 ≤ Y ∧ Y ≤ s
    · rw [honly X Y hi.1 hi.2.1 hi.2.2.1 hi.2.2.2]
      omega
    · exact valid_ring_not_atom hv hX0 hX1 hY0 hY1 (by omega)
  have hup : isAtom (getOptions s a) g ax (ay - 1) :=
    (honly ax (ay - 1) (by omega) haxs (by omega) (by omega)).mpr ⟨rfl, Or.inl rfl⟩
  have hdn : isAtom (getOptions s a) g ax (ay + 1) :=
    (honly ax (ay + 1) (by omega) haxs (by omega) (by omega)).mpr ⟨rfl, Or.inr rfl⟩
  have hlog : walkGridLog (getOptions s a) g fuel (cellFromXY (getOptions s a) 0 ay)
      DIR_RIGHT [] =
      some (cellFromXY (getOptions s a) 0 ay,
        if ax = 1 then [(cellFromXY (getOptions s a) 0 ay, DIR_RIGHT, DIR_DOWN)]
        else [(cellFromXY (getOptions s a) (ax - 1) ay, DIR_RIGHT, DIR_DOWN),
          (cellFromXY (getOptions s a) (ax - 1) ay, DIR_DOWN, DIR_LEFT)]) := by
    by_cases hone : ax = 1
    · -- the atoms flank the first cell: one turn at the entry cell
      subst hone
      have hF : ¬ isAtom (getOptions s a) g (0 + dirDX DIR_RIGHT) (ay + dirDY DIR_RIGHT) := by
        rw [ex, ey]; exact hno _ _ (by omega) (by omega) (by omega) (by omega) (by omega)
      have hL : isAtom (getOptions s a) g (0 + dirDX DIR_RIGHT + dirDY DIR_RIGHT)
          (ay + dirDY DIR_RIGHT - dirDX DIR_RIGHT) := by
        rw [ex, ey]; exact isAtom_of_eq hup (by omega) (by omega)
      obtain ⟨k, rfl⟩ : ∃ k, fuel = k + 1 := ⟨fuel - 1, by omega⟩
      rw [walkGridLog_pass_reflect _ g hdr
        (valid_ring hv (by omega) (by omega) (by omega) (by omega) (by omega)) hF (Or.inl hL),
        lookAheadRef_left hF hL, t1, if_pos rfl]
      rfl
    · rw [if_neg hone]
      have c1 : (((ax - 1).toNat : Nat) : Int) = ax - 1 := Int.toNat_of_nonneg (by omega)
      have c2 : (((ax - 3).toNat : Nat) : Int) = ax - 3 ∨ ax = 2 := by
        by_cases h : ax = 2
        · exact Or.inr h
        · exact Or.inl (Int.toNat_of_nonneg (by omega))
      have hcor : ∀ j : Int, 1 ≤ j → j ≤ (ax - 1).toNat →
          ¬ isAtom (getOptions s a) g (0 + j * dirDX DIR_RIGHT) (ay + j * dirDY DIR_RIGHT) ∧
          ¬ isAtom (getOptions s a) g (0 + j * dirDX DIR_RIGHT + dirDY DIR_RIGHT)
            (ay + j * dirDY DIR_RIGHT - dirDX DIR_RIGHT) ∧
          ¬ isAtom (getOptions s a) g (0 + j * dirDX DIR_RIGHT - dirDY DIR_RIGHT)
            (ay + j * dirDY DIR_RIGHT + dirDX DIR_RIGHT) ∧
          g (cellFromXY (getOptions s a) (0 + j * dirDX DIR_RIGHT)
            (ay + j * dirDY DIR_RIGHT)) ≠ CELL_BORDER := by
        intro j hj1 hjk
        rw [ex, ey]
        exact ⟨hno _ _ (by omega) (by omega) (by omega) (by omega) (by omega),
          hno _ _ (by omega) (by omega) (by omega) (by omega) (by omega),
          hno _ _ (by omega) (by omega) (by omega) (by omega) (by omega),
          valid_inner_not_border hv (by omega) (by omega) (by omega) (by omega)⟩
      have hl1 : lookAheadRef (getOptions s a) g (ax - 1) ay DIR_RIGHT = ATOM_LEFT := by
        apply lookAheadRef_left
        · rw [ex, ey]; exact hno _ _ (by omega) (by omega) (by omega) (by omega) (by omega)
        · rw [ex, ey]; exact isAtom_of_eq hup (by omega) (by omega)
      have hl2 : lookAheadRef (getOptions s a) g (ax - 1) ay DIR_DOWN = ATOM_LEFT := by
        apply lookAheadRef_left
        · rw [dx, dy]; exact hno _ _ (by omega) (by omega) (by omega) (by omega) (by omega)
        · rw [dx, dy]; exact isAtom_of_eq hdn (by omega) (by omega)
      have hl3 : lookAheadRef (getOptions s a) g (ax - 1) ay DIR_LEFT = ATOM_NONE := by
        apply lookAheadRef_none
        · rw [lx, ly]; exact hno _ _ (by omega) (by omega) (by omega) (by omega) (by omega)
        · rw [lx, ly]; exact hno _ _ (by omega) (by omega) (by omega) (by omega) (by omega)
        · rw [lx, ly]; exact hno _ _ (by omega) (by omega) (by omega) (by omega) (by omega)
      have hturn := walkGridLog_pass_turn2 (getOptions s a) g hdr
        (valid_inner_not_border hv (x := ax - 1) (y := ay) (by omega) (by omega) (by omega)
          (by omega))
        hl1 (Or.inl rfl) (by rw [t1]; exact hdd) (by rw [t1]; exact hl2) (Or.inl rfl)
        (by rw [t1, t2]; exact hdl) (by rw [t1, t2]; exact hl3)
      simp only [t1, t2, lx, ly] at hturn
      rcases c2 with c2 | c2
      · -- the atoms are beyond column 2: the beam walks back along the row
        have ef : fuel = ((fuel - (2 * ax).toNat + 1 + 1 + 1 + (ax - 3).toNat) + 1) +
            (ax - 1).toNat := by omega
        have hback : ∀ j : Int, 1 ≤ j → j ≤ (ax - 3).toNat →
            ¬ isAtom (getOptions s a) g (ax - 1 + -1 + j * dirDX DIR_LEFT)
              (ay + 0 + j * dirDY DIR_LEFT) ∧
            ¬ isAtom (getOptions s a) g (ax - 1 + -1 + j * dirDX DIR_LEFT + dirDY DIR_LEFT)
              (ay + 0 + j * dirDY DIR_LEFT - dirDX DIR_LEFT) ∧
            ¬ isAtom (getOptions s a) g (ax - 1 + -1 + j * dirDX DIR_LEFT - dirDY DIR_LEFT)
              (ay + 0 + j * dirDY DIR_LEFT + dirDX DIR_LEFT) ∧
            g (cellFromXY (getOptions s a) (ax - 1 + -1 + j * dirDX DIR_LEFT)
              (ay + 0 + j * dirDY DIR_LEFT)) ≠ CELL_BORDER := by
          intro j hj1 hjk
          rw [lx, ly]
          exact ⟨hno _ _ (by omega) (by omega) (by omega) (by omega) (by omega),
            hno _ _ (by omega) (by omega) (by omega) (by omega) (by omega),
            hno _ _ (by omega) (by omega) (by omega) (by omega) (by omega),
            valid_inner_not_border hv (by omega) (by omega) (by omega) (by omega)⟩
        rw [ef, walkGridLog_straight _ g hdr (ax - 1).toNat 0 ay _ [] hcor, c1,
          cell_congr _ (x := ax - 1) (y := ay) (by rw [ex]; omega) (by rw [ey]; omega),
          hturn _ (by omega),
          if_neg (valid_inner_not_border hv (by omega) (by omega) (by omega) (by omega)),
          walkGridLog_straight _ g hdl (ax - 3).toNat _ _ _ _ hback, c2,
          walkGridLog_pass_none _ g hdl
            (by rw [lx, ly]; exact hno _ _ (by omega) (by omega) (by omega) (by omega) (by omega))
            (by rw [lx, ly]; exact hno _ _ (by omega) (by omega) (by omega) (by omega) (by omega))
            (by rw [lx, ly]; exact hno _ _ (by omega) (by omega) (by omega) (by omega) (by omega)),
          lx, ly,
          if_pos (valid_ring hv (by omega) (by omega) (by omega) (by omega) (by omega)),
          cell_congr _ (x := 0) (y := ay) (by omega) (by omega)]
        rfl
      · -- the atoms are in column 2: the cell behind the turning cell is the entry cell
        subst c2
        have ef : fuel = ((fuel - 2) + 1) + (2 - 1 : Int).toNat := by
          have : (2 - 1 : Int).toNat = 1 := by decide
          have : (2 * 2 : Int).toNat = 4 := by decide
          omega
        rw [ef, walkGridLog_straight _ g hdr (2 - 1 : Int).toNat 0 ay _ [] hcor, c1,
          cell_congr _ (x := 2 - 1) (y := ay) (by rw [ex]; omega) (by rw [ey]; omega),
          hturn _ (by
            have : (2 * 2 : Int).toNat = 4 := by decide
            omega),
          if_pos (valid_ring hv (by omega) (by omega) (by omega) (by omega) (by omega)),
          cell_congr _ (x := 0) (y := ay) (by omega) (by omega)]
        rfl
  refine ⟨he, hlog, ?_, ?_⟩
  · rw [he]
    exact walkGrid_of_log hlog
  · unfold classify
    rw [if_pos rfl]

theorem flanking_atoms_reflect_witness :
    walkGridLog (getOptions 4 3) (boardWith 4 [(3, 2), (3, 4)]) 6
        (cellFromXY (getOptions 4 3) 0 3) DIR_RIGHT [] =
      some (cellFromXY (getOptions 4 3) 0 3,
        if (3 : Int) = 1 then [(cellFromXY (getOptions 4 3) 0 3, DIR_RIGHT, DIR_DOWN)]
        else [(cellFromXY (getOptions 4 3) (3 - 1) 3, DIR_RIGHT, DIR_DOWN),
          (cellFromXY (getOptions 4 3) (3 - 1) 3, DIR_DOWN, DIR_LEFT)]) :=
  (flanking_atoms_reflect 4 3 3 3 DIR_NONE (boardWith 4 [(3, 2), (3, 4)]) (by decide)
    (boardWith_valid 4 3 _) (by decide) (by decide) (by decide) (by decide)
    (fun x y hx0 hx1 hy0 hy1 => by
      rw [boardWith_isAtom 4 3 _ hx0 hx1 hy0 hy1]
      simp only [List.mem_cons, Prod.mk.injEq, List.mem_singleton, List.not_mem_nil, or_false]
      omega)
    6 (by decide)).2.1

/-! ## C17: the board after `createBoard` -/

/-- A fold of steps, each of which leaves the index `j` alone, leaves `j`
    alone. -/
theorem foldl_steps_out {κ : Type} (F : κ → Grid → Grid) (S : κ → Int → Prop)
    (hout : ∀ k g j, ¬ S k j → F k g j = g j) :
    ∀ (l : List κ) (g : Grid) (j : Int), (∀ k ∈ l, ¬ S k j) →
      (l.foldl (fun g k => F k g) g) j = g j := by
  intro l
  induction l with
  | nil => intro g j _; rfl
  | cons k l ih =>
    intro g j h
    rw [List.foldl_cons, ih (F k g) j (fun k' hk' => h k' (List.mem_cons_of_mem _ hk'))]
    exact hout k g j (h k (List.mem_cons_self _ _))

/-- A fold of steps, where only the step `k` writes the index `j` and writes
    `V k j` there, ends with `V k j` at `j`. -/
theorem foldl_steps_in {κ : Type} (F : κ → Grid → Grid) (S : κ → Int → Prop)
    (V : κ → Int → Int) (hin : ∀ k g j, S k j → F k g j = V k j)
    (hout : ∀ k g j, ¬ S k j → F k g j = g j) :
    ∀ (l : List κ) (g : Grid) (k : κ) (j : Int), k ∈ l → S k j →
      (∀ k' ∈ l, S k' j → k' = k) → (l.foldl (fun g k => F k g) g) j = V k j := by
  intro l
  induction l with
  | nil => intro g k j hk; exact absurd hk (List.not_mem_nil _)
  | cons k0 l ih =>
    intro g k j hk hS huniq
    rw [List.foldl_cons]
    by_cases hkl : k ∈ l
    · exact ih (F k0 g) k j hkl hS (fun k' hk' => huniq k' (List.mem_cons_of_mem _ hk'))
    · have hk0 : k = k0 := by
        rcases List.mem_cons.mp hk with h | h
        · exact h
        · exact absurd h hkl
      subst hk0
      rw [foldl_steps_out F S hout l (F k g) j (fun k' hk' hS' =>
        hkl (huniq k' (List.mem_cons_of_mem _ hk') hS' ▸ hk'))]
      exact hin k g j hS

theorem cellFromXY_lt {s a x y : Int} (hx0 : 0 ≤ x) (hx1 : x ≤ s + 1) (hy0 : 0 ≤ y)
    (hy1 : y ≤ s + 1) :
    0 ≤ cellFromXY (getOptions s a) x y ∧
      cellFromXY (getOptions s a) x y < (s + 2) * (s + 2) := by
  unfold cellFromXY
  simp only [getOptions_iWidth]
  have h0 : 0 ≤ (s + 2) * y := Int.mul_nonneg (by omega) hy0
  constructor
  · omega
  · nlinarith

/-- Every index of the grid is the index of a cell inside the grid. -/
theorem index_is_cell {s a i : Int} (hw : 0 < s + 2) (hi0 : 0 ≤ i)
    (hi1 : i < (s + 2) * (s + 2)) :
    ∃ x y, 0 ≤ x ∧ x ≤ s + 1 ∧ 0 ≤ y ∧ y ≤ s + 1 ∧ i = cellFromXY (getOptions s a) x y := by
  refine ⟨i % (s + 2), i / (s + 2), Int.emod_nonneg i (by omega), ?_,
    Int.ediv_nonneg hi0 (by omega), ?_, ?_⟩
  · have := Int.emod_lt_of_pos i hw
    omega
  · have := Int.ediv_lt_of_lt_mul hw hi1
    omega
  · unfold cellFromXY
    simp only [getOptions_iWidth]
    exact (Int.emod_add_ediv i (s + 2)).symm

theorem createBoardRow_in (s a : Int) (g : Grid) (y : Int) (x : Nat) (hx : x < (s + 2).toNat) :
    createBoardRow (getOptions s a) y g (cellFromXY (getOptions s a) x y) =
      if (x : Int) = 0 ∨ (x : Int) = (getOptions s a).iWidth - 1 ∨ y = 0 ∨
          y = (getOptions s a).iWidth - 1 then CELL_BORDER else CELL_EMPTY := by
  unfold createBoardRow
  refine foldl_steps_in
    (fun (iX : Nat) (g : Grid) =>
      if (iX : Int) = 0 ∨ (iX : Int) = (getOptions s a).iWidth - 1 ∨ y = 0 ∨
          y = (getOptions s a).iWidth - 1 then
        Function.update g (cellFromXY (getOptions s a) iX y) CELL_BORDER
      else Function.update g (cellFromXY (getOptions s a) iX y) CELL_EMPTY)
    (fun (iX : Nat) (j : Int) => j = cellFromXY (getOptions s a) iX y)
    (fun (iX : Nat) (_ : Int) =>
      if (iX : Int) = 0 ∨ (iX : Int) = (getOptions s a).iWidth - 1 ∨ y = 0 ∨
          y = (getOptions s a).iWidth - 1 then CELL_BORDER else CELL_EMPTY)
    ?_ ?_ _ g x _ (List.mem_range.mpr hx) rfl ?_
  · intro k g j hj
    subst hj
    simp only
    split_ifs <;> exact Function.update_same _ _ _
  · intro k g j hj
    simp only
    split_ifs <;> exact Function.update_noteq hj _ _
  · intro k' _ hk'
    unfold cellFromXY at hk'
    omega

theorem createBoardRow_out (s a : Int) (g : Grid) (y j : Int)
    (hj : ∀ x : Nat, x < (s + 2).toNat → j ≠ cellFromXY (getOptions s a) x y) :
    createBoardRow (getOptions s a) y g j = g j := by
  unfold createBoardRow
  refine foldl_steps_out
    (fun (iX : Nat) (g : Grid) =>
      if (iX : Int) = 0 ∨ (iX : Int) = (getOptions s a).iWidth - 1 ∨ y = 0 ∨
          y = (getOptions s a).iWidth - 1 then
        Function.update g (cellFromXY (getOptions s a) iX y) CELL_BORDER
      else Function.update g (cellFromXY (getOptions s a) iX y) CELL_EMPTY)
    (fun (iX : Nat) (j : Int) => j = cellFromXY (getOptions s a) iX y)
    ?_ _ g j ?_
  · intro k g j hj
    simp only
    split_ifs <;> exact Function.update_noteq hj _ _
  · intro k hk
    exact hj k (List.mem_range.mp hk)

theorem createBoardDefault_in_nat (s a : Int) (g : Grid) (x y : Nat)
    (hx : x < (s + 2).toNat) (hy : y < (s + 2).toNat) :
    createBoardDefault (getOptions s a) g (cellFromXY (getOptions s a) x y) =
      if (x : Int) = 0 ∨ (x : Int) = s + 1 ∨ (y : Int) = 0 ∨ (y : Int) = s + 1 then
        CELL_BORDER else CELL_EMPTY := by
  unfold createBoardDefault
  have key := foldl_steps_in
    (fun (iY : Nat) (g : Grid) => createBoardRow (getOptions s a) iY g)
    (fun (iY : Nat) (j : Int) =>
      ∃ x : Nat, x < (s + 2).toNat ∧ j = cellFromXY (getOptions s a) x iY)
    (fun (iY : Nat) (j : Int) =>
      if j - (s + 2) * iY = 0 ∨ j - (s + 2) * iY = s + 1 ∨ (iY : Int) = 0 ∨
          (iY : Int) = s + 1 then CELL_BORDER else CELL_EMPTY)
    ?_ ?_ (List.range (getOptions s a).iWidth.toNat) g y
    (cellFromXY (getOptions s a) x y) (List.mem_range.mpr hy) ⟨x, hx, rfl⟩ ?_
  · rw [key]
    have hc : cellFromXY (getOptions s a) x y - (s + 2) * y = x := by
      unfold cellFromXY
      simp only [getOptions_iWidth]
      ring
    simp only [hc]
  · rintro k g j ⟨x', hx', rfl⟩
    simp only
    rw [createBoardRow_in s a g k x' hx']
    have hc : cellFromXY (getOptions s a) x' k - (s + 2) * k = x' := by
      unfold cellFromXY
      simp only [getOptions_iWidth]
      ring
    rw [hc]
    simp only [getOptions_iWidth]
    have e1 : s + 2 - 1 = s + 1 := by ring
    simp only [e1]
  · intro k g j hj
    exact createBoardRow_out s a g k j (fun x' hx' hE => hj ⟨x', hx', hE⟩)
  · rintro k' hk' ⟨x', hx', hE⟩
    have hk2 := List.mem_range.mp hk'
    simp only [getOptions_iWidth] at hk2
    by_contra hne
    have hne2 : (y : Int) ≠ (k' : Int) := fun h => hne (by omega)
    exact cellFromXY_ne (s := s) (a := a) (x := x) (y := y) (u := x') (v := k')
      (by omega) (by omega) (by omega) (by omega) (by omega) (by omega) (Or.inr hne2) hE

theorem createBoardDefault_in (s a : Int) (g : Grid) {x y : Int}
    (hx0 : 0 ≤ x) (hx1 : x ≤ s + 1) (hy0 : 0 ≤ y) (hy1 : y ≤ s + 1) :
    createBoardDefault (getOptions s a) g (cellFromXY (getOptions s a) x y) =
      if x = 0 ∨ x = s + 1 ∨ y = 0 ∨ y = s + 1 then CELL_BORDER else CELL_EMPTY := by
  have h := createBoardDefault_in_nat s a g x.toNat y.toNat (by omega) (by omega)
  rw [Int.toNat_of_nonneg hx0, Int.toNat_of_nonneg hy0] at h
  exact h

theorem createBoardDefault_out (s a : Int) (g : Grid) (j : Int)
    (hj : ¬ (0 ≤ j ∧ j < (s + 2) * (s + 2))) :
    createBoardDefault (getOptions s a) g j = g j := by
  unfold createBoardDefault
  refine foldl_steps_out
    (fun (iY : Nat) (g : Grid) => createBoardRow (getOptions s a) iY g)
    (fun (iY : Nat) (j : Int) =>
      ∃ x : Nat, x < (s + 2).toNat ∧ j = cellFromXY (getOptions s a) x iY)
    ?_ _ g j ?_
  · intro k g j hj
    exact createBoardRow_out s a g k j (fun x' hx' hE => hj ⟨x', hx', hE⟩)
  · rintro k hk ⟨x', hx', hE⟩
    have hk2 := List.mem_range.mp hk
    simp only [getOptions_iWidth] at hk2
    apply hj
    rw [hE]
    exact cellFromXY_lt (by omega) (by omega) (by omega) (by omega)

theorem createBoardDefault_valid (s a : Int) (g : Grid) :
    ValidBoard (getOptions s a) (createBoardDefault (getOptions s a) g) := by
  intro x y hx0 hx1 hy0 hy1
  simp only [getOptions_iWidth] at hx1 hy1 ⊢
  rw [createBoardDefault_in s a g hx0 (by omega) hy0 (by omega)]
  have e1 : s + 2 - 1 = s + 1 := by ring
  simp only [e1]
  split_ifs
  · rfl
  · exact Or.inl rfl

theorem countAtoms_eq_zero (s a : Int) (hw : 0 < s + 2) (g : Grid)
    (h : ∀ x y : Int, 0 ≤ x → x ≤ s + 1 → 0 ≤ y → y ≤ s + 1 →
      g (cellFromXY (getOptions s a) x y) ≠ CELL_ATOM) :
    countAtoms (getOptions s a) g = 0 := by
  unfold countAtoms
  rw [List.countP_eq_zero]
  intro i hi
  have hi2 := List.mem_range.mp hi
  simp only [getOptions_iCellNo] at hi2
  have hlt : (i : Int) < (s + 2) * (s + 2) := by omega
  obtain ⟨x, y, hx0, hx1, hy0, hy1, hE⟩ := index_is_cell (a := a) hw (Int.ofNat_nonneg i) hlt
  rw [hE]
  simpa using h x y hx0 hx1 hy0 hy1

theorem countP_update (g : Grid) (c : Int) (hc0 : 0 ≤ c) (hc : g c ≠ CELL_ATOM) : ∀ n : Nat,
    (List.range n).countP (fun (i : Nat) => decide (Function.update g c CELL_ATOM (i : Int) = CELL_ATOM)) =
      (List.range n).countP (fun (i : Nat) => decide (g (i : Int) = CELL_ATOM)) +
        (if c < (n : Int) then 1 else 0) := by
  intro n
  induction n with
  | zero =>
    have h : ¬ c < ((0 : Nat) : Int) := by simp only [Nat.cast_zero]; omega
    simp only [List.range_zero, List.countP_nil, if_neg h]
  | succ n ih =>
    rw [List.range_succ, List.countP_append, List.countP_append, ih,
      List.countP_singleton, List.countP_singleton]
    by_cases hn : (n : Int) = c
    · have h1 : Function.update g c CELL_ATOM (n : Int) = CELL_ATOM := by
        rw [hn]; exact Function.update_same _ _ _
      have h2 : ¬ g (n : Int) = CELL_ATOM := by rw [hn]; exact hc
      have h3 : ¬ c < (n : Int) := by omega
      have h4 : c < ((n + 1 : Nat) : Int) := by push_cast; omega
      simp only [h1, h2, if_neg h3, if_pos h4, decide_True, decide_False, if_true]
      simp
    · have h1 : Function.update g c CELL_ATOM (n : Int) = g (n : Int) :=
        Function.update_noteq hn _ _
      rw [h1]
      by_cases h3 : c < (n : Int)
      · have h4 : c < ((n + 1 : Nat) : Int) := by push_cast; omega
        rw [if_pos h3, if_pos h4]
        omega
      · have h4 : ¬ c < ((n + 1 : Nat) : Int) := by push_cast; omega
        rw [if_neg h3, if_neg h4]
        omega

theorem countAtoms_update (s a : Int) (g : Grid) (c : Int) (hc0 : 0 ≤ c)
    (hc1 : c < (s + 2) * (s + 2)) (hc : g c ≠ CELL_ATOM) :
    countAtoms (getOptions s a) (Function.update g c CELL_ATOM) =
      countAtoms (getOptions s a) g + 1 := by
  unfold countAtoms
  rw [countP_update g c hc0 hc]
  have h : c < (((getOptions s a).iCellNo.toNat : Nat) : Int) := by
    simp only [getOptions_iCellNo]
    omega
  rw [if_pos h]

theorem validBoard_update (s a : Int) (g : Grid) (hv : ValidBoard (getOptions s a) g)
    {x y : Int} (hx0 : 1 ≤ x) (hx1 : x ≤ s) (hy0 : 1 ≤ y) (hy1 : y ≤ s) :
    ValidBoard (getOptions s a)
      (Function.update g (cellFromXY (getOptions s a) x y) CELL_ATOM) := by
  intro u v hu0 hu1 hv0 hv1
  simp only [getOptions_iWidth] at hu1 hv1
  by_cases he : u = x ∧ v = y
  · obtain ⟨rfl, rfl⟩ := he
    have c : ¬ (u = 0 ∨ u = (getOptions s a).iWidth - 1 ∨ v = 0 ∨
        v = (getOptions s a).iWidth - 1) := by
      simp only [getOptions_iWidth]; omega
    rw [if_neg c]
    exact Or.inr (Function.update_same _ _ _)
  · have hne : cellFromXY (getOptions s a) u v ≠ cellFromXY (getOptions s a) x y :=
      cellFromXY_ne hu0 (by omega) hv0 (by omega) (by omega) (by omega) (by omega)
    rw [Function.update_noteq hne]
    exact hv u v hu0 (by simp only [getOptions_iWidth]; omega) hv0
      (by simp only [getOptions_iWidth]; omega)

theorem drawEmptyCell_spec (o : t_options) (g : Grid) :
    ∀ (draws : List Int) (c0 c : Int) (rest : List Int),
      drawEmptyCell o g draws c0 = some (c, rest) →
        g c = CELL_EMPTY ∧ (c = c0 ∨ ∃ r ∈ draws, c = Int.tmod r o.iCellNo) ∧
          (∀ r ∈ rest, r ∈ draws) := by
  intro draws
  induction draws with
  | nil =>
    intro c0 c rest h
    unfold drawEmptyCell at h
    by_cases he : g c0 ≠ CELL_EMPTY
    · rw [if_pos he] at h
      exact absurd h (by simp)
    · rw [if_neg he] at h
      simp only [Option.some.injEq, Prod.mk.injEq] at h
      obtain ⟨rfl, rfl⟩ := h
      exact ⟨not_not.mp he, Or.inl rfl, fun r hr => hr⟩
  | cons r0 l ih =>
    intro c0 c rest h
    unfold drawEmptyCell at h
    by_cases he : g c0 ≠ CELL_EMPTY
    · rw [if_pos he] at h
      obtain ⟨h1, h2, h3⟩ := ih _ c rest h
      refine ⟨h1, Or.inr ?_, fun r hr => List.mem_cons_of_mem _ (h3 r hr)⟩
      rcases h2 with h2 | ⟨r, hr, h2⟩
      · exact ⟨r0, List.mem_cons_self _ _, h2⟩
      · exact ⟨r, List.mem_cons_of_mem _ hr, h2⟩
    · rw [if_neg he] at h
      simp only [Option.some.injEq, Prod.mk.injEq] at h
      obtain ⟨rfl, rfl⟩ := h
      exact ⟨not_not.mp he, Or.inl rfl, fun r hr => hr⟩

/-- The cell picked by the placement loop of `createBoard` on a valid board is
    an interior cell that holds `CELL_EMPTY`. -/
theorem drawEmptyCell_interior (s a : Int) (hs : 1 ≤ s) (g : Grid)
    (hv : ValidBoard (getOptions s a) g) (draws : List Int) (hd : ∀ r ∈ draws, 0 ≤ r)
    (c : Int) (rest : List Int)
    (h : drawEmptyCell (getOptions s a) g draws 0 = some (c, rest)) :
    g c = CELL_EMPTY ∧ (∀ r ∈ rest, 0 ≤ r) ∧
      ∃ x y, 1 ≤ x ∧ x ≤ s ∧ 1 ≤ y ∧ y ≤ s ∧ c = cellFromXY (getOptions s a) x y := by
  obtain ⟨h1, h2, h3⟩ := drawEmptyCell_spec _ g draws 0 c rest h
  have hpos : (0 : Int) < (s + 2) * (s + 2) := by positivity
  have hc : 0 ≤ c ∧ c < (s + 2) * (s + 2) := by
    rcases h2 with h2 | ⟨r, hr, h2⟩
    · rw [h2]; exact ⟨le_refl _, hpos⟩
    · rw [h2, getOptions_iCellNo]
      exact ⟨Int.tmod_nonneg _ (hd r hr), Int.tmod_lt_of_pos _ hpos⟩
  obtain ⟨x, y, hx0, hx1, hy0, hy1, hE⟩ := index_is_cell (a := a) (by omega) hc.1 hc.2
  refine ⟨h1, fun r hr => hd r (h3 r hr), x, y, ?_⟩
  have hb : g (cellFromXY (getOptions s a) x y) ≠ CELL_BORDER := by
    rw [← hE, h1]; decide
  obtain ⟨i1, i2, i3, i4⟩ := valid_not_border_inner hv hx0 hx1 hy0 hy1 hb
  exact ⟨i1, i2, i3, i4, hE⟩

theorem placeAtoms_inv (s a : Int) (hs : 1 ≤ s) (g0 : Grid) :
    ∀ (n : Nat) (g : Grid) (draws : List Int) (k : Nat) (g1 : Grid) (rest : List Int),
      (∀ r ∈ draws, 0 ≤ r) → ValidBoard (getOptions s a) g →
      countAtoms (getOptions s a) g = k →
      (∀ j : Int, ¬ (0 ≤ j ∧ j < (s + 2) * (s + 2)) → g j = g0 j) →
      placeAtoms (getOptions s a) n g draws = some (g1, rest) →
        ValidBoard (getOptions s a) g1 ∧ countAtoms (getOptions s a) g1 = k + n ∧
          (∀ j : Int, ¬ (0 ≤ j ∧ j < (s + 2) * (s + 2)) → g1 j = g0 j) := by
  intro n
  induction n with
  | zero =>
    intro g draws k g1 rest _ hv hk hfr h
    unfold placeAtoms at h
    simp only [Option.some.injEq, Prod.mk.injEq] at h
    obtain ⟨rfl, _⟩ := h
    exact ⟨hv, by omega, hfr⟩
  | succ n ih =>
    intro g draws k g1 rest hd hv hk hfr h
    unfold placeAtoms at h
    cases hdr : drawEmptyCell (getOptions s a) g draws 0 with
    | none => rw [hdr] at h; exact absurd h (by simp)
    | some p =>
      obtain ⟨c, rest1⟩ := p
      rw [hdr] at h
      simp only at h
      obtain ⟨he, hd1, x, y, hx0, hx1, hy0, hy1, hE⟩ :=
        drawEmptyCell_interior s a hs g hv draws hd c rest1 hdr
      have hin := cellFromXY_lt (s := s) (a := a) (x := x) (y := y)
        (by omega) (by omega) (by omega) (by omega)
      rw [← hE] at hin
      have hv1 : ValidBoard (getOptions s a) (Function.update g c CELL_ATOM) := by
        rw [hE]; exact validBoard_update s a g hv hx0 hx1 hy0 hy1
      have hna : g c ≠ CELL_ATOM := by rw [he]; decide
      have hk1 : countAtoms (getOptions s a) (Function.update g c CELL_ATOM) = k + 1 := by
        rw [countAtoms_update s a g c hin.1 hin.2 hna, hk]
      have hfr1 : ∀ j : Int, ¬ (0 ≤ j ∧ j < (s + 2) * (s + 2)) →
          Function.update g c CELL_ATOM j = g0 j := by
        intro j hj
        have hne : j ≠ c := fun e => hj (e ▸ hin)
        rw [Function.update_noteq hne]
        exact hfr j hj
      obtain ⟨r1, r2, r3⟩ := ih _ rest1 (k + 1) g1 rest hd1 hv1 hk1 hfr1 h
      exact ⟨r1, by omega, r3⟩

/-- C17: for every size s >= 1, atom count a >= 0 and sequence of draws of
    rand() (non-negative numbers) for which the placement loop of createBoard
    completes with grid g: every outer-ring cell of g holds Border, every
    interior cell holds Atom or Empty, exactly a indices of the grid hold
    Atom, every index holding Atom is an interior cell, and memory outside
    the grid is untouched. Each placement writes the cell returned by the
    draw loop, which on a valid board is an interior cell that held Empty,
    so atoms never overlap and never replace a Border cell. -/
theorem board_invariant (s a : Int) (g0 g : Grid) (draws : List Int)
    (hs : 1 ≤ s) (ha : 0 ≤ a) (hd : ∀ r ∈ draws, 0 ≤ r)
    (hc : createBoard (getOptions s a) g0 draws = some g) :
    (∀ x y : Int, 0 ≤ x → x ≤ s + 1 → 0 ≤ y → y ≤ s + 1 →
        (x = 0 ∨ x = s + 1 ∨ y = 0 ∨ y = s + 1) →
        g (cellFromXY (getOptions s a) x y) = CELL_BORDER) ∧
    (∀ x y : Int, 1 ≤ x → x ≤ s → 1 ≤ y → y ≤ s →
        g (cellFromXY (getOptions s a) x y) = CELL_ATOM ∨
        g (cellFromXY (getOptions s a) x y) = CELL_EMPTY) ∧
    ((countAtoms (getOptions s a) g : Int) = a) ∧
    (∀ i : Int, 0 ≤ i → i < (getOptions s a).iCellNo → g i = CELL_ATOM →
        ∃ x y, 1 ≤ x ∧ x ≤ s ∧ 1 ≤ y ∧ y ≤ s ∧ i = cellFromXY (getOptions s a) x y) ∧
    (∀ j : Int, ¬ (0 ≤ j ∧ j < (getOptions s a).iCellNo) → g j = g0 j) ∧
    (∀ (g1 : Grid) (ds rest : List Int) (c : Int), ValidBoard (getOptions s a) g1 →
        (∀ r ∈ ds, 0 ≤ r) → drawEmptyCell (getOptions s a) g1 ds 0 = some (c, rest) →
        g1 c = CELL_EMPTY ∧
        ∃ x y, 1 ≤ x ∧ x ≤ s ∧ 1 ≤ y ∧ y ≤ s ∧ c = cellFromXY (getOptions s a) x y) := by
  unfold createBoard at hc
  cases hp : placeAtoms (getOptions s a) (getOptions s a).iAtomNo.toNat
      (createBoardDefault (getOptions s a) g0) draws with
  | none => rw [hp] at hc; exact absurd hc (by simp)
  | some p =>
    obtain ⟨g1, rest⟩ := p
    rw [hp] at hc
    simp only [Option.map_some', Option.some.injEq] at hc
    subst hc
    have hv0 := createBoardDefault_valid s a g0
    have hk0 : countAtoms (getOptions s a) (createBoardDefault (getOptions s a) g0) = 0 := by
      apply countAtoms_eq_zero s a (by omega)
      intro x y hx0 hx1 hy0 hy1
      rw [createBoardDefault_in s a g0 hx0 hx1 hy0 hy1]
      split_ifs <;> decide
    obtain ⟨r1, r2, r3⟩ := placeAtoms_inv s a hs g0 _ _ draws 0 g1 rest hd hv0 hk0
      (fun j hj => createBoardDefault_out s a g0 j hj) hp
    refine ⟨fun x y hx0 hx1 hy0 hy1 hr => valid_ring r1 hx0 hx1 hy0 hy1 hr,
      fun x y hx0 hx1 hy0 hy1 => (valid_inner r1 hx0 hx1 hy0 hy1).symm, ?_, ?_, ?_, ?_⟩
    · rw [r2]
      have e : (getOptions s a).iAtomNo = a := rfl
      rw [e]
      omega
    · intro i hi0 hi1 hat
      rw [getOptions_iCellNo] at hi1
      obtain ⟨x, y, hx0, hx1, hy0, hy1, hE⟩ := index_is_cell (a := a) (by omega) hi0 hi1
      have hb : g1 (cellFromXY (getOptions s a) x y) ≠ CELL_BORDER := by
        rw [← hE, hat]; decide
      obtain ⟨i1, i2, i3, i4⟩ := valid_not_border_inner r1 hx0 hx1 hy0 hy1 hb
      exact ⟨x, y, i1, i2, i3, i4, hE⟩
    · intro j hj
      rw [getOptions_iCellNo] at hj
      exact r3 j hj
    · intro g2 ds rest2 c hv2 hd2 hdr
      obtain ⟨h1, _, h3⟩ := drawEmptyCell_interior s a hs g2 hv2 ds hd2 c rest2 hdr
      exact ⟨h1, h3⟩

theorem board_invariant_witness :
    ∃ h : (createBoard (getOptions 2 2) (fun _ => 7) [0, 5, 5, 26]).isSome = true,
      (countAtoms (getOptions 2 2)
        ((createBoard (getOptions 2 2) (fun _ => 7) [0, 5, 5, 26]).get h) : Int) = 2 :=
  ⟨by decide, (board_invariant 2 2 (fun _ => 7) _ [0, 5, 5, 26] (by decide) (by decide)
    (by decide) (Option.some_get _).symm).2.2.1⟩

/-! ## The traced walk and `walkGrid` -/

theorem turnLoopTrace_stop (o : t_options) (g : Grid) (c : Int) (fuel : Nat) (at0 d : Int)
    (log : List Ev) (h : ¬ (at0 = ATOM_LEFT ∨ at0 = ATOM_RIGHT)) :
    turnLoopTrace o g c fuel at0 d log = some (TurnOut.fin d at0, log) := by
  unfold turnLoopTrace
  rw [if_neg h]

theorem turnLoopTrace_turn (o : t_options) (g : Grid) (c : Int) (fuel : Nat) (at0 d : Int)
    (log : List Ev) (h : at0 = ATOM_LEFT ∨ at0 = ATOM_RIGHT) :
    turnLoopTrace o g c (fuel + 1) at0 d log =
      if g c = CELL_BORDER then
        some (TurnOut.ret c, log ++ [Ev.look c (turnBeam at0 d), Ev.cell c])
      else turnLoopTrace o g c fuel (lookAhead o g c (turnBeam at0 d)) (turnBeam at0 d)
        (log ++ [Ev.look c (turnBeam at0 d), Ev.cell c]) := by
  rw [turnLoopTrace]
  rw [if_pos h]

theorem walkGridTrace_succ (o : t_options) (g : Grid) (f : Nat) (c d : Int) (log : List Ev) :
    walkGridTrace o g (f + 1) c d log =
      if lookAhead o g c d = ATOM_CENTER then some (0, Ret.center, log ++ [Ev.look c d])
      else
        match turnLoopTrace o g c (f + 1) (lookAhead o g c d) d (log ++ [Ev.look c d]) with
        | none => none
        | some (TurnOut.ret c', log') => some (c', Ret.turn, log')
        | some (TurnOut.fin d' t, log') =>
          if g (goAhead o c d') = CELL_BORDER then
            some (goAhead o c d', Ret.step,
              log' ++ [Ev.step c d' t] ++ [Ev.cell (goAhead o c d')])
          else walkGridTrace o g f (goAhead o c d') d'
            (log' ++ [Ev.step c d' t] ++ [Ev.cell (goAhead o c d')]) := by
  rw [walkGridTrace]

/-- The tracing turn loop and the plain one agree on the loop result. -/
theorem turnLoopTrace_fst (o : t_options) (g : Grid) (c : Int) :
    ∀ (f : Nat) (at0 d : Int) (log : List Ev),
      (turnLoopTrace o g c f at0 d log).map Prod.fst = turnLoop o g c f at0 d := by
  intro f
  induction f with
  | zero =>
    intro at0 d log
    unfold turnLoopTrace turnLoop
    split_ifs <;> rfl
  | succ k ih =>
    intro at0 d log
    by_cases hc : at0 = ATOM_LEFT ∨ at0 = ATOM_RIGHT
    · rw [turnLoopTrace_turn o g c k at0 d log hc, turnLoop_turn o g c k at0 d hc]
      by_cases hb : g c = CELL_BORDER
      · rw [if_pos hb, if_pos hb]; rfl
      · rw [if_neg hb, if_neg hb]; exact ih _ _ _
    · rw [turnLoopTrace_stop o g c _ at0 d log hc]
      unfold turnLoop
      rw [if_neg hc]; rfl

/-- The traced walk and `walkGrid` return the same cell. -/
theorem walkGridTrace_fst (o : t_options) (g : Grid) :
    ∀ (f : Nat) (c d : Int) (log : List Ev),
      (walkGridTrace o g f c d log).map (fun r => r.1) = walkGrid o g f c d := by
  intro f
  induction f with
  | zero =>
    intro c d log
    rw [walkGridTrace, walkGrid]; rfl
  | succ k ih =>
    intro c d log
    rw [walkGridTrace_succ, walkGrid_succ]
    by_cases hc : lookAhead o g c d = ATOM_CENTER
    · rw [if_pos hc, if_pos hc]; rfl
    · rw [if_neg hc, if_neg hc]
      have ht := turnLoopTrace_fst o g c (k + 1) (lookAhead o g c d) d (log ++ [Ev.look c d])
      cases hl : turnLoopTrace o g c (k + 1) (lookAhead o g c d) d (log ++ [Ev.look c d]) with
      | none =>
        rw [hl] at ht
        rw [← ht]; rfl
      | some p =>
        obtain ⟨t, log'⟩ := p
        rw [hl] at ht
        rw [← ht]
        cases t with
        | ret c' => rfl
        | fin d' a' =>
          simp only [Option.map_some']
          by_cases hb : g (goAhead o c d') = CELL_BORDER
          · rw [if_pos hb, if_pos hb]; rfl
          · rw [if_neg hb, if_neg hb]; exact ih _ _ _

/-- The traced walk returns whenever `walkGrid` does. -/
theorem walkGridTrace_of_walkGrid {o : t_options} {g : Grid} {f : Nat} {c d r : Int}
    (log : List Ev) (h : walkGrid o g f c d = some r) :
    ∃ ret log', walkGridTrace o g f c d log = some (r, ret, log') := by
  have hp := walkGridTrace_fst o g f c d log
  rw [h] at hp
  cases ht : walkGridTrace o g f c d log with
  | none => rw [ht] at hp; exact absurd hp (by simp)
  | some p =>
    obtain ⟨r', ret, log'⟩ := p
    rw [ht] at hp
    simp only [Option.map_some', Option.some.injEq] at hp
    subst hp
    exact ⟨ret, log', rfl⟩

/-- The events a turn loop adds to the trace are look-aheads at the cell in
    one of the four directions and border tests of the cell. -/
theorem turnLoopTrace_log (o : t_options) (g : Grid) (c : Int) (P : Ev → Prop)
    (hcell : P (Ev.cell c)) (hlook : ∀ d, ValidDir d → P (Ev.look c d)) :
    ∀ (f : Nat) (at0 d : Int) (log : List Ev) (out : TurnOut) (log' : List Ev),
      ValidDir d → turnLoopTrace o g c f at0 d log = some (out, log') →
      ∃ new, log' = log ++ new ∧ ∀ ev ∈ new, P ev := by
  intro f
  induction f with
  | zero =>
    intro at0 d log out log' _ h
    by_cases hc : at0 = ATOM_LEFT ∨ at0 = ATOM_RIGHT
    · unfold turnLoopTrace at h
      rw [if_pos hc] at h
      exact absurd h (by simp)
    · rw [turnLoopTrace_stop o g c _ at0 d log hc] at h
      simp only [Option.some.injEq, Prod.mk.injEq] at h
      exact ⟨[], by rw [List.append_nil]; exact h.2.symm, fun ev hev => absurd hev (List.not_mem_nil _)⟩
  | succ k ih =>
    intro at0 d log out log' hd h
    by_cases hc : at0 = ATOM_LEFT ∨ at0 = ATOM_RIGHT
    · have hd' : ValidDir (turnBeam at0 d) := by
        rcases hc with hc | hc
        · rw [hc]; exact (turnBeam_left hd).1
        · rw [hc]; exact (turnBeam_right hd).1
      have hnew : ∀ ev ∈ [Ev.look c (turnBeam at0 d), Ev.cell c], P ev := by
        intro ev hev
        simp only [List.mem_cons, List.mem_singleton, List.not_mem_nil, or_false] at hev
        rcases hev with hev | hev
        · rw [hev]; exact hlook _ hd'
        · rw [hev]; exact hcell
      rw [turnLoopTrace_turn o g c k at0 d log hc] at h
      by_cases hb : g c = CELL_BORDER
      · rw [if_pos hb] at h
        simp only [Option.some.injEq, Prod.mk.injEq] at h
        exact ⟨_, h.2.symm, hnew⟩
      · rw [if_neg hb] at h
        obtain ⟨new, e, hn⟩ := ih _ _ _ _ _ hd' h
        refine ⟨[Ev.look c (turnBeam at0 d), Ev.cell c] ++ new, ?_, ?_⟩
        · rw [e, List.append_assoc]
        · intro ev hev
          rcases List.mem_append.mp hev with h1 | h1
          · exact hnew ev h1
          · exact hn ev h1
    · rw [turnLoopTrace_stop o g c _ at0 d log hc] at h
      simp only [Option.some.injEq, Prod.mk.injEq] at h
      exact ⟨[], by rw [List.append_nil]; exact h.2.symm, fun ev hev => absurd hev (List.not_mem_nil _)⟩

/-- At an interior cell reached by the beam, with no atom directly ahead, the
    turn loop can only end with the direction `nextDir` and a look-ahead that
    shows no atom, whatever the iteration bound. -/
theorem turnLoop_good_any {s a : Int} {g : Grid} {x y d : Int}
    (hv : ValidBoard (getOptions s a) g) (hg : Good s a g x y d)
    (hF : ¬ isAtom (getOptions s a) g (x + dirDX d) (y + dirDY d)) (f : Nat) (out : TurnOut)
    (h : turnLoop (getOptions s a) g (cellFromXY (getOptions s a) x y) f
      (lookAhead (getOptions s a) g (cellFromXY (getOptions s a) x y) d) d = some out) :
    out = TurnOut.fin (nextDir (getOptions s a) g x y d) ATOM_NONE := by
  have h1 := turnLoop_mono _ g _ _ _ _ _ h (f + 2) (by omega)
  rw [turnLoop_good hv hg hF f] at h1
  simp only [Option.some.injEq] at h1
  exact h1.symm

theorem evOK_look_inner (s a : Int) (g : Grid) (e d0 : Int) {x y d : Int}
    (hx1 : 1 ≤ x) (hxs : x ≤ s) (hy1 : 1 ≤ y) (hys : y ≤ s) (hd : ValidDir d) :
    EvOK s a g e d0 (Ev.look (cellFromXY (getOptions s a) x y) d) := by
  have hu := dir_unit hd
  refine ⟨hd, Or.inr ⟨x, y, rfl, ?_, ?_, ?_⟩⟩ <;> unfold InGrid <;> omega

theorem evOK_cell (s a : Int) (g : Grid) (e d0 : Int) {x y : Int} (h : InGrid s x y) :
    EvOK s a g e d0 (Ev.cell (cellFromXY (getOptions s a) x y)) :=
  ⟨x, y, rfl, h⟩

/-- The walk from a good state, whenever it returns: every look-ahead reads
    cells of the grid, every turn loop ends with a look-ahead that shows no
    atom, every cell advanced to holds `CELL_EMPTY` or `CELL_BORDER`, and the
    walk ends with `return 0` after an atom directly ahead or with the
    `return iCell` after an advance to a non-corner cell of the outer ring. -/
theorem walkGridTrace_good {s a : Int} {g : Grid} (hv : ValidBoard (getOptions s a) g)
    (e d0 : Int) :
    ∀ (f : Nat) (x y d : Int) (log : List Ev) (r : Int) (ret : Ret) (log' : List Ev),
      Good s a g x y d →
      walkGridTrace (getOptions s a) g f (cellFromXY (getOptions s a) x y) d log =
        some (r, ret, log') →
      ∃ new, log' = log ++ new ∧ (∀ ev ∈ new, EvOK s a g e d0 ev) ∧
        ((ret = Ret.center ∧ r = 0) ∨
          (ret = Ret.step ∧ ∃ X Y, ExitCell s X Y ∧ r = cellFromXY (getOptions s a) X Y)) := by
  intro f
  induction f with
  | zero =>
    intro x y d log r ret log' _ h
    rw [walkGridTrace] at h
    exact absurd h (by simp)
  | succ k ih =>
    intro x y d log r ret log' hg h
    have hd := hg.dir
    have hlk : EvOK s a g e d0 (Ev.look (cellFromXY (getOptions s a) x y) d) :=
      evOK_look_inner s a g e d0 hg.x1 hg.xs hg.y1 hg.ys hd
    rw [walkGridTrace_succ, lookAhead_cell _ g x y hd] at h
    by_cases hF : isAtom (getOptions s a) g (x + dirDX d) (y + dirDY d)
    · rw [if_pos (lookAheadRef_center hF)] at h
      simp only [Option.some.injEq, Prod.mk.injEq] at h
      obtain ⟨h1, h2, h3⟩ := h
      refine ⟨[Ev.look (cellFromXY (getOptions s a) x y) d], h3.symm, ?_,
        Or.inl ⟨h2.symm, h1.symm⟩⟩
      intro ev hev
      rw [List.mem_singleton.mp hev]
      exact hlk
    · rw [if_neg (lookAheadRef_ne_center hF), ← lookAhead_cell _ g x y hd] at h
      cases hl : turnLoopTrace (getOptions s a) g (cellFromXY (getOptions s a) x y) (k + 1)
          (lookAhead (getOptions s a) g (cellFromXY (getOptions s a) x y) d) d
          (log ++ [Ev.look (cellFromXY (getOptions s a) x y) d]) with
      | none =>
        rw [hl] at h
        exact absurd h (by simp)
      | some p =>
        obtain ⟨t, log2⟩ := p
        rw [hl] at h
        have ht := turnLoopTrace_fst (getOptions s a) g (cellFromXY (getOptions s a) x y)
          (k + 1) (lookAhead (getOptions s a) g (cellFromXY (getOptions s a) x y) d) d
          (log ++ [Ev.look (cellFromXY (getOptions s a) x y) d])
        rw [hl] at ht
        have hout := turnLoop_good_any hv hg hF (k + 1) t ht.symm
        subst hout
        obtain ⟨new2, e2, hn2⟩ := turnLoopTrace_log (getOptions s a) g
          (cellFromXY (getOptions s a) x y) (EvOK s a g e d0)
          (evOK_cell s a g e d0 (by
            have h1 := hg.x1
            have h2 := hg.xs
            have h3 := hg.y1
            have h4 := hg.ys
            unfold InGrid; omega))
          (fun d' hd' => evOK_look_inner s a g e d0 hg.x1 hg.xs hg.y1 hg.ys hd')
          _ _ _ _ _ _ hd hl
        obtain ⟨hd', -⟩ := nextDir_spec (getOptions s a) g x y hd
        have hu := dir_unit hd'
        have hx1 := hg.x1
        have hxs := hg.xs
        have hy1 := hg.y1
        have hys := hg.ys
        have hin : InGrid s (x + dirDX (nextDir (getOptions s a) g x y d))
            (y + dirDY (nextDir (getOptions s a) g x y d)) := by
          unfold InGrid; omega
        have hgo := goAhead_cell (getOptions s a) x y hd'
        simp only at h
        obtain ⟨hs1, hs2⟩ := good_step hv hg hF
        have hcl : EvOK s a g e d0 (Ev.cell (goAhead (getOptions s a)
            (cellFromXY (getOptions s a) x y) (nextDir (getOptions s a) g x y d))) := by
          rw [hgo]; exact evOK_cell s a g e d0 hin
        by_cases hb : g (goAhead (getOptions s a) (cellFromXY (getOptions s a) x y)
            (nextDir (getOptions s a) g x y d)) = CELL_BORDER
        · rw [if_pos hb] at h
          simp only [Option.some.injEq, Prod.mk.injEq] at h
          obtain ⟨h1, h2, h3⟩ := h
          have hst : EvOK s a g e d0 (Ev.step (cellFromXY (getOptions s a) x y)
              (nextDir (getOptions s a) g x y d) ATOM_NONE) :=
            ⟨rfl, hd', Or.inr hb, _, _, hgo, hin⟩
          refine ⟨[Ev.look (cellFromXY (getOptions s a) x y) d] ++ new2 ++
            [Ev.step (cellFromXY (getOptions s a) x y) (nextDir (getOptions s a) g x y d)
              ATOM_NONE] ++
            [Ev.cell (goAhead (getOptions s a) (cellFromXY (getOptions s a) x y)
              (nextDir (getOptions s a) g x y d))], ?_, ?_,
            Or.inr ⟨h2.symm, x + dirDX (nextDir (getOptions s a) g x y d),
              y + dirDY (nextDir (getOptions s a) g x y d), ?_, ?_⟩⟩
          · rw [← h3, e2]
            simp only [List.append_assoc]
          · intro ev hev
            simp only [List.mem_append, List.mem_singleton] at hev
            rcases hev with ((hev | hev) | hev) | hev
            · rw [hev]; exact hlk
            · exact hn2 ev hev
            · rw [hev]; exact hst
            · rw [hev]; exact hcl
          · rw [hgo] at hb
            exact hs1 hb
          · rw [← h1, hgo]
        · rw [if_neg hb] at h
          rw [hgo] at hb
          have hgn := hs2 hb
          rw [hgo] at h
          obtain ⟨new3, e3, hn3, hr3⟩ := ih _ _ _ _ _ _ _ hgn h
          have hem : g (cellFromXY (getOptions s a)
              (x + dirDX (nextDir (getOptions s a) g x y d))
              (y + dirDY (nextDir (getOptions s a) g x y d))) = CELL_EMPTY := by
            rcases valid_inner hv hgn.x1 hgn.xs hgn.y1 hgn.ys with h0 | h0
            · exact h0
            · exact absurd h0 hgn.here
          have hst : EvOK s a g e d0 (Ev.step (cellFromXY (getOptions s a) x y)
              (nextDir (getOptions s a) g x y d) ATOM_NONE) :=
            ⟨rfl, hd', Or.inl (by rw [hgo]; exact hem), _, _, hgo, hin⟩
          refine ⟨[Ev.look (cellFromXY (getOptions s a) x y) d] ++ new2 ++
            [Ev.step (cellFromXY (getOptions s a) x y) (nextDir (getOptions s a) g x y d)
              ATOM_NONE] ++
            [Ev.cell (cellFromXY (getOptions s a)
              (x + dirDX (nextDir (getOptions s a) g x y d))
              (y + dirDY (nextDir (getOptions s a) g x y d)))] ++ new3, ?_, ?_, hr3⟩
          · rw [e3, e2]
            simp only [List.append_assoc]
          · intro ev hev
            simp only [List.mem_append, List.mem_singleton] at hev
            rcases hev with (((hev | hev) | hev) | hev) | hev
            · rw [hev]; exact hlk
            · exact hn2 ev hev
            · rw [hev]; exact hst
            · rw [hev]; exact evOK_cell s a g e d0 hin
            · exact hn3 ev hev

theorem turnBeam_ne {d t : Int} (hd : ValidDir d) (ht : t = ATOM_LEFT ∨ t = ATOM_RIGHT) :
    ValidDir (turnBeam t d) ∧ turnBeam t d ≠ d := by
  rcases ht with ht | ht <;> subst ht <;>
    rcases validDir_cases hd with h | h | h | h <;> subst h <;> decide

/-- The walk from an entry state, whenever it returns: every look-ahead other
    than the one repeated at the entry cell after a turn reads cells of the
    grid, every turn loop that ends does so with a look-ahead that shows no
    atom, every cell advanced to holds `CELL_EMPTY` or `CELL_BORDER`, and the
    walk ends with `return 0` after an atom directly ahead, with the
    `return iCell` of the turn loop at the entry cell, or with the
    `return iCell` after an advance to a non-corner cell of the outer ring. -/
theorem walkGridTrace_entry {s a : Int} {g : Grid} {x y d : Int}
    (hv : ValidBoard (getOptions s a) g) (he : EntryState s x y d) (f : Nat)
    (r : Int) (ret : Ret) (log' : List Ev)
    (h : walkGridTrace (getOptions s a) g f (cellFromXY (getOptions s a) x y) d [] =
      some (r, ret, log')) :
    (∀ ev ∈ log', EvOK s a g (cellFromXY (getOptions s a) x y) d ev) ∧
      ((ret = Ret.center ∧ r = 0) ∨
        (ret = Ret.turn ∧ r = cellFromXY (getOptions s a) x y) ∨
        (ret = Ret.step ∧ ∃ X Y, ExitCell s X Y ∧ r = cellFromXY (getOptions s a) X Y)) := by
  obtain ⟨hd, hex, i1, i2, i3, i4, hu⟩ := entryState_facts he
  have hbe := exitCell_ring hv hex
  have hex' := hex
  unfold ExitCell at hex'
  have hlk : EvOK s a g (cellFromXY (getOptions s a) x y) d
      (Ev.look (cellFromXY (getOptions s a) x y) d) := by
    refine ⟨hd, Or.inr ⟨x, y, rfl, ?_, ?_, ?_⟩⟩ <;> unfold InGrid <;> omega
  have hce : EvOK s a g (cellFromXY (getOptions s a) x y) d
      (Ev.cell (cellFromXY (getOptions s a) x y)) :=
    evOK_cell s a g _ _ (by unfold InGrid; omega)
  cases f with
  | zero =>
    rw [walkGridTrace] at h
    exact absurd h (by simp)
  | succ k =>
    rw [walkGridTrace_succ, List.nil_append] at h
    by_cases hc : lookAhead (getOptions s a) g (cellFromXY (getOptions s a) x y) d = ATOM_CENTER
    · rw [if_pos hc] at h
      simp only [Option.some.injEq, Prod.mk.injEq] at h
      obtain ⟨h1, h2, h3⟩ := h
      refine ⟨?_, Or.inl ⟨h2.symm, h1.symm⟩⟩
      intro ev hev
      rw [← h3] at hev
      rw [List.mem_singleton.mp hev]
      exact hlk
    · rw [if_neg hc] at h
      by_cases ht : lookAhead (getOptions s a) g (cellFromXY (getOptions s a) x y) d = ATOM_LEFT ∨
          lookAhead (getOptions s a) g (cellFromXY (getOptions s a) x y) d = ATOM_RIGHT
      · rw [turnLoopTrace_turn _ g _ k _ d _ ht, if_pos hbe] at h
        simp only [Option.some.injEq, Prod.mk.injEq] at h
        obtain ⟨h1, h2, h3⟩ := h
        refine ⟨?_, Or.inr (Or.inl ⟨h2.symm, h1.symm⟩)⟩
        obtain ⟨hd', hne⟩ := turnBeam_ne hd ht
        intro ev hev
        rw [← h3] at hev
        simp only [List.mem_append, List.mem_cons, List.mem_singleton, List.not_mem_nil,
          or_false] at hev
        rcases hev with hev | hev | hev
        · rw [hev]; exact hlk
        · rw [hev]; exact ⟨hd', Or.inl ⟨rfl, hne⟩⟩
        · rw [hev]; exact hce
      · rw [turnLoopTrace_stop _ g _ _ _ d _ ht] at h
        simp only at h
        rw [lookAhead_cell _ g x y hd] at hc ht
        have hF : ¬ isAtom (getOptions s a) g (x + dirDX d) (y + dirDY d) :=
          fun hF => hc (lookAheadRef_center hF)
        have hL : ¬ isAtom (getOptions s a) g (x + dirDX d + dirDY d) (y + dirDY d - dirDX d) :=
          fun hL => ht (Or.inl (lookAheadRef_left hF hL))
        have hR : ¬ isAtom (getOptions s a) g (x + dirDX d - dirDY d) (y + dirDY d + dirDX d) :=
          fun hR => ht (Or.inr (lookAheadRef_right hF hL hR))
        have hg := good_first hv he hF hL hR
        have hnb := valid_inner_not_border hv i1 i2 i3 i4
        have hgo := goAhead_cell (getOptions s a) x y hd
        rw [hgo, if_neg hnb, lookAhead_cell _ g x y hd, lookAheadRef_none hF hL hR] at h
        obtain ⟨new, e1, hn, hr⟩ := walkGridTrace_good hv (cellFromXY (getOptions s a) x y) d
          _ _ _ _ _ _ _ _ hg h
        have hem : g (cellFromXY (getOptions s a) (x + dirDX d) (y + dirDY d)) = CELL_EMPTY := by
          rcases valid_inner hv i1 i2 i3 i4 with h0 | h0
          · exact h0
          · exact absurd h0 hF
        refine ⟨?_, ?_⟩
        · intro ev hev
          rw [e1] at hev
          simp only [List.mem_append, List.mem_cons, List.mem_singleton, List.not_mem_nil,
            or_false] at hev
          rcases hev with ((hev | hev) | hev) | hev
          · rw [hev]; exact hlk
          · rw [hev]
            exact ⟨rfl, hd, Or.inl (by rw [hgo]; exact hem), _, _, hgo,
              by unfold InGrid; omega⟩
          · rw [hev]; exact evOK_cell s a g _ _ (by unfold InGrid; omega)
          · exact hn ev hev
        · rcases hr with hr | hr
          · exact Or.inl hr
          · exact Or.inr (Or.inr hr)

theorem exitCell_ne_zero {s a X Y : Int} (hex : ExitCell s X Y) :
    cellFromXY (getOptions s a) X Y ≠ 0 := by
  unfold ExitCell at hex
  have h0 : cellFromXY (getOptions s a) 0 0 = 0 := by simp [cellFromXY]
  have hne := cellFromXY_ne (s := s) (a := a) (x := X) (y := Y) (u := 0) (v := 0)
    (by omega) (by omega) (by omega) (by omega) (by omega) (by omega) (by omega)
  rw [h0] at hne
  exact hne

theorem getExitNode_exitCell {s a X Y : Int} (hex : ExitCell s X Y) :
    1 ≤ getExitNode (getOptions s a) (cellFromXY (getOptions s a) X Y) ∧
      getExitNode (getOptions s a) (cellFromXY (getOptions s a) X Y) ≤ 4 * s := by
  unfold ExitCell at hex
  rw [getExitNode_cellFromXY (getOptions s a) X Y (by omega) (by simp; omega) (by omega)]
  simp only [getOptions_iSize, getOptions_iWidth]
  split_ifs <;> omega

/-! ## C21: the grid indices read by the walk -/

/-- The three indices the look-ahead reads at the cell `(x, y)` are the
    indices of the cell ahead and of its two neighbours across the
    direction. -/
theorem lookAheadCells_cell (o : t_options) (x y : Int) {d : Int} (hd : ValidDir d) :
    lookAheadCells o (cellFromXY o x y) d =
      some (cellFromXY o (x + dirDX d) (y + dirDY d),
        cellFromXY o (x + dirDX d + dirDY d) (y + dirDY d - dirDX d),
        cellFromXY o (x + dirDX d - dirDY d) (y + dirDY d + dirDX d)) := by
  rcases validDir_cases hd with h | h | h | h <;> subst h <;>
    simp [lookAheadCells, cellFromXY, dirDX, dirDY, DIR_UP, DIR_LEFT, DIR_DOWN, DIR_RIGHT] <;>
    refine ⟨?_, ?_, ?_⟩ <;> ring

/-- The part of C21 that holds: on a valid board, for an entry node in
    `1..4*s`, every grid index the walk reads lies in `0..(s+2)^2-1`, except
    for the reads of the look-ahead that is repeated at the entry cell after a
    turn there. -/
theorem reads_in_grid_unless_turn_at_entry (s a n dir0 : Int) (g : Grid) (hs : 1 ≤ s)
    (hv : ValidBoard (getOptions s a) g) (h1 : 1 ≤ n) (h2 : n ≤ 4 * s)
    (fuel : Nat) (r : Int) (ret : Ret) (log : List Ev)
    (h : walkGridTrace (getOptions s a) g fuel (getEntryNode (getOptions s a) n dir0).1
      (getEntryNode (getOptions s a) n dir0).2 [] = some (r, ret, log)) :
    ∀ ev ∈ log,
      (∃ d, d ≠ (getEntryNode (getOptions s a) n dir0).2 ∧
        ev = Ev.look (getEntryNode (getOptions s a) n dir0).1 d) ∨
      ∀ i ∈ evReads (getOptions s a) ev, 0 ≤ i ∧ i < (getOptions s a).iCellNo := by
  obtain ⟨x, y, d, e, he⟩ := getEntryNode_entryState s a n dir0 hs h1 h2
  rw [e] at h ⊢
  simp only at h ⊢
  obtain ⟨hok, -⟩ := walkGridTrace_entry hv he fuel r ret log h
  intro ev hev
  have hE := hok ev hev
  cases ev with
  | look c d' =>
    obtain ⟨hd', hcase⟩ := hE
    rcases hcase with ⟨hc, hne⟩ | ⟨u, v, hc, i1, i2, i3⟩
    · exact Or.inl ⟨d', hne, by rw [hc]⟩
    · right
      unfold InGrid at i1 i2 i3
      intro i hi
      rw [hc] at hi
      simp only [evReads, lookAheadCells_cell _ u v hd', List.mem_cons, List.mem_singleton,
        List.not_mem_nil, or_false] at hi
      rw [getOptions_iCellNo]
      rcases hi with hi | hi | hi <;> rw [hi] <;>
        exact cellFromXY_lt (by omega) (by omega) (by omega) (by omega)
  | cell c =>
    obtain ⟨u, v, hc, i1⟩ := hE
    right
    unfold InGrid at i1
    intro i hi
    simp only [evReads, List.mem_singleton] at hi
    rw [hi, hc, getOptions_iCellNo]
    exact cellFromXY_lt (by omega) (by omega) (by omega) (by omega)
  | step c d' t =>
    right
    intro i hi
    simp only [evReads, List.not_mem_nil] at hi

/-- C21 fails on the size-4 board (grid indices 0..35). With atoms at (3,2),
    (2,4), (3,4), the beam entered at node 5 (cell 31, up) turns at its entry
    cell, and the look-ahead repeated there reads the index 36, one past the
    end of the grid. With an atom at (2,1), the beam entered at node 16
    (cell 1, down) reads the index -6. With an atom at (1,1), the beam
    entered at node 2 (cell 12, right) reads the index 17, which is not the
    cell left of (0,3) but the cell (5,2) at the end of the row above. -/
theorem lookAhead_reads_outside_grid :
    getEntryNode (getOptions 4 3) 5 DIR_NONE = (31, DIR_UP) ∧
    walkGridTrace (getOptions 4 3) (boardWith 4 [(3, 2), (2, 4), (3, 4)]) 67 31 DIR_UP [] =
      some (31, Ret.turn, [Ev.look 31 DIR_UP, Ev.look 31 DIR_LEFT, Ev.cell 31]) ∧
    walkGridReads (getOptions 4 3) (boardWith 4 [(3, 2), (2, 4), (3, 4)]) 67 31 DIR_UP =
      some [25, 24, 26, 30, 36, 24, 31] ∧
    ¬ (36 < (getOptions 4 3).iCellNo) ∧
    getEntryNode (getOptions 4 3) 16 DIR_NONE = (1, DIR_DOWN) ∧
    walkGridReads (getOptions 4 3) (boardWith 4 [(2, 1)]) 67 1 DIR_DOWN =
      some [7, 8, 6, 0, 6, -6, 1] ∧
    getEntryNode (getOptions 4 3) 2 DIR_NONE = (12, DIR_RIGHT) ∧
    walkGridReads (getOptions 4 3) (boardWith 4 [(1, 1)]) 67 12 DIR_RIGHT =
      some [13, 7, 19, 18, 19, 17, 12] ∧
    cellToXY (getOptions 4 3) 17 = (5, 2) ∧
    cellFromXY (getOptions 4 3) 0 2 = 12 := by
  decide

/-! ## C22: the beam never steps onto an atom -/

/-- Step 2 of the specification's trace is the turn loop of `walkGrid`. -/
theorem specTurns_eq (o : t_options) (g : Grid) (c : Int) :
    ∀ (f : Nat) (t d : Int),
      specTurns o g c f t d = (turnLoop o g c f t d).map outcomeOfTurn := by
  intro f
  induction f with
  | zero =>
    intro t d
    unfold specTurns turnLoop
    split_ifs <;> rfl
  | succ k ih =>
    intro t d
    by_cases hc : t = ATOM_LEFT ∨ t = ATOM_RIGHT
    · rw [turnLoop_turn o g c k t d hc, specTurns, if_pos hc]
      by_cases hb : g c = CELL_BORDER
      · rw [if_pos hb, if_pos hb]; rfl
      · rw [if_neg hb, if_neg hb]; exact ih _ _
    · unfold specTurns turnLoop
      rw [if_neg hc, if_neg hc]; rfl

theorem specTrace_succ (o : t_options) (g : Grid) (f : Nat) (c d : Int) :
    specTrace o g (f + 1) c d =
      if lookAhead o g c d = ATOM_CENTER then some TraceOutcome.absorbed
      else
        match specTurns o g c (f + 1) (lookAhead o g c d) d with
        | none => none
        | some (Sum.inl out) => some out
        | some (Sum.inr (d', t)) =>
          if t = ATOM_CENTER then some TraceOutcome.absorbed
          else if g (goAhead o c d') = CELL_BORDER then
            some (TraceOutcome.exitedAt (goAhead o c d'))
          else specTrace o g f (goAhead o c d') d' := by
  rw [specTrace]

theorem outcomeOfCell_exit {s a X Y : Int} (hex : ExitCell s X Y) :
    outcomeOfCell (cellFromXY (getOptions s a) X Y) =
      TraceOutcome.exitedAt (cellFromXY (getOptions s a) X Y) := by
  unfold outcomeOfCell
  rw [if_neg (exitCell_ne_zero hex)]

/-- From a good state, the specification's trace and `walkGrid` agree for
    every iteration bound. -/
theorem specTrace_good {s a : Int} {g : Grid} (hv : ValidBoard (getOptions s a) g) :
    ∀ (f : Nat) (x y d : Int), Good s a g x y d →
      specTrace (getOptions s a) g f (cellFromXY (getOptions s a) x y) d =
        (walkGrid (getOptions s a) g f (cellFromXY (getOptions s a) x y) d).map
          outcomeOfCell := by
  intro f
  induction f with
  | zero =>
    intro x y d _
    rw [specTrace, walkGrid]; rfl
  | succ k ih =>
    intro x y d hg
    have hd := hg.dir
    rw [specTrace_succ, walkGrid_succ, specTurns_eq]
    by_cases hc : lookAhead (getOptions s a) g (cellFromXY (getOptions s a) x y) d = ATOM_CENTER
    · rw [if_pos hc, if_pos hc]; rfl
    · rw [if_neg hc, if_neg hc]
      have hF : ¬ isAtom (getOptions s a) g (x + dirDX d) (y + dirDY d) := by
        intro hF
        apply hc
        rw [lookAhead_cell _ g x y hd]
        exact lookAheadRef_center hF
      cases ht : turnLoop (getOptions s a) g (cellFromXY (getOptions s a) x y) (k + 1)
          (lookAhead (getOptions s a) g (cellFromXY (getOptions s a) x y) d) d with
      | none => rfl
      | some t =>
        have hout := turnLoop_good_any hv hg hF (k + 1) t ht
        subst hout
        obtain ⟨hd', -⟩ := nextDir_spec (getOptions s a) g x y hd
        obtain ⟨hs1, hs2⟩ := good_step hv hg hF
        have hgo := goAhead_cell (getOptions s a) x y hd'
        simp only [Option.map_some', outcomeOfTurn]
        rw [if_neg (by decide), hgo]
        by_cases hb : g (cellFromXY (getOptions s a)
            (x + dirDX (nextDir (getOptions s a) g x y d))
            (y + dirDY (nextDir (getOptions s a) g x y d))) = CELL_BORDER
        · rw [if_pos hb, if_pos hb, Option.map_some', outcomeOfCell_exit (hs1 hb)]
        · rw [if_neg hb, if_neg hb]
          exact ih _ _ _ (hs2 hb)

/-- From an entry state, the specification's trace and `walkGrid` agree for
    every iteration bound. -/
theorem specTrace_entry {s a : Int} {g : Grid} {x y d : Int}
    (hv : ValidBoard (getOptions s a) g) (he : EntryState s x y d) (f : Nat) :
    specTrace (getOptions s a) g f (cellFromXY (getOptions s a) x y) d =
      (walkGrid (getOptions s a) g f (cellFromXY (getOptions s a) x y) d).map
        outcomeOfCell := by
  obtain ⟨hd, hex, i1, i2, i3, i4, hu⟩ := entryState_facts he
  have hbe := exitCell_ring hv hex
  cases f with
  | zero => rw [specTrace, walkGrid]; rfl
  | succ k =>
    rw [specTrace_succ, walkGrid_succ, specTurns_eq]
    by_cases hc : lookAhead (getOptions s a) g (cellFromXY (getOptions s a) x y) d = ATOM_CENTER
    · rw [if_pos hc, if_pos hc]; rfl
    · rw [if_neg hc, if_neg hc]
      by_cases ht : lookAhead (getOptions s a) g (cellFromXY (getOptions s a) x y) d = ATOM_LEFT ∨
          lookAhead (getOptions s a) g (cellFromXY (getOptions s a) x y) d = ATOM_RIGHT
      · rw [turnLoop_turn _ g _ k _ d ht, if_pos hbe]
        simp only [Option.map_some', outcomeOfTurn]
        rw [outcomeOfCell_exit hex]
      · have hstop : turnLoop (getOptions s a) g (cellFromXY (getOptions s a) x y) (k + 1)
            (lookAhead (getOptions s a) g (cellFromXY (getOptions s a) x y) d) d =
            some (TurnOut.fin d
              (lookAhead (getOptions s a) g (cellFromXY (getOptions s a) x y) d)) := by
          unfold turnLoop
          rw [if_neg ht]
        rw [hstop]
        simp only [Option.map_some', outcomeOfTurn]
        rw [if_neg hc]
        rw [lookAhead_cell _ g x y hd] at hc ht
        have hF : ¬ isAtom (getOptions s a) g (x + dirDX d) (y + dirDY d) :=
          fun hF => hc (lookAheadRef_center hF)
        have hL : ¬ isAtom (getOptions s a) g (x + dirDX d + dirDY d) (y + dirDY d - dirDX d) :=
          fun hL => ht (Or.inl (lookAheadRef_left hF hL))
        have hR : ¬ isAtom (getOptions s a) g (x + dirDX d - dirDY d) (y + dirDY d + dirDX d) :=
          fun hR => ht (Or.inr (lookAheadRef_right hF hL hR))
        have hg := good_first hv he hF hL hR
        have hnb := valid_inner_not_border hv i1 i2 i3 i4
        rw [goAhead_cell (getOptions s a) x y hd, if_neg hnb, if_neg hnb]
        exact specTrace_good hv k _ _ _ hg

/-- C22: on a valid board of size `s ≥ 1`, for every entry node `n` in
    `1..4*s`: whenever the walk returns, every advance `goAhead` in it was
    made after a turn loop that ended with the look-ahead value None (so never
    Center), and the cell advanced to holds Empty or Border, never Atom; for
    every iteration bound, `walkGrid` agrees with the specification's trace
    in which a Center look-ahead found after a turn terminates as Absorbed
    (0 standing for Absorbed, every other value for the exit cell); and the
    walk does return for every iteration bound from `4*s*s+3` on. -/
theorem never_steps_onto_atom (s a n dir0 : Int) (g : Grid) (hs : 1 ≤ s)
    (hv : ValidBoard (getOptions s a) g) (h1 : 1 ≤ n) (h2 : n ≤ 4 * s) :
    (∀ (fuel : Nat) (r : Int) (ret : Ret) (log : List Ev),
      walkGridTrace (getOptions s a) g fuel (getEntryNode (getOptions s a) n dir0).1
        (getEntryNode (getOptions s a) n dir0).2 [] = some (r, ret, log) →
      ∀ c d t : Int, Ev.step c d t ∈ log →
        t = ATOM_NONE ∧ t ≠ ATOM_CENTER ∧
        (g (goAhead (getOptions s a) c d) = CELL_EMPTY ∨
          g (goAhead (getOptions s a) c d) = CELL_BORDER) ∧
        g (goAhead (getOptions s a) c d) ≠ CELL_ATOM) ∧
    (∀ fuel : Nat,
      specTrace (getOptions s a) g fuel (getEntryNode (getOptions s a) n dir0).1
          (getEntryNode (getOptions s a) n dir0).2 =
        (walkGrid (getOptions s a) g fuel (getEntryNode (getOptions s a) n dir0).1
          (getEntryNode (getOptions s a) n dir0).2).map outcomeOfCell) ∧
    (∀ fuel : Nat, 4 * s.toNat * s.toNat + 3 ≤ fuel →
      ∃ r ret log,
        walkGridTrace (getOptions s a) g fuel (getEntryNode (getOptions s a) n dir0).1
          (getEntryNode (getOptions s a) n dir0).2 [] = some (r, ret, log) ∧
        walkGrid (getOptions s a) g fuel (getEntryNode (getOptions s a) n dir0).1
          (getEntryNode (getOptions s a) n dir0).2 = some r) := by
  obtain ⟨x, y, d, e, he⟩ := getEntryNode_entryState s a n dir0 hs h1 h2
  rw [e]
  simp only
  refine ⟨?_, fun fuel => specTrace_entry hv he fuel, ?_⟩
  · intro fuel r ret log ht c d' t hmem
    obtain ⟨hok, -⟩ := walkGridTrace_entry hv he fuel r ret log ht
    obtain ⟨e1, -, e3, -⟩ := hok _ hmem
    refine ⟨e1, by rw [e1]; decide, e3, ?_⟩
    rcases e3 with h0 | h0 <;> rw [h0] <;> decide
  · intro fuel hf
    obtain ⟨r, hr, -⟩ := walkGrid_entry hv he fuel hf
    obtain ⟨ret, log, ht⟩ := walkGridTrace_of_walkGrid [] hr
    exact ⟨r, ret, log, ht, hr⟩

theorem never_steps_onto_atom_witness :
    (boardWith 4 [(3, 2), (2, 4), (3, 4)] (goAhead (getOptions 4 3) 8 DIR_UP) = CELL_EMPTY ∨
      boardWith 4 [(3, 2), (2, 4), (3, 4)] (goAhead (getOptions 4 3) 8 DIR_UP) = CELL_BORDER) ∧
    specTrace (getOptions 4 3) (boardWith 4 [(3, 2), (2, 4), (3, 4)]) 67
        (getEntryNode (getOptions 4 3) 1 DIR_NONE).1
        (getEntryNode (getOptions 4 3) 1 DIR_NONE).2 =
      (walkGrid (getOptions 4 3) (boardWith 4 [(3, 2), (2, 4), (3, 4)]) 67
        (getEntryNode (getOptions 4 3) 1 DIR_NONE).1
        (getEntryNode (getOptions 4 3) 1 DIR_NONE).2).map outcomeOfCell :=
  ⟨((never_steps_onto_atom 4 3 1 DIR_NONE (boardWith 4 [(3, 2), (2, 4), (3, 4)])
      (by decide) (boardWith_valid 4 3 _) (by decide) (by decide)).1 67 2 Ret.step
      [Ev.look 6 4, Ev.step 6 4 0, Ev.cell 7, Ev.look 7 4, Ev.step 7 4 0, Ev.cell 8,
        Ev.look 8 4, Ev.look 8 1, Ev.cell 8, Ev.step 8 1 0, Ev.cell 2]
      (by decide) 8 DIR_UP ATOM_NONE (by decide)).2.2.1,
    (never_steps_onto_atom 4 3 1 DIR_NONE (boardWith 4 [(3, 2), (2, 4), (3, 4)])
      (by decide) (boardWith_valid 4 3 _) (by decide) (by decide)).2.1 67⟩

/-! ## C23: the value 0 as the sign of absorption -/

/-- C23: on a valid board of size `s ≥ 1`, for every entry node `n` in
    `1..4*s`: the entry cell is not 0; whenever `walkGrid` returns a value
    `r`, either `r = 0` and the walk ended with the `return 0` that follows a
    look-ahead with an atom directly ahead, or `r ≠ 0`, the walk ended with
    one of the two `return iCell`, `r` is the index of a non-corner cell of
    the outer ring, and `getExitNode r` lies in `1..4*s`; and `walkGrid` does
    return for every iteration bound from `4*s*s+3` on. -/
theorem absorbed_sentinel_unambiguous (s a n dir0 : Int) (g : Grid) (hs : 1 ≤ s)
    (hv : ValidBoard (getOptions s a) g) (h1 : 1 ≤ n) (h2 : n ≤ 4 * s) :
    (getEntryNode (getOptions s a) n dir0).1 ≠ 0 ∧
    (∀ (fuel : Nat) (r : Int),
      walkGrid (getOptions s a) g fuel (getEntryNode (getOptions s a) n dir0).1
        (getEntryNode (getOptions s a) n dir0).2 = some r →
      ∃ ret log,
        walkGridTrace (getOptions s a) g fuel (getEntryNode (getOptions s a) n dir0).1
          (getEntryNode (getOptions s a) n dir0).2 [] = some (r, ret, log) ∧
        ((r = 0 ∧ ret = Ret.center) ∨
          (r ≠ 0 ∧ ret ≠ Ret.center ∧
            (∃ X Y, ExitCell s X Y ∧ r = cellFromXY (getOptions s a) X Y) ∧
            1 ≤ getExitNode (getOptions s a) r ∧ getExitNode (getOptions s a) r ≤ 4 * s))) ∧
    (∀ fuel : Nat, 4 * s.toNat * s.toNat + 3 ≤ fuel →
      ∃ r, walkGrid (getOptions s a) g fuel (getEntryNode (getOptions s a) n dir0).1
        (getEntryNode (getOptions s a) n dir0).2 = some r) := by
  obtain ⟨x, y, d, e, he⟩ := getEntryNode_entryState s a n dir0 hs h1 h2
  rw [e]
  simp only
  obtain ⟨-, hex, -⟩ := entryState_facts he
  refine ⟨exitCell_ne_zero hex, ?_, ?_⟩
  · intro fuel r hr
    obtain ⟨ret, log, ht⟩ := walkGridTrace_of_walkGrid [] hr
    refine ⟨ret, log, ht, ?_⟩
    obtain ⟨-, hret⟩ := walkGridTrace_entry hv he fuel r ret log ht
    rcases hret with ⟨e1, e2⟩ | ⟨e1, e2⟩ | ⟨e1, X, Y, hX, e2⟩
    · exact Or.inl ⟨e2, e1⟩
    · right
      rw [e1, e2]
      exact ⟨exitCell_ne_zero hex, by decide, ⟨x, y, hex, rfl⟩, getExitNode_exitCell hex⟩
    · right
      rw [e1, e2]
      exact ⟨exitCell_ne_zero hX, by decide, ⟨X, Y, hX, rfl⟩, getExitNode_exitCell hX⟩
  · intro fuel hf
    obtain ⟨r, hr, -⟩ := walkGrid_entry hv he fuel hf
    exact ⟨r, hr⟩

theorem absorbed_sentinel_unambiguous_witness :
    (getEntryNode (getOptions 4 3) 1 DIR_NONE).1 ≠ 0 ∧
    ∃ ret log,
      walkGridTrace (getOptions 4 3) (boardWith 4 [(3, 2), (2, 4), (3, 4)]) 67
        (getEntryNode (getOptions 4 3) 1 DIR_NONE).1
        (getEntryNode (getOptions 4 3) 1 DIR_NONE).2 [] = some (2, ret, log) ∧
      (((2 : Int) = 0 ∧ ret = Ret.center) ∨
        ((2 : Int) ≠ 0 ∧ ret ≠ Ret.center ∧
          (∃ X Y, ExitCell 4 X Y ∧ (2 : Int) = cellFromXY (getOptions 4 3) X Y) ∧
          1 ≤ getExitNode (getOptions 4 3) 2 ∧ getExitNode (getOptions 4 3) 2 ≤ 4 * 4)) :=
  ⟨(absorbed_sentinel_unambiguous 4 3 1 DIR_NONE (boardWith 4 [(3, 2), (2, 4), (3, 4)])
      (by decide) (boardWith_valid 4 3 _) (by decide) (by decide)).1,
    (absorbed_sentinel_unambiguous 4 3 1 DIR_NONE (boardWith 4 [(3, 2), (2, 4), (3, 4)])
      (by decide) (boardWith_valid 4 3 _) (by decide) (by decide)).2.1 67 2 (by decide)⟩

/-! ## C24: beam paths are reversible -/

theorem dirOpp_spec {d : Int} (h : ValidDir d) :
    ValidDir (dirOpp d) ∧ dirDX (dirOpp d) = - dirDX d ∧ dirDY (dirOpp d) = - dirDY d := by
  rcases validDir_cases h with h | h | h | h <;> subst h <;> decide

/-- The pass of the outer loop read backwards: when the beam comes to an
    interior cell with direction `d` and leaves it with direction `d'`, the
    beam that comes to the cell with the direction opposite to `d'` is in a
    good state, has no atom directly ahead, and leaves the cell with the
    direction opposite to `d`. -/
theorem rev_good {s a : Int} {g : Grid} {x y d : Int}
    (hg : Good s a g x y d)
    (hF : ¬ isAtom (getOptions s a) g (x + dirDX d) (y + dirDY d)) :
    Good s a g x y (dirOpp (nextDir (getOptions s a) g x y d)) ∧
    ¬ isAtom (getOptions s a) g (x + dirDX (dirOpp (nextDir (getOptions s a) g x y d)))
      (y + dirDY (dirOpp (nextDir (getOptions s a) g x y d))) ∧
    nextDir (getOptions s a) g x y (dirOpp (nextDir (getOptions s a) g x y d)) = dirOpp d := by
  have hd := hg.dir
  obtain ⟨hd', hc⟩ := nextDir_spec (getOptions s a) g x y hd
  obtain ⟨ho, hox, hoy⟩ := dirOpp_spec hd'
  obtain ⟨hod, hodx, hody⟩ := dirOpp_spec hd
  have hsrc := nextDir_source hg
  have h0 := hg.here
  have h1 := hg.sideL
  have h2 := hg.sideR
  have h3 := hg.back
  have h4 := hg.backL
  have h5 := hg.backR
  have hx1 := hg.x1
  have hxs := hg.xs
  have hy1 := hg.y1
  have hys := hg.ys
  obtain ⟨hd'', hc2⟩ := nextDir_spec (getOptions s a) g x y ho
  have hgood : Good s a g x y (dirOpp (nextDir (getOptions s a) g x y d)) ∧
      ¬ isAtom (getOptions s a) g (x + dirDX (dirOpp (nextDir (getOptions s a) g x y d)))
        (y + dirDY (dirOpp (nextDir (getOptions s a) g x y d))) := by
    rcases hc with ⟨hL, hR, e⟩ | ⟨hL, hR, -, ex, ey⟩ | ⟨hL, hR, -, ex, ey⟩ | ⟨hL, hR, -, ex, ey⟩
    · have ex : dirDX (nextDir (getOptions s a) g x y d) = dirDX d := by rw [e]
      have ey : dirDY (nextDir (getOptions s a) g x y d) = dirDY d := by rw [e]
      refine ⟨⟨ho, hx1, hxs, hy1, hys, h0, ?_, ?_, ?_, ?_, ?_⟩, ?_⟩
      · exact not_isAtom_of_eq h2 (by omega) (by omega)
      · exact not_isAtom_of_eq h1 (by omega) (by omega)
      · exact not_isAtom_of_eq hF (by omega) (by omega)
      · exact not_isAtom_of_eq hR (by omega) (by omega)
      · exact not_isAtom_of_eq hL (by omega) (by omega)
      · exact not_isAtom_of_eq h3 (by omega) (by omega)
    · refine ⟨⟨ho, hx1, hxs, hy1, hys, h0, ?_, ?_, ?_, ?_, ?_⟩, ?_⟩
      · exact not_isAtom_of_eq h3 (by omega) (by omega)
      · exact not_isAtom_of_eq hF (by omega) (by omega)
      · exact not_isAtom_of_eq h2 (by omega) (by omega)
      · exact not_isAtom_of_eq h5 (by omega) (by omega)
      · exact not_isAtom_of_eq hR (by omega) (by omega)
      · exact not_isAtom_of_eq h1 (by omega) (by omega)
    · refine ⟨⟨ho, hx1, hxs, hy1, hys, h0, ?_, ?_, ?_, ?_, ?_⟩, ?_⟩
      · exact not_isAtom_of_eq hF (by omega) (by omega)
      · exact not_isAtom_of_eq h3 (by omega) (by omega)
      · exact not_isAtom_of_eq h1 (by omega) (by omega)
      · exact not_isAtom_of_eq hL (by omega) (by omega)
      · exact not_isAtom_of_eq h4 (by omega) (by omega)
      · exact not_isAtom_of_eq h2 (by omega) (by omega)
    · refine ⟨⟨ho, hx1, hxs, hy1, hys, h0, ?_, ?_, ?_, ?_, ?_⟩, ?_⟩
      · exact not_isAtom_of_eq h1 (by omega) (by omega)
      · exact not_isAtom_of_eq h2 (by omega) (by omega)
      · exact not_isAtom_of_eq h3 (by omega) (by omega)
      · exact not_isAtom_of_eq h4 (by omega) (by omega)
      · exact not_isAtom_of_eq h5 (by omega) (by omega)
      · exact not_isAtom_of_eq hF (by omega) (by omega)
  refine ⟨hgood.1, hgood.2, ?_⟩
  rcases hc2 with ⟨hL, hR, e⟩ | ⟨hL, hR, -, ex, ey⟩ | ⟨hL, hR, -, ex, ey⟩ | ⟨hL, hR, -, ex, ey⟩
  · have b1 := not_isAtom_of_eq hR
      (u := x - dirDX (nextDir (getOptions s a) g x y d) +
        dirDY (nextDir (getOptions s a) g x y d))
      (v := y - dirDY (nextDir (getOptions s a) g x y d) -
        dirDX (nextDir (getOptions s a) g x y d)) (by omega) (by omega)
    have b2 := not_isAtom_of_eq hL
      (u := x - dirDX (nextDir (getOptions s a) g x y d) -
        dirDY (nextDir (getOptions s a) g x y d))
      (v := y - dirDY (nextDir (getOptions s a) g x y d) +
        dirDX (nextDir (getOptions s a) g x y d)) (by omega) (by omega)
    simp only [if_neg b1, if_neg b2] at hsrc
    have ex : dirDX (nextDir (getOptions s a) g x y
        (dirOpp (nextDir (getOptions s a) g x y d))) =
        dirDX (dirOpp (nextDir (getOptions s a) g x y d)) := by rw [e]
    have ey : dirDY (nextDir (getOptions s a) g x y
        (dirOpp (nextDir (getOptions s a) g x y d))) =
        dirDY (dirOpp (nextDir (getOptions s a) g x y d)) := by rw [e]
    exact dir_ext hd'' hod (by omega) (by omega)
  · have b1 := not_isAtom_of_eq hR
      (u := x - dirDX (nextDir (getOptions s a) g x y d) +
        dirDY (nextDir (getOptions s a) g x y d))
      (v := y - dirDY (nextDir (getOptions s a) g x y d) -
        dirDX (nextDir (getOptions s a) g x y d)) (by omega) (by omega)
    have b2 := isAtom_of_eq hL
      (u := x - dirDX (nextDir (getOptions s a) g x y d) -
        dirDY (nextDir (getOptions s a) g x y d))
      (v := y - dirDY (nextDir (getOptions s a) g x y d) +
        dirDX (nextDir (getOptions s a) g x y d)) (by omega) (by omega)
    simp only [if_neg b1, if_pos b2] at hsrc
    exact dir_ext hd'' hod (by omega) (by omega)
  · have b1 := isAtom_of_eq hR
      (u := x - dirDX (nextDir (getOptions s a) g x y d) +
        dirDY (nextDir (getOptions s a) g x y d))
      (v := y - dirDY (nextDir (getOptions s a) g x y d) -
        dirDX (nextDir (getOptions s a) g x y d)) (by omega) (by omega)
    have b2 := not_isAtom_of_eq hL
      (u := x - dirDX (nextDir (getOptions s a) g x y d) -
        dirDY (nextDir (getOptions s a) g x y d))
      (v := y - dirDY (nextDir (getOptions s a) g x y d) +
        dirDX (nextDir (getOptions s a) g x y d)) (by omega) (by omega)
    simp only [if_pos b1, if_neg b2] at hsrc
    exact dir_ext hd'' hod (by omega) (by omega)
  · have b1 := isAtom_of_eq hR
      (u := x - dirDX (nextDir (getOptions s a) g x y d) +
        dirDY (nextDir (getOptions s a) g x y d))
      (v := y - dirDY (nextDir (getOptions s a) g x y d) -
        dirDX (nextDir (getOptions s a) g x y d)) (by omega) (by omega)
    have b2 := isAtom_of_eq hL
      (u := x - dirDX (nextDir (getOptions s a) g x y d) -
        dirDY (nextDir (getOptions s a) g x y d))
      (v := y - dirDY (nextDir (getOptions s a) g x y d) +
        dirDX (nextDir (getOptions s a) g x y d)) (by omega) (by omega)
    simp only [if_pos b1, if_pos b2] at hsrc
    exact dir_ext hd'' hod (by omega) (by omega)

/-- A non-corner cell of the outer ring, with the direction that points from
    it to its interior neighbour, is an entry state. -/
theorem entry_of_exit {s X Y d : Int} (hd : ValidDir d) (hex : ExitCell s X Y)
    (i1 : 1 ≤ X - dirDX d) (i2 : X - dirDX d ≤ s) (i3 : 1 ≤ Y - dirDY d)
    (i4 : Y - dirDY d ≤ s) : EntryState s X Y (dirOpp d) := by
  unfold ExitCell at hex
  unfold EntryState
  rcases validDir_cases hd with h | h | h | h <;> subst h
  · have e1 : dirDX 1 = 0 := by decide
    have e2 : dirDY 1 = -1 := by decide
    have e3 : dirOpp 1 = DIR_DOWN := by decide
    rw [e1] at i1 i2
    rw [e2] at i3 i4
    rw [e3]
    exact Or.inr (Or.inr (Or.inr ⟨by omega, by omega, by omega, rfl⟩))
  · have e1 : dirDX 2 = -1 := by decide
    have e2 : dirDY 2 = 0 := by decide
    have e3 : dirOpp 2 = DIR_RIGHT := by decide
    rw [e1] at i1 i2
    rw [e2] at i3 i4
    rw [e3]
    exact Or.inl ⟨by omega, by omega, by omega, rfl⟩
  · have e1 : dirDX 3 = 0 := by decide
    have e2 : dirDY 3 = 1 := by decide
    have e3 : dirOpp 3 = DIR_UP := by decide
    rw [e1] at i1 i2
    rw [e2] at i3 i4
    rw [e3]
    exact Or.inr (Or.inl ⟨by omega, by omega, by omega, rfl⟩)
  · have e1 : dirDX 4 = 1 := by decide
    have e2 : dirDY 4 = 0 := by decide
    have e3 : dirOpp 4 = DIR_LEFT := by decide
    rw [e1] at i1 i2
    rw [e2] at i3 i4
    rw [e3]
    exact Or.inr (Or.inr (Or.inl ⟨by omega, by omega, by omega, rfl⟩))

/-- The entry direction of an entry cell is determined by the cell. -/
theorem entryState_unique {s x y d d' : Int} (h : EntryState s x y d)
    (h' : EntryState s x y d') : d = d' := by
  unfold EntryState at h h'
  rcases h with ⟨a1, a2, a3, a4⟩ | ⟨a1, a2, a3, a4⟩ | ⟨a1, a2, a3, a4⟩ | ⟨a1, a2, a3, a4⟩ <;>
    rcases h' with ⟨b1, b2, b3, b4⟩ | ⟨b1, b2, b3, b4⟩ | ⟨b1, b2, b3, b4⟩ | ⟨b1, b2, b3, b4⟩ <;>
    first
      | (exfalso; omega)
      | (rw [a4, b4])

/-- A pass from a good state with an atom directly ahead returns 0. -/
theorem walkGrid_pass_absorb {s a : Int} {g : Grid} {x y d : Int} (hg : Good s a g x y d)
    (hF : isAtom (getOptions s a) g (x + dirDX d) (y + dirDY d)) (f : Nat) :
    walkGrid (getOptions s a) g (f + 1) (cellFromXY (getOptions s a) x y) d = some 0 := by
  rw [walkGrid_succ, if_pos (by rw [lookAhead_cell _ g x y hg.dir]; exact lookAheadRef_center hF)]

/-- A pass from a good state that advances to a border cell returns that
    cell. -/
theorem walkGrid_pass_border {s a : Int} {g : Grid} {x y d : Int}
    (hv : ValidBoard (getOptions s a) g) (hg : Good s a g x y d)
    (hF : ¬ isAtom (getOptions s a) g (x + dirDX d) (y + dirDY d))
    (hb : g (cellFromXY (getOptions s a) (x + dirDX (nextDir (getOptions s a) g x y d))
      (y + dirDY (nextDir (getOptions s a) g x y d))) = CELL_BORDER) (f : Nat) :
    walkGrid (getOptions s a) g (f + 2) (cellFromXY (getOptions s a) x y) d =
      some (cellFromXY (getOptions s a) (x + dirDX (nextDir (getOptions s a) g x y d))
        (y + dirDY (nextDir (getOptions s a) g x y d))) := by
  have hd' := (nextDir_spec (getOptions s a) g x y hg.dir).1
  rw [walkGrid_succ,
    if_neg (by rw [lookAhead_cell _ g x y hg.dir]; exact lookAheadRef_ne_center hF),
    turnLoop_good hv hg hF f]
  simp only
  rw [goAhead_cell _ x y hd', if_pos hb]

/-- The first pass from an entry state whose look-ahead shows no atom advances
    to the interior neighbour of the entry cell. -/
theorem walkGrid_pass_entry {s a : Int} {g : Grid} {x y d : Int}
    (hv : ValidBoard (getOptions s a) g) (he : EntryState s x y d)
    (hF : ¬ isAtom (getOptions s a) g (x + dirDX d) (y + dirDY d))
    (hL : ¬ isAtom (getOptions s a) g (x + dirDX d + dirDY d) (y + dirDY d - dirDX d))
    (hR : ¬ isAtom (getOptions s a) g (x + dirDX d - dirDY d) (y + dirDY d + dirDX d))
    (f : Nat) :
    walkGrid (getOptions s a) g (f + 1) (cellFromXY (getOptions s a) x y) d =
      walkGrid (getOptions s a) g f (cellFromXY (getOptions s a) (x + dirDX d) (y + dirDY d))
        d := by
  obtain ⟨hd, hex, i1, i2, i3, i4, hu⟩ := entryState_facts he
  rw [walkGrid_succ, lookAhead_cell _ g x y hd, lookAheadRef_none hF hL hR,
    if_neg (by decide), turnLoop_none]
  simp only
  rw [goAhead_cell _ x y hd, if_neg (valid_inner_not_border hv i1 i2 i3 i4)]

/-- A pass from a good state with no atom directly ahead, when it is part of
    a walk that returns: either it advances to a border cell, which is
    returned, or the walk goes on from the cell advanced to. -/
theorem walkGrid_good_unfold {s a : Int} {g : Grid} {x y d r : Int}
    (hv : ValidBoard (getOptions s a) g) (hg : Good s a g x y d)
    (hF : ¬ isAtom (getOptions s a) g (x + dirDX d) (y + dirDY d)) (k : Nat)
    (h : walkGrid (getOptions s a) g (k + 1) (cellFromXY (getOptions s a) x y) d = some r) :
    (g (cellFromXY (getOptions s a) (x + dirDX (nextDir (getOptions s a) g x y d))
        (y + dirDY (nextDir (getOptions s a) g x y d))) = CELL_BORDER ∧
      r = cellFromXY (getOptions s a) (x + dirDX (nextDir (getOptions s a) g x y d))
        (y + dirDY (nextDir (getOptions s a) g x y d))) ∨
    (g (cellFromXY (getOptions s a) (x + dirDX (nextDir (getOptions s a) g x y d))
        (y + dirDY (nextDir (getOptions s a) g x y d))) ≠ CELL_BORDER ∧
      walkGrid (getOptions s a) g k
        (cellFromXY (getOptions s a) (x + dirDX (nextDir (getOptions s a) g x y d))
          (y + dirDY (nextDir (getOptions s a) g x y d)))
        (nextDir (getOptions s a) g x y d) = some r) := by
  have hd' := (nextDir_spec (getOptions s a) g x y hg.dir).1
  rw [walkGrid_succ,
    if_neg (by rw [lookAhead_cell _ g x y hg.dir]; exact lookAheadRef_ne_center hF)] at h
  cases ht : turnLoop (getOptions s a) g (cellFromXY (getOptions s a) x y) (k + 1)
      (lookAhead (getOptions s a) g (cellFromXY (getOptions s a) x y) d) d with
  | none =>
    rw [ht] at h
    exact absurd h (by simp)
  | some t =>
    have hout := turnLoop_good_any hv hg hF (k + 1) t ht
    subst hout
    rw [ht] at h
    simp only at h
    rw [goAhead_cell _ x y hd'] at h
    by_cases hb : g (cellFromXY (getOptions s a) (x + dirDX (nextDir (getOptions s a) g x y d))
        (y + dirDY (nextDir (getOptions s a) g x y d))) = CELL_BORDER
    · rw [if_pos hb] at h
      simp only [Option.some.injEq] at h
      exact Or.inl ⟨hb, h.symm⟩
    · rw [if_neg hb] at h
      exact Or.inr ⟨hb, h⟩

/-- A pass from a good state with no atom directly ahead that advances to a
    cell inside the board. -/
theorem walkGrid_pass_go {s a : Int} {g : Grid} {x y d : Int}
    (hv : ValidBoard (getOptions s a) g) (hg : Good s a g x y d)
    (hF : ¬ isAtom (getOptions s a) g (x + dirDX d) (y + dirDY d))
    (hb : g (cellFromXY (getOptions s a) (x + dirDX (nextDir (getOptions s a) g x y d))
      (y + dirDY (nextDir (getOptions s a) g x y d))) ≠ CELL_BORDER) (f : Nat) :
    walkGrid (getOptions s a) g (f + 2) (cellFromXY (getOptions s a) x y) d =
      walkGrid (getOptions s a) g (f + 1)
        (cellFromXY (getOptions s a) (x + dirDX (nextDir (getOptions s a) g x y d))
          (y + dirDY (nextDir (getOptions s a) g x y d)))
        (nextDir (getOptions s a) g x y d) := by
  have hd' := (nextDir_spec (getOptions s a) g x y hg.dir).1
  rw [walkGrid_succ,
    if_neg (by rw [lookAhead_cell _ g x y hg.dir]; exact lookAheadRef_ne_center hF),
    turnLoop_good hv hg hF f]
  simp only
  rw [goAhead_cell _ x y hd', if_neg hb]

/-- The walk read backwards: when the walk from a good state `(x, y, d)`
    returns an exit cell, the walk from that cell, entered with its entry
    direction, comes after `j` passes to the cell `(x, y)` with the direction
    opposite to the one the forward beam left it with. -/
theorem reverse_run {s a : Int} {g : Grid} (hv : ValidBoard (getOptions s a) g) :
    ∀ (n : Nat) (x y d r : Int), Good s a g x y d →
      walkGrid (getOptions s a) g n (cellFromXY (getOptions s a) x y) d = some r → r ≠ 0 →
      ¬ isAtom (getOptions s a) g (x + dirDX d) (y + dirDY d) ∧
      ∃ X Y D, ∃ j : Nat, r = cellFromXY (getOptions s a) X Y ∧ EntryState s X Y D ∧
        ∀ m : Nat, walkGrid (getOptions s a) g (m + 1 + j) (cellFromXY (getOptions s a) X Y) D =
          walkGrid (getOptions s a) g (m + 1) (cellFromXY (getOptions s a) x y)
            (dirOpp (nextDir (getOptions s a) g x y d)) := by
  intro n
  induction n with
  | zero =>
    intro x y d r _ h
    rw [walkGrid] at h
    exact absurd h (by simp)
  | succ k ih =>
    intro x y d r hg h hr0
    have hd := hg.dir
    have hF : ¬ isAtom (getOptions s a) g (x + dirDX d) (y + dirDY d) := by
      intro hF
      rw [walkGrid_pass_absorb hg hF k] at h
      simp only [Option.some.injEq] at h
      exact hr0 h.symm
    refine ⟨hF, ?_⟩
    obtain ⟨hd', -⟩ := nextDir_spec (getOptions s a) g x y hd
    obtain ⟨ho, hox, hoy⟩ := dirOpp_spec hd'
    obtain ⟨hgE, hFE, hnE⟩ := rev_good hg hF
    obtain ⟨hs1, hs2⟩ := good_step hv hg hF
    have hx1 := hg.x1
    have hxs := hg.xs
    have hy1 := hg.y1
    have hys := hg.ys
    have hnb : g (cellFromXY (getOptions s a) x y) ≠ CELL_BORDER :=
      valid_inner_not_border hv hx1 hxs hy1 hys
    rcases walkGrid_good_unfold hv hg hF k h with ⟨hb, hr⟩ | ⟨hb, hw⟩
    · have hex := hs1 hb
      have he : EntryState s (x + dirDX (nextDir (getOptions s a) g x y d))
          (y + dirDY (nextDir (getOptions s a) g x y d))
          (dirOpp (nextDir (getOptions s a) g x y d)) :=
        entry_of_exit hd' hex (by omega) (by omega) (by omega) (by omega)
      refine ⟨_, _, _, 1, hr, he, ?_⟩
      intro m
      rw [walkGrid_pass_entry hv he
        (not_isAtom_of_eq hg.here (by omega) (by omega))
        (not_isAtom_of_eq hgE.sideL (by omega) (by omega))
        (not_isAtom_of_eq hgE.sideR (by omega) (by omega)) (m + 1)]
      rw [cell_congr (getOptions s a) (x := x) (y := y) (by omega) (by omega)]
    · have hgn := hs2 hb
      obtain ⟨hFn, X, Y, D, j, hr, he, hrun⟩ := ih _ _ _ r hgn hw hr0
      obtain ⟨hgE2, hFE2, hnE2⟩ := rev_good hgn hFn
      refine ⟨X, Y, D, j + 1, hr, he, ?_⟩
      intro m
      have e1 : m + 1 + (j + 1) = (m + 1) + 1 + j := by omega
      have hb2 : g (cellFromXY (getOptions s a)
          (x + dirDX (nextDir (getOptions s a) g x y d) +
            dirDX (nextDir (getOptions s a) g
              (x + dirDX (nextDir (getOptions s a) g x y d))
              (y + dirDY (nextDir (getOptions s a) g x y d))
              (dirOpp (nextDir (getOptions s a) g
                (x + dirDX (nextDir (getOptions s a) g x y d))
                (y + dirDY (nextDir (getOptions s a) g x y d))
                (nextDir (getOptions s a) g x y d)))))
          (y + dirDY (nextDir (getOptions s a) g x y d) +
            dirDY (nextDir (getOptions s a) g
              (x + dirDX (nextDir (getOptions s a) g x y d))
              (y + dirDY (nextDir (getOptions s a) g x y d))
              (dirOpp (nextDir (getOptions s a) g
                (x + dirDX (nextDir (getOptions s a) g x y d))
                (y + dirDY (nextDir (getOptions s a) g x y d))
                (nextDir (getOptions s a) g x y d)))))) ≠ CELL_BORDER := by
        rw [hnE2, cell_congr (getOptions s a) (x := x) (y := y) (by omega) (by omega)]
        exact hnb
      rw [e1, hrun (m + 1), walkGrid_pass_go hv hgE2 hFE2 hb2 m, hnE2,
        cell_congr (getOptions s a) (x := x) (y := y) (by omega) (by omega)]

theorem getExitNode_entry (s a n dir0 : Int) (hs : 1 ≤ s) (h1 : 1 ≤ n) (h2 : n ≤ 4 * s) :
    getExitNode (getOptions s a) (getEntryNode (getOptions s a) n dir0).1 = n := by
  rw [getEntryNode_of_node s a n dir0 hs h1 h2]
  by_cases c1 : n ≤ s
  · simp only [if_pos c1]
    rw [getExitNode_cellFromXY _ 0 n (by omega) (by simp; omega) (by omega)]
    simp only [getOptions_iSize, getOptions_iWidth]
    split_ifs <;> omega
  · by_cases c2 : n ≤ 2 * s
    · simp only [if_neg c1, if_pos c2]
      rw [getExitNode_cellFromXY _ (n - s) (s + 1) (by omega) (by simp; omega) (by omega)]
      simp only [getOptions_iSize, getOptions_iWidth]
      split_ifs <;> omega
    · by_cases c3 : n ≤ 3 * s
      · simp only [if_neg c1, if_neg c2, if_pos c3]
        rw [getExitNode_cellFromXY _ (s + 1) (3 * s + 1 - n) (by omega) (by simp) (by omega)]
        simp only [getOptions_iSize, getOptions_iWidth]
        split_ifs <;> omega
      · simp only [if_neg c1, if_neg c2, if_neg c3]
        rw [getExitNode_cellFromXY _ (4 * s + 1 - n) 0 (by omega) (by simp; omega) (by omega)]
        simp only [getOptions_iSize, getOptions_iWidth]
        split_ifs <;> omega

/-- The walk from an entry state that returns the cell of another entry state
    can be walked back: the walk from that cell, entered with its entry
    direction, returns the first entry cell. -/
theorem walkGrid_reverse {s a : Int} {g : Grid} {x y d u v e : Int}
    (hv : ValidBoard (getOptions s a) g) (he : EntryState s x y d) (he' : EntryState s u v e)
    (hne : cellFromXY (getOptions s a) u v ≠ cellFromXY (getOptions s a) x y) (f : Nat)
    (h : walkGrid (getOptions s a) g f (cellFromXY (getOptions s a) x y) d =
      some (cellFromXY (getOptions s a) u v)) :
    ∃ j : Nat, walkGrid (getOptions s a) g j (cellFromXY (getOptions s a) u v) e =
      some (cellFromXY (getOptions s a) x y) := by
  obtain ⟨hd, hex, i1, i2, i3, i4, hu⟩ := entryState_facts he
  obtain ⟨hd2, hex2, -⟩ := entryState_facts he'
  have hbe := exitCell_ring hv hex
  have hr0 : cellFromXY (getOptions s a) u v ≠ 0 := exitCell_ne_zero hex2
  obtain ⟨k, rfl⟩ : ∃ k, f = k + 1 := by
    cases f with
    | zero => rw [walkGrid] at h; exact absurd h (by simp)
    | succ k => exact ⟨k, rfl⟩
  have h' := h
  rw [walkGrid_succ, lookAhead_cell _ g x y hd] at h'
  by_cases hF : isAtom (getOptions s a) g (x + dirDX d) (y + dirDY d)
  · rw [if_pos (lookAheadRef_center hF)] at h'
    simp only [Option.some.injEq] at h'
    exact absurd h'.symm hr0
  · by_cases hL : isAtom (getOptions s a) g (x + dirDX d + dirDY d) (y + dirDY d - dirDX d)
    · rw [lookAheadRef_left hF hL, if_neg (by decide),
        turnLoop_turn _ _ _ _ _ _ (Or.inl rfl), if_pos hbe] at h'
      simp only [Option.some.injEq] at h'
      exact absurd h'.symm hne
    · by_cases hR : isAtom (getOptions s a) g (x + dirDX d - dirDY d) (y + dirDY d + dirDX d)
      · rw [lookAheadRef_right hF hL hR, if_neg (by decide),
          turnLoop_turn _ _ _ _ _ _ (Or.inr rfl), if_pos hbe] at h'
        simp only [Option.some.injEq] at h'
        exact absurd h'.symm hne
      · have hg := good_first hv he hF hL hR
        rw [walkGrid_pass_entry hv he hF hL hR k] at h
        obtain ⟨hF1, X, Y, D, j, hr, heX, hrun⟩ := reverse_run hv k _ _ _ _ hg h hr0
        obtain ⟨hgE, hFE, hnE⟩ := rev_good hg hF1
        obtain ⟨hod, hodx, hody⟩ := dirOpp_spec hd
        have hXY : u = X ∧ v = Y := by
          obtain ⟨-, hexX, -⟩ := entryState_facts heX
          unfold ExitCell at hex2 hexX
          by_contra hcon
          exact cellFromXY_ne (s := s) (a := a) (x := u) (y := v) (u := X) (v := Y)
            (by omega) (by omega) (by omega) (by omega) (by omega) (by omega) (by omega) hr
        obtain ⟨hX, hY⟩ := hXY
        subst hX
        subst hY
        have hD := entryState_unique heX he'
        subst hD
        have hb : g (cellFromXY (getOptions s a)
            (x + dirDX d + dirDX (nextDir (getOptions s a) g (x + dirDX d) (y + dirDY d)
              (dirOpp (nextDir (getOptions s a) g (x + dirDX d) (y + dirDY d) d))))
            (y + dirDY d + dirDY (nextDir (getOptions s a) g (x + dirDX d) (y + dirDY d)
              (dirOpp (nextDir (getOptions s a) g (x + dirDX d) (y + dirDY d) d))))) =
            CELL_BORDER := by
          rw [hnE, cell_congr (getOptions s a) (x := x) (y := y) (by omega) (by omega)]
          exact hbe
        refine ⟨1 + 1 + j, ?_⟩
        rw [hrun 1, walkGrid_pass_border hv hgE hFE hb 0, hnE,
          cell_congr (getOptions s a) (x := x) (y := y) (by omega) (by omega)]

/-- C24: for every size `s`, every valid board and all nodes `na`, `nb` in
    `1..4*s` with `na ≠ nb`: if `walkGrid`, started with the entry cell and
    direction of `na`, returns the entry cell of `nb` (the trial is reported
    as exited at `nb`), then `walkGrid`, started with the entry cell and
    direction of `nb`, returns the entry cell of `na` for every iteration
    bound from `4*s*s+3` on, and that trial is reported as exited at `na`. -/
theorem beam_paths_reversible (s a na nb dir0 dir1 : Int) (g : Grid)
    (hv : ValidBoard (getOptions s a) g) (ha1 : 1 ≤ na) (ha2 : na ≤ 4 * s)
    (hb1 : 1 ≤ nb) (hb2 : nb ≤ 4 * s) (hab : na ≠ nb) (fuel : Nat)
    (hw : walkGrid (getOptions s a) g fuel (getEntryNode (getOptions s a) na dir0).1
      (getEntryNode (getOptions s a) na dir0).2 =
        some (getEntryNode (getOptions s a) nb dir1).1) :
    classify (getOptions s a) (getEntryNode (getOptions s a) na dir0).1
        (getEntryNode (getOptions s a) nb dir1).1 = Outcome.exited nb ∧
    ∀ fuel' : Nat, 4 * s.toNat * s.toNat + 3 ≤ fuel' →
      walkGrid (getOptions s a) g fuel' (getEntryNode (getOptions s a) nb dir1).1
          (getEntryNode (getOptions s a) nb dir1).2 =
        some (getEntryNode (getOptions s a) na dir0).1 ∧
      classify (getOptions s a) (getEntryNode (getOptions s a) nb dir1).1
        (getEntryNode (getOptions s a) na dir0).1 = Outcome.exited na := by
  have hs : 1 ≤ s := by omega
  have hna := getExitNode_entry s a na dir0 hs ha1 ha2
  have hnb := getExitNode_entry s a nb dir1 hs hb1 hb2
  obtain ⟨x, y, d, e, he⟩ := getEntryNode_entryState s a na dir0 hs ha1 ha2
  obtain ⟨u, v, d', e', he'⟩ := getEntryNode_entryState s a nb dir1 hs hb1 hb2
  rw [e] at hw hna ⊢
  rw [e'] at hw hnb ⊢
  simp only at hw hna hnb ⊢
  obtain ⟨-, hex, -⟩ := entryState_facts he
  obtain ⟨-, hex', -⟩ := entryState_facts he'
  have hne : cellFromXY (getOptions s a) u v ≠ cellFromXY (getOptions s a) x y := by
    intro hc
    rw [hc, hna] at hnb
    exact hab hnb
  have hc1 : classify (getOptions s a) (cellFromXY (getOptions s a) x y)
      (cellFromXY (getOptions s a) u v) = Outcome.exited nb := by
    unfold classify
    rw [if_neg hne, if_neg (exitCell_ne_zero hex'), hnb]
  have hc2 : classify (getOptions s a) (cellFromXY (getOptions s a) u v)
      (cellFromXY (getOptions s a) x y) = Outcome.exited na := by
    unfold classify
    rw [if_neg (fun hc => hne hc.symm), if_neg (exitCell_ne_zero hex), hna]
  refine ⟨hc1, ?_⟩
  intro fuel' hf
  refine ⟨?_, hc2⟩
  obtain ⟨j, hj⟩ := walkGrid_reverse hv he he' hne fuel hw
  obtain ⟨r, hr, -⟩ := walkGrid_entry hv he' fuel' hf
  have m1 := walkGrid_mono _ g _ _ _ _ hj (j + fuel') (by omega)
  have m2 := walkGrid_mono _ g _ _ _ _ hr (j + fuel') (by omega)
  rw [m1] at m2
  simp only [Option.some.injEq] at m2
  rw [hr, ← m2]

theorem beam_paths_reversible_witness :
    classify (getOptions 4 3) (getEntryNode (getOptions 4 3) 1 DIR_NONE).1
        (getEntryNode (getOptions 4 3) 15 DIR_NONE).1 = Outcome.exited 15 ∧
    walkGrid (getOptions 4 3) (boardWith 4 [(3, 2), (2, 4), (3, 4)]) 67
        (getEntryNode (getOptions 4 3) 15 DIR_NONE).1
        (getEntryNode (getOptions 4 3) 15 DIR_NONE).2 =
      some (getEntryNode (getOptions 4 3) 1 DIR_NONE).1 :=
  ⟨(beam_paths_reversible 4 3 1 15 DIR_NONE DIR_NONE (boardWith 4 [(3, 2), (2, 4), (3, 4)])
      (boardWith_valid 4 3 _) (by decide) (by decide) (by decide) (by decide) (by decide) 67
      (by decide)).1,
    ((beam_paths_reversible 4 3 1 15 DIR_NONE DIR_NONE (boardWith 4 [(3, 2), (2, 4), (3, 4)])
      (boardWith_valid 4 3 _) (by decide) (by decide) (by decide) (by decide) (by decide) 67
      (by decide)).2 67 (by decide)).1⟩

end Blackbox
